import Mathlib

/-!
# uw2_gr_tool: a verification development

A shallow embedding of `src/uw2_gr_tool.cpp` (the "Ultima Underworld II" .GR
extracter/rebuilder) and theorems about it.

Modelling conventions, used throughout:

* a byte buffer (`std::vector<unsigned char>`, the content of a file) is a
  `List Nat`, and a `std::string` is the `List Char` of its characters;
* `unsigned long` and `long` are 32 bits wide and the byte order is
  little-endian, as the sizes 14 and 40 returned by `BmpHeader::get_size` and
  `BmpInfoHeader::get_size` require; the definitions whose name ends in
  `_sized` take the number of bytes of `long` as an argument instead, and
  describe at 8 the builds where `long` is 64 bits wide;
* a function of the source that indexes a buffer returns an `Option`: the
  result `none` stands for an access outside the buffer (behaviour the
  language leaves undefined), and for nothing else unless a definition says so;
* a function of the source that returns `bool` and changes the object it is
  called on returns the pair of the flag and the new object;
* console output is not modelled.
-/

namespace Uw2GrTool

/-! ## Definitions -/

abbrev Buffer := List Nat

abbrev Palette := Buffer

/-- The type `unsigned char[16]`: one auxiliary palette. -/
abbrev AuxPalette := Fin 16 → Nat

/-- The type `AuxPalette[32]`: the table of auxiliary palettes. -/
abbrev AuxPalettes := Fin 32 → AuxPalette

def k_max_width : Int := 255
def k_max_height : Int := 255
def k_panel_width : Nat := 79
def k_panel_height : Nat := 112
def k_panel_border_width : Nat := 3
def k_panel_border_height : Nat := 112

/-- The class `NibbleReader`. `data` is the buffer `data_` points at;
`nibble_buffer0` and `nibble_buffer1` are the two cells of `nibble_buffer_`. -/
structure NibbleReader where
  nibble_index : Nat
  nibble_buffer0 : Nat
  nibble_buffer1 : Nat
  data : Buffer
  data_size : Nat
  data_offset : Nat
  deriving DecidableEq, Repr

/-- The constructor `NibbleReader(data, data_size)`. The source leaves
`nibble_buffer_` uninitialised; it is never read before `read` fills it. -/
def NibbleReader.mk_reader (data : Buffer) (data_size : Nat) : NibbleReader :=
  { nibble_index := 2, nibble_buffer0 := 0, nibble_buffer1 := 0,
    data := data, data_size := data_size, data_offset := 0 }

/-- The method `NibbleReader::read`: the nibble returned and the reader after
the call. `octet >> 4` is written `/ 16` and `octet & 0x0F` is written `% 16`;
`octet` is an `unsigned char`, hence the `% 256`. -/
def NibbleReader.read (r : NibbleReader) : Option (Nat × NibbleReader) :=
  if r.data_offset = r.data_size then
    some (0, r)
  else if r.nibble_index = 2 then
    match r.data[r.data_offset]? with
    | none => none
    | some octet =>
      some (octet % 256 / 16,
        { r with nibble_buffer0 := octet % 256 / 16, nibble_buffer1 := octet % 16,
                 nibble_index := 1, data_offset := r.data_offset + 1 })
  else
    some (if r.nibble_index = 0 then r.nibble_buffer0 else r.nibble_buffer1,
      { r with nibble_index := r.nibble_index + 1 })

/-- The results of the first `k` calls of `read`, in order. -/
def NibbleReader.read_many : Nat → NibbleReader → Option (List Nat × NibbleReader)
  | 0, r => some ([], r)
  | k + 1, r =>
    match r.read with
    | none => none
    | some (v, r1) =>
      match NibbleReader.read_many k r1 with
      | none => none
      | some (vs, r2) => some (v :: vs, r2)

/-- The enumeration `Bitmap::Special`. -/
inductive Special where
  | e_none
  | e_default
  | e_panel
  | e_last_panel
  deriving DecidableEq, Repr

/-- The class `Bitmap`. `palette` is the palette the pointer refers to (`none`
for `NULL`); `aux_palette` is the index of the entry of `g_aux_palettes` the
pointer refers to (`none` for `NULL`). The fields `type`, `width`, `height`
and `data_size` only ever receive values read from unsigned bytes or 16-bit
words, products of two of them, or constants, so they are naturals. -/
structure Bitmap where
  type : Nat
  width : Nat
  height : Nat
  data_size : Nat
  special : Special
  pixels : Buffer
  palette : Option Palette
  aux_palette : Option (Fin 32)
  deriving DecidableEq, Repr

/-- The constructor `Bitmap()`. -/
def Bitmap.new : Bitmap :=
  { type := 0, width := 0, height := 0, data_size := 0, special := Special.e_none,
    pixels := [], palette := none, aux_palette := none }

def Bitmap.is_empty (b : Bitmap) : Bool := b.pixels.isEmpty

def Bitmap.is_compressed (b : Bitmap) : Bool := b.type != 4

def Bitmap.get_size_in_bytes (b : Bitmap) : Nat :=
  if b.is_compressed then (b.data_size + 1) / 2 else b.data_size

/-- The expression `(*aux_palette)[nibble]`. -/
def aux_lookup (aux : Option AuxPalette) (nibble : Nat) : Option Nat :=
  match aux with
  | none => none
  | some p => if h : nibble < 16 then some (p ⟨nibble, h⟩) else none

/-- The local variables of the type-8 loop of `Bitmap::decompress`. -/
structure DecompressState where
  reader : NibbleReader
  buffer : Buffer
  buffer_offset : Nat
  pixel_count : Nat
  stage : Nat
  count : Int
  record : Nat
  repeat_count : Int
  deriving DecidableEq, Repr

/-- The first `switch` of the loop body: the count field decoder. The new
`stage` and `count`. `(count << 4) | nibble` is written `count * 16 + nibble`
(the low four bits of the shifted count are clear and a nibble is below 16). -/
def decode_stage (stage : Nat) (count : Int) (nibble : Nat) : Nat × Int :=
  if stage = 0 then
    if nibble = 0 then (1, count) else (6, (nibble : Int))
  else if stage = 1 then
    (2, (nibble : Int))
  else if stage = 2 then
    let c := count * 16 + (nibble : Int)
    if c = 0 then (3, c) else (6, c)
  else if stage = 3 ∨ stage = 4 ∨ stage = 5 then
    (stage + 1, count * 16 + (nibble : Int))
  else
    (stage, count)

/-- The first `switch` of the loop body applied to the nibbles of a list in
turn, from the `stage` and `count` given. The count field is complete when
`stage` is 6; the `switch` has no case for that value and changes nothing. -/
def decode_stages : Nat × Int → List Nat → Nat × Int
  | sc, [] => sc
  | sc, nibble :: rest => decode_stages (decode_stage sc.1 sc.2 nibble) rest

/-- The `for` loop of the repeat record: `n` iterations are left; the buffer,
`buffer_offset` and `pixel_count` after the loop. -/
def repeat_write (aux : Option AuxPalette) (nibble area : Nat) :
    Nat → Buffer → Nat → Nat → Option (Buffer × Nat × Nat)
  | 0, buffer, buffer_offset, pixel_count => some (buffer, buffer_offset, pixel_count)
  | n + 1, buffer, buffer_offset, pixel_count =>
    match aux_lookup aux nibble with
    | none => none
    | some color =>
      if buffer_offset < buffer.length then
        if pixel_count + 1 ≥ area then
          some (buffer.set buffer_offset color, buffer_offset + 1, pixel_count + 1)
        else
          repeat_write aux nibble area n (buffer.set buffer_offset color)
            (buffer_offset + 1) (pixel_count + 1)
      else none

/-- The second `switch` of the loop body, entered when `stage` is 6 or more,
followed by the final `stage = 0` where the source reaches it (a `break` of the
switch) and not where it leaves the iteration with `continue`. -/
def decode_record (aux : Option AuxPalette) (area nibble : Nat)
    (s : DecompressState) : Option DecompressState :=
  if s.record = 0 then
    if s.count = 1 then some { s with record := 3, stage := 0 }
    else if s.count = 2 then some { s with record := 2, stage := 0 }
    else some { s with record := 1 }
  else if s.record = 1 then
    match repeat_write aux nibble area s.count.toNat s.buffer s.buffer_offset s.pixel_count with
    | none => none
    | some (buffer, buffer_offset, pixel_count) =>
      if s.repeat_count = 0 then
        some { s with buffer := buffer, buffer_offset := buffer_offset,
                      pixel_count := pixel_count, record := 3, stage := 0 }
      else
        some { s with buffer := buffer, buffer_offset := buffer_offset,
                      pixel_count := pixel_count, repeat_count := s.repeat_count - 1,
                      record := 0, stage := 0 }
  else if s.record = 2 then
    some { s with repeat_count := s.count - 1, record := 0, stage := 0 }
  else if s.record = 3 then
    some { s with record := 4 }
  else if s.record = 4 then
    match aux_lookup aux nibble with
    | none => none
    | some color =>
      if s.buffer_offset < s.buffer.length then
        if s.count - 1 = 0 then
          some { s with buffer := s.buffer.set s.buffer_offset color,
                        buffer_offset := s.buffer_offset + 1,
                        pixel_count := s.pixel_count + 1,
                        count := s.count - 1, record := 0, stage := 0 }
        else
          some { s with buffer := s.buffer.set s.buffer_offset color,
                        buffer_offset := s.buffer_offset + 1,
                        pixel_count := s.pixel_count + 1,
                        count := s.count - 1 }
      else none
  else
    some { s with stage := 0 }

/-- One iteration of the type-8 loop: read a nibble, decode the count field,
and, once `stage` has reached 6, interpret the record. -/
def decompress_step (aux : Option AuxPalette) (area : Nat)
    (s : DecompressState) : Option DecompressState :=
  match s.reader.read with
  | none => none
  | some (nibble, reader) =>
    let sc := decode_stage s.stage s.count nibble
    let s1 := { s with reader := reader, stage := sc.1, count := sc.2 }
    if s1.stage < 6 then some s1 else decode_record aux area nibble s1

/-- The loop `while (data_length > 0 && pixel_count < area)`; the first
argument is `data_length`, which every iteration decrements. -/
def decompress_loop (aux : Option AuxPalette) (area : Nat) :
    Nat → DecompressState → Option DecompressState
  | 0, s => some s
  | data_length + 1, s =>
    if s.pixel_count < area then
      match decompress_step aux area s with
      | none => none
      | some s1 => decompress_loop aux area data_length s1
    else some s

/-- The loop `while (data_length > 0 && pixel_count < area)` once more, with
the value `data_length` has when the loop ends beside the final state. Every
iteration calls `reader.read()` once and decrements `data_length`, so the
number of nibbles read is `data_size` minus that value. -/
def decompress_loop_left (aux : Option AuxPalette) (area : Nat) :
    Nat → DecompressState → Option (Nat × DecompressState)
  | 0, s => some (0, s)
  | data_length + 1, s =>
    if s.pixel_count < area then
      match decompress_step aux area s with
      | none => none
      | some s1 => decompress_loop_left aux area data_length s1
    else some (data_length + 1, s)

/-- The initial state of the type-8 loop of `decompress` for a record. -/
def decompress_start (b : Bitmap) : DecompressState :=
  { reader := NibbleReader.mk_reader b.pixels b.get_size_in_bytes,
    buffer := List.replicate (b.width * b.height) 0, buffer_offset := 0,
    pixel_count := 0, stage := 0, count := 0, record := 0, repeat_count := 0 }

/-- The loop `for (int i = 0; i < data_size; ++i) buffer[i] = reader.read();`
of the type-10 branch; the first argument counts the iterations left. -/
def plain_loop : Nat → Nat → NibbleReader → Buffer → Option Buffer
  | 0, _, _, buffer => some buffer
  | n + 1, i, reader, buffer =>
    match reader.read with
    | none => none
    | some (v, reader1) =>
      if i < buffer.length then plain_loop n (i + 1) reader1 (buffer.set i v) else none

/-- The method `Bitmap::decompress`: the content of `buffer` on return. -/
def Bitmap.decompress (b : Bitmap) (g_aux_palettes : AuxPalettes) : Option Buffer :=
  if !b.is_compressed then some b.pixels
  else if b.pixels.isEmpty then some []
  else
    let buffer := List.replicate (b.width * b.height) 0
    let after8 : Option Buffer :=
      if b.type = 8 then
        (decompress_loop (b.aux_palette.map g_aux_palettes) (b.width * b.height) b.data_size
          { reader := NibbleReader.mk_reader b.pixels b.get_size_in_bytes,
            buffer := buffer, buffer_offset := 0, pixel_count := 0, stage := 0,
            count := 0, record := 0, repeat_count := 0 }).map (fun s => s.buffer)
      else some buffer
    match after8 with
    | none => none
    | some buffer1 =>
      if b.type = 10 then
        plain_loop b.data_size 0 (NibbleReader.mk_reader b.pixels b.data_size) buffer1
      else some buffer1

/-! ### Little-endian values in a byte stream -/

/-- The bytes `write_value` emits for an `unsigned short`. -/
def le16 (v : Nat) : Buffer := [v % 256, v / 256 % 256]

/-- The bytes `write_value` emits for an `unsigned long`. -/
def le32 (v : Nat) : Buffer := [v % 256, v / 256 % 256, v / 65536 % 256, v / 16777216 % 256]

/-- The bytes `write_value` emits for a `long` (two's complement). -/
def le32_long (v : Int) : Buffer := le32 (v % 4294967296).toNat

/-- The value of a little-endian byte sequence. -/
def from_le : Buffer → Nat
  | [] => 0
  | b :: bs => b + 256 * from_le bs

/-- The conversion of a 32-bit unsigned value to `long` or `int`. -/
def to_long (v : Nat) : Int := if v < 2147483648 then (v : Int) else (v : Int) - 4294967296

/-- The function `::abs` on a `long`, as two's complement hardware computes it:
the most negative value is its own absolute value. -/
def abs_long (v : Int) : Int := if v = -2147483648 then v else |v|

/-- The function `read_value` for a type of `size` bytes: the value and the
rest of the stream, or `none` when the stream ends first (the stream is then
in a failed state and every later read fails too). -/
def read_value (size : Nat) (stream : Buffer) : Option (Nat × Buffer) :=
  if size ≤ stream.length then some (from_le (stream.take size), stream.drop size) else none

/-- The class `BmpHeader`. -/
structure BmpHeader where
  bfType : Nat
  bfSize : Nat
  bfReserved1 : Nat
  bfReserved2 : Nat
  bfOffBits : Nat
  deriving DecidableEq, Repr

def BmpHeader.save_to_stream (h : BmpHeader) : Buffer :=
  le16 h.bfType ++ le32 h.bfSize ++ le16 h.bfReserved1 ++ le16 h.bfReserved2 ++ le32 h.bfOffBits

/-- The method `BmpHeader::load_from_stream`; `none` when the stream failed. -/
def BmpHeader.load_from_stream (stream : Buffer) : Option (BmpHeader × Buffer) :=
  match read_value 2 stream with
  | none => none
  | some (bfType, s1) =>
  match read_value 4 s1 with
  | none => none
  | some (bfSize, s2) =>
  match read_value 2 s2 with
  | none => none
  | some (bfReserved1, s3) =>
  match read_value 2 s3 with
  | none => none
  | some (bfReserved2, s4) =>
  match read_value 4 s4 with
  | none => none
  | some (bfOffBits, s5) =>
    some ({ bfType := bfType, bfSize := bfSize, bfReserved1 := bfReserved1,
            bfReserved2 := bfReserved2, bfOffBits := bfOffBits }, s5)

/-- The class `BmpInfoHeader`; the fields of type `long` are integers. -/
structure BmpInfoHeader where
  biSize : Nat
  biWidth : Int
  biHeight : Int
  biPlanes : Nat
  biBitCount : Nat
  biCompression : Nat
  biSizeImage : Nat
  biXPelsPerMeter : Int
  biYPelsPerMeter : Int
  biClrUsed : Nat
  biClrImportant : Nat
  deriving DecidableEq, Repr

def BmpInfoHeader.save_to_stream (h : BmpInfoHeader) : Buffer :=
  le32 h.biSize ++ le32_long h.biWidth ++ le32_long h.biHeight ++ le16 h.biPlanes ++
    le16 h.biBitCount ++ le32 h.biCompression ++ le32 h.biSizeImage ++
    le32_long h.biXPelsPerMeter ++ le32_long h.biYPelsPerMeter ++ le32 h.biClrUsed ++
    le32 h.biClrImportant

/-- The method `BmpInfoHeader::load_from_stream`; `none` when the stream failed. -/
def BmpInfoHeader.load_from_stream (stream : Buffer) : Option (BmpInfoHeader × Buffer) :=
  match read_value 4 stream with
  | none => none
  | some (biSize, s1) =>
  match read_value 4 s1 with
  | none => none
  | some (biWidth, s2) =>
  match read_value 4 s2 with
  | none => none
  | some (biHeight, s3) =>
  match read_value 2 s3 with
  | none => none
  | some (biPlanes, s4) =>
  match read_value 2 s4 with
  | none => none
  | some (biBitCount, s5) =>
  match read_value 4 s5 with
  | none => none
  | some (biCompression, s6) =>
  match read_value 4 s6 with
  | none => none
  | some (biSizeImage, s7) =>
  match read_value 4 s7 with
  | none => none
  | some (biXPelsPerMeter, s8) =>
  match read_value 4 s8 with
  | none => none
  | some (biYPelsPerMeter, s9) =>
  match read_value 4 s9 with
  | none => none
  | some (biClrUsed, s10) =>
  match read_value 4 s10 with
  | none => none
  | some (biClrImportant, s11) =>
    some ({ biSize := biSize, biWidth := to_long biWidth, biHeight := to_long biHeight,
            biPlanes := biPlanes, biBitCount := biBitCount, biCompression := biCompression,
            biSizeImage := biSizeImage, biXPelsPerMeter := to_long biXPelsPerMeter,
            biYPelsPerMeter := to_long biYPelsPerMeter, biClrUsed := biClrUsed,
            biClrImportant := biClrImportant }, s11)

def BmpInfoHeader.is_compressed (h : BmpInfoHeader) : Bool := h.biCompression != 0

/-! ### Archive record decode -/

/-- The end of `Bitmap::load_from_gr`, from the test of `special` that guards
the read of `data_size`; `p` is the position of `octets` in `data`. -/
def Bitmap.load_payload (b : Bitmap) (data : Buffer) (p : Nat) (special : Special)
    (palette : Palette) : Option (Bool × Bitmap) :=
  let sized : Option (Bitmap × Nat) :=
    if special = Special.e_none ∨ special = Special.e_default then
      match data[p]?, data[p + 1]? with
      | some lo, some hi => some ({ b with data_size := lo + 256 * hi }, p + 2)
      | _, _ => none
    else some (b, p)
  match sized with
  | none => none
  | some (b2, p2) =>
    if p2 + b2.get_size_in_bytes ≤ data.length then
      some (true, { b2 with pixels := (data.drop p2).take b2.get_size_in_bytes,
                            palette := some palette })
    else none

/-- The start of `Bitmap::load_from_gr`, called with the pointer
`&data[offset]`: the kind and the dimensions, read from the header or implied
by `special`, and the position of `octets` after them. -/
def Bitmap.load_header (b : Bitmap) (data : Buffer) (offset : Nat) (special : Special) :
    Option (Bitmap × Nat) :=
  if special = Special.e_default then
    match data[offset]?, data[offset + 1]?, data[offset + 2]? with
    | some t, some w, some h => some ({ b with type := t, width := w, height := h }, offset + 3)
    | _, _, _ => none
  else
    let w := if special = Special.e_last_panel then k_panel_border_width else k_panel_width
    let h := if special = Special.e_last_panel then k_panel_border_height else k_panel_height
    some ({ b with type := 4, width := w, height := h, data_size := w * h }, offset)

/-- The method `Bitmap::load_from_gr`, called with the pointer `&data[offset]`.
The table of auxiliary palettes is not an argument here: the record keeps the
index of its entry. -/
def Bitmap.load_from_gr (b : Bitmap) (data : Buffer) (offset : Nat) (special : Special)
    (palette : Palette) : Option (Bool × Bitmap) :=
  match b.load_header data offset special with
  | none => none
  | some (b1, p1) =>
    if ¬ (b1.type = 4 ∨ b1.type = 8 ∨ b1.type = 10) then some (false, b1)
    else if b1.is_compressed then
      match data[p1]? with
      | none => none
      | some aux_palette_index =>
        if h : aux_palette_index > 31 then some (false, b1)
        else
          Bitmap.load_payload { b1 with aux_palette := some ⟨aux_palette_index, by omega⟩ }
            data (p1 + 1) special palette
    else Bitmap.load_payload { b1 with aux_palette := none } data p1 special palette

/-! ### Archive container -/

def k_max_file_size : Nat := 1 * 1024 * 1024

/-- The 32-bit little-endian word at position `i` of a buffer. -/
def read_u32 (buffer : Buffer) (i : Nat) : Option Nat :=
  match buffer[i]?, buffer[i + 1]?, buffer[i + 2]?, buffer[i + 3]? with
  | some b0, some b1, some b2, some b3 => some (b0 + 256 * b1 + 65536 * b2 + 16777216 * b3)
  | _, _, _, _ => none

/-- The loop of `load_gr_file` that fills `offsets`: the entries from index `i`
on, `n` of them. The source converts each to `int`; an offset of 2^31 or more
becomes negative there and lies outside the buffer either way, and two offsets
are equal as `int` exactly when they are equal as read. -/
def read_offsets (buffer : Buffer) : Nat → Nat → Option (List Nat)
  | 0, _ => some []
  | n + 1, i =>
    match read_u32 buffer (3 + 4 * i), read_offsets buffer n (i + 1) with
    | some o, some rest => some (o :: rest)
    | _, _ => none

/-- The method `resize` of `std::vector<Bitmap>`. -/
def resize_bitmaps (g_bitmaps : List Bitmap) (n : Nat) : List Bitmap :=
  g_bitmaps.take n ++ List.replicate (n - g_bitmaps.length) Bitmap.new

/-- The record loop of `load_gr_file` from index `i` on, over the bitmaps from
that index on. The flag is `false` when the function returns `false`. -/
def load_records (g_is_panels : Bool) (palette_index : Nat) (g_palettes : List Palette)
    (buffer : Buffer) (offsets : List Nat) (bitmap_count : Nat) :
    Nat → List Bitmap → Option (Bool × List Bitmap)
  | _, [] => some (true, [])
  | i, bitmap :: rest =>
    match offsets[i]?, offsets[i + 1]? with
    | some o0, some o1 =>
      if o1 = o0 then
        match load_records g_is_panels palette_index g_palettes buffer offsets bitmap_count
            (i + 1) rest with
        | none => none
        | some (ok, bitmaps) =>
          some (ok, { bitmap with special := Special.e_none, width := 0, height := 0,
                                  pixels := [], aux_palette := none } :: bitmaps)
      else
        let special :=
          if g_is_panels then
            if i = bitmap_count - 1 then Special.e_last_panel else Special.e_panel
          else Special.e_default
        match g_palettes[palette_index]? with
        | none => none
        | some palette =>
          match bitmap.load_from_gr buffer o0 special palette with
          | none => none
          | some (false, b1) => some (false, b1 :: rest)
          | some (true, b1) =>
            if b1.type ≠ 4 ∧ palette_index ≠ 0 then some (false, b1 :: rest)
            else
              match load_records g_is_panels palette_index g_palettes buffer offsets
                  bitmap_count (i + 1) rest with
              | none => none
              | some (ok, bitmaps) => some (ok, b1 :: bitmaps)
    | _, _ => none

/-- The function `load_gr_file` on the content `buffer` of a file that could
be opened and read: the flag returned and the new value of `g_bitmaps`.
`palette_index` is `g_palette_map[g_original_file_name]`. -/
def load_gr_file (g_is_panels : Bool) (palette_index : Nat) (g_palettes : List Palette)
    (g_bitmaps : List Bitmap) (buffer : Buffer) : Option (Bool × List Bitmap) :=
  if buffer.length = 0 then some (false, g_bitmaps)
  else if buffer.length > k_max_file_size then some (false, g_bitmaps)
  else
    match buffer[0]? with
    | none => none
    | some gr_type =>
      if gr_type ≠ 1 then some (false, g_bitmaps)
      else
        match buffer[1]?, buffer[2]? with
        | some lo, some hi =>
          let bitmap_count := lo + 256 * hi
          if bitmap_count = 0 then some (false, g_bitmaps)
          else
            match read_offsets buffer (bitmap_count + 1) 0 with
            | none => none
            | some offsets =>
              load_records g_is_panels palette_index g_palettes buffer offsets bitmap_count 0
                (resize_bitmaps g_bitmaps bitmap_count)
        | _, _ => none

/-- The number of bytes `save_gr_file` adds to `offset` for one bitmap. -/
def record_size (g_is_panels : Bool) (bitmap : Bitmap) : Nat :=
  if bitmap.is_empty then 0
  else
    bitmap.get_size_in_bytes +
      (if g_is_panels then 0 else 1 + 1 + 1 + (if bitmap.is_compressed then 1 else 0) + 2)

/-- The first loop of `save_gr_file`: the entries `offsets[i + 1]` for the
bitmaps given, `offset` being the running `unsigned long`. -/
def save_offsets (g_is_panels : Bool) : List Bitmap → Nat → List Nat
  | [], _ => []
  | bitmap :: rest, offset =>
    let offset1 := (offset + record_size g_is_panels bitmap) % 4294967296
    offset1 :: save_offsets g_is_panels rest offset1

/-- The table `offsets` of `save_gr_file`. -/
def save_offset_table (g_is_panels : Bool) (g_bitmaps : List Bitmap) : List Nat :=
  let offset := (3 + 4 * (g_bitmaps.length + 1)) % 4294967296
  offset :: save_offsets g_is_panels g_bitmaps offset

/-- The number of bytes one iteration of the last loop of `save_gr_file` hands
to the stream: the header unless the archive is a panel archive, then the
`data_size` bytes of the call `file.write(&bitmap.pixels[0], bitmap.data_size)`. -/
def save_record_length (g_is_panels : Bool) (bitmap : Bitmap) : Nat :=
  if bitmap.is_empty then 0
  else
    (if g_is_panels then 0 else 1 + 1 + 1 + (if bitmap.is_compressed then 1 else 0) + 2) +
      bitmap.data_size

/-- The bytes one iteration of the last loop of `save_gr_file` writes: the
header unless the archive is a panel archive, then `data_size` bytes starting
at `&bitmap.pixels[0]`; `none` when `data_size` exceeds the size of `pixels`
(the write then reads past the payload) or when a compressed record has no
auxiliary palette to take the index of. -/
def save_record (g_is_panels : Bool) (bitmap : Bitmap) : Option Buffer :=
  if bitmap.is_empty then some []
  else
    let header : Option Buffer :=
      if g_is_panels then some []
      else
        let aux : Option Buffer :=
          if bitmap.is_compressed then
            match bitmap.aux_palette with
            | none => none
            | some aux_palette_index => some [aux_palette_index.val % 256]
          else some []
        match aux with
        | none => none
        | some a =>
          some ([bitmap.type % 256, bitmap.width % 256, bitmap.height % 256] ++ a ++
            le16 bitmap.data_size)
    match header with
    | none => none
    | some h =>
      if bitmap.data_size ≤ bitmap.pixels.length then
        some (h ++ bitmap.pixels.take bitmap.data_size)
      else none

/-- The last loop of `save_gr_file`. -/
def save_records (g_is_panels : Bool) : List Bitmap → Option Buffer
  | [] => some []
  | bitmap :: rest =>
    match save_record g_is_panels bitmap, save_records g_is_panels rest with
    | some r, some rs => some (r ++ rs)
    | _, _ => none

/-- The function `save_gr_file`: the bytes written to a file that could be
opened, the user not having declined. -/
def save_gr_file (g_is_panels : Bool) (g_bitmaps : List Bitmap) : Option Buffer :=
  match save_records g_is_panels g_bitmaps with
  | none => none
  | some records =>
    some ([1] ++ le16 g_bitmaps.length ++
      (save_offset_table g_is_panels g_bitmaps).flatMap le32 ++ records)

/-! ### Export to the indexed-bitmap file format -/

/-- The expression `static_cast<unsigned char>(v * 255.0F / 63.0F)` for a byte
`v`. The product is exact in single precision; the quotient `v * 85 / 21` is
either an integer or at least 1/21 away from one, far more than the rounding
error of the division, so the truncation is that of the exact quotient. The
conversion to `unsigned char` keeps the low eight bits. -/
def scale_channel (v : Nat) : Nat := v * 255 / 63 % 256

/-- One iteration of the palette loop of `export_to_bmp`: the four bytes
`bmp_palette[4 * i]` to `bmp_palette[4 * i + 3]`. -/
def bmp_palette_entry (palette : Palette) (i : Nat) : Option Buffer :=
  match palette[3 * i + 2]?, palette[3 * i + 1]?, palette[3 * i + 0]? with
  | some b, some g, some r => some [scale_channel b, scale_channel g, scale_channel r, 0]
  | _, _, _ => none

/-- The palette loop of `export_to_bmp` from entry `i` on, `n` entries. -/
def bmp_palette_block (palette : Palette) : Nat → Nat → Option Buffer
  | 0, _ => some []
  | n + 1, i =>
    match bmp_palette_entry palette i, bmp_palette_block palette n (i + 1) with
    | some e, some rest => some (e ++ rest)
    | _, _ => none

/-- The row loop of `export_to_bmp` (the case `pad != 0`) from row `i` on, `n`
rows: `width` bytes starting at `&bmp_color_indices[i * width]`, then `pad`
bytes of the array `padding`, which the source does not initialise; its
content is the argument `padding`. -/
def export_rows (bmp_color_indices : Buffer) (width pad : Nat) (padding : Nat → Nat) :
    Nat → Nat → Option Buffer
  | 0, _ => some []
  | n + 1, i =>
    if i * width + width ≤ bmp_color_indices.length then
      match export_rows bmp_color_indices width pad padding n (i + 1) with
      | none => none
      | some rest =>
        some ((bmp_color_indices.drop (i * width)).take width ++
          (List.range pad).map padding ++ rest)
    else none

/-- The method `Bitmap::export_to_bmp`: the bytes written to a file that could
be opened. -/
def Bitmap.export_to_bmp (b : Bitmap) (g_aux_palettes : AuxPalettes)
    (padding : Nat → Nat) : Option Buffer :=
  let pad := ((b.width + 3) / 4) * 4 - b.width
  match b.decompress g_aux_palettes with
  | none => none
  | some bmp_color_indices =>
    let header : BmpHeader :=
      { bfType := 0x4D42,
        bfSize := 14 + 40 + (4 * 256) + ((b.width + pad) * b.height),
        bfReserved1 := 0, bfReserved2 := 0,
        bfOffBits := 14 + 40 + (4 * 256) }
    let info_header : BmpInfoHeader :=
      { biSize := 40, biWidth := (b.width : Int), biHeight := -(b.height : Int),
        biPlanes := 1, biBitCount := 8, biCompression := 0,
        biSizeImage := (b.width + pad) * b.height,
        biXPelsPerMeter := 0, biYPelsPerMeter := 0, biClrUsed := 0, biClrImportant := 0 }
    match b.palette with
    | none => none
    | some palette =>
      match bmp_palette_block palette 256 0 with
      | none => none
      | some bmp_palette =>
        let rows : Option Buffer :=
          if pad = 0 then some bmp_color_indices
          else export_rows bmp_color_indices b.width pad padding b.height 0
        match rows with
        | none => none
        | some image =>
          some (header.save_to_stream ++ info_header.save_to_stream ++ bmp_palette ++ image)

/-! ### Import from the indexed-bitmap file format -/

/-- The enumeration `Bitmap::RleState`. -/
inductive RleState where
  | e_rle_repeat
  | e_rle_repeat_write
  | e_rle_absolute_write
  | e_rle_escape
  | e_rle_align
  | e_rle_finished
  deriving DecidableEq, Repr

/-- The local variables of the RLE8 loop of `import_from_bmp`, and `pixels`. -/
structure RleMachine where
  x : Int
  y : Int
  align : Bool
  count : Int
  src_offset : Nat
  pixel : Nat
  state : RleState
  pixels : Buffer
  deriving DecidableEq, Repr

/-- The assignment `pixels[(y * width) + x] = v`. -/
def write_pixel (pixels : Buffer) (width x y : Int) (v : Nat) : Option Buffer :=
  if 0 ≤ y * width + x ∧ y * width + x < (pixels.length : Int) then
    some (pixels.set (y * width + x).toNat v)
  else none

/-- The `switch (state)` of the RLE8 loop. -/
def rle_switch (data : Buffer) (width y_step : Int) (m : RleMachine) : Option RleMachine :=
  match m.state with
  | RleState.e_rle_repeat =>
    match data[m.src_offset]? with
    | none => none
    | some count =>
      if count = 0 then
        some { m with count := (count : Int), src_offset := m.src_offset + 1,
                      state := RleState.e_rle_escape }
      else
        match data[m.src_offset + 1]? with
        | none => none
        | some pixel =>
          some { m with count := (count : Int), align := decide (count % 2 ≠ 0),
                        pixel := pixel, src_offset := m.src_offset + 2,
                        state := RleState.e_rle_repeat_write }
  | RleState.e_rle_repeat_write =>
    match write_pixel m.pixels width m.x m.y m.pixel with
    | none => none
    | some pixels =>
      some { m with pixels := pixels, x := m.x + 1, count := m.count - 1,
                    state := if m.count - 1 = 0 then RleState.e_rle_repeat else m.state }
  | RleState.e_rle_absolute_write =>
    match data[m.src_offset]? with
    | none => none
    | some v =>
      match write_pixel m.pixels width m.x m.y v with
      | none => none
      | some pixels =>
        some { m with pixels := pixels, src_offset := m.src_offset + 1, x := m.x + 1,
                      count := m.count - 1,
                      state :=
                        if m.count - 1 = 0 then
                          (if m.align then RleState.e_rle_align else RleState.e_rle_repeat)
                        else m.state }
  | RleState.e_rle_escape =>
    match data[m.src_offset]? with
    | none => none
    | some count =>
      if count = 0 then
        some { m with count := (count : Int), src_offset := m.src_offset + 1,
                      state := RleState.e_rle_repeat }
      else if count = 1 then
        some { m with count := (count : Int), src_offset := m.src_offset + 1,
                      state := RleState.e_rle_finished }
      else if count = 2 then
        match data[m.src_offset + 1]?, data[m.src_offset + 2]? with
        | some dx, some dy =>
          some { m with count := (count : Int), src_offset := m.src_offset + 3,
                        x := m.x + (dx : Int), y := m.y + y_step * (dy : Int),
                        state := RleState.e_rle_repeat }
        | _, _ => none
      else
        some { m with count := (count : Int), src_offset := m.src_offset + 1,
                      align := decide (count % 2 ≠ 0),
                      state := RleState.e_rle_absolute_write }
  | RleState.e_rle_align =>
    some { m with src_offset := m.src_offset + 1, state := RleState.e_rle_repeat }
  | RleState.e_rle_finished => some m

/-- One iteration of the RLE8 loop: the `switch`, then the wrap of `x`. -/
def rle_step (data : Buffer) (width y_step : Int) (m : RleMachine) : Option RleMachine :=
  match rle_switch data width y_step m with
  | none => none
  | some m1 => some (if m1.x = width then { m1 with x := 0, y := m1.y + y_step } else m1)

/-- The loop `while (state != e_rle_finished)`, at most `fuel` iterations. The
result is `none` when an iteration leaves a buffer, and also when the fuel runs
out before the state is `e_rle_finished`. -/
def rle_run (data : Buffer) (width y_step : Int) : Nat → RleMachine → Option RleMachine
  | 0, m => if m.state = RleState.e_rle_finished then some m else none
  | fuel + 1, m =>
    if m.state = RleState.e_rle_finished then some m
    else
      match rle_step data width y_step m with
      | none => none
      | some m1 => rle_run data width y_step fuel m1

/-- The first `k` iterations of the loop `while (state != e_rle_finished)`:
the machine after them, or the machine the loop ended in when it ended before
them; `none` when an iteration leaves a buffer. -/
def rle_steps (data : Buffer) (width y_step : Int) : Nat → RleMachine → Option RleMachine
  | 0, m => some m
  | k + 1, m =>
    if m.state = RleState.e_rle_finished then some m
    else
      match rle_step data width y_step m with
      | none => none
      | some m1 => rle_steps data width y_step k m1

/-- The iterations the RLE8 loop can make over `data` before it leaves the
buffer: every iteration but one of state `e_rle_repeat_write` moves
`src_offset` forward, and at most 255 of those follow one another. -/
def rle_fuel (data : Buffer) : Nat := 257 * (data.length + 2)

/-- The call of `std::uninitialized_copy` in the row loop of `import_from_bmp`:
`width` bytes from `&data[src_offset]` to `&pixels[y * width]`. -/
def copy_row (data : Buffer) (src_offset : Nat) (width : Nat) (y : Int) (pixels : Buffer) :
    Option Buffer :=
  if src_offset + width ≤ data.length ∧ 0 ≤ y ∧ y.toNat * width + width ≤ pixels.length then
    some (pixels.take (y.toNat * width) ++ (data.drop src_offset).take width ++
      pixels.drop (y.toNat * width + width))
  else none

/-- The loop `while (y != max_y)` of the uncompressed branch, at most `fuel`
iterations; `none` also when the fuel runs out before `y` is `max_y`. -/
def copy_rows (data : Buffer) (width stride : Nat) (max_y y_step : Int) :
    Nat → Int → Nat → Buffer → Option Buffer
  | 0, y, _, pixels => if y = max_y then some pixels else none
  | fuel + 1, y, src_offset, pixels =>
    if y = max_y then some pixels
    else
      match copy_row data src_offset width y pixels with
      | none => none
      | some pixels1 =>
        copy_rows data width stride max_y y_step fuel (y + y_step) (src_offset + stride) pixels1

/-- The part of `import_from_bmp` after the test of the dimensions: the
decoding of `data` into `pixels` and the update of the record. -/
def Bitmap.import_pixels (b : Bitmap) (data : Buffer) (info_header : BmpInfoHeader)
    (width height : Int) (special : Special) : Option (Bool × Bitmap) :=
  let is_top_bottom : Bool := decide (info_header.biHeight < 0)
  let y : Int := if is_top_bottom then 0 else height - 1
  let max_y : Int := if is_top_bottom then height else 0
  let y_step : Int := if is_top_bottom then 1 else -1
  let pixels := List.replicate (width * height).toNat 0
  let decoded : Option Buffer :=
    if info_header.is_compressed then
      (rle_run data width y_step (rle_fuel data)
        { x := 0, y := y, align := false, count := 0, src_offset := 0, pixel := 0,
          state := RleState.e_rle_repeat, pixels := pixels }).map (fun m => m.pixels)
    else
      copy_rows data width.toNat (((width + 3) / 4) * 4).toNat max_y y_step height.toNat
        y 0 pixels
  match decoded with
  | none => none
  | some pixels1 =>
    some (true, { b with pixels := pixels1, type := 4, width := width.toNat,
                         height := height.toNat, special := special,
                         data_size := (width * height).toNat, aux_palette := none })

/-- The method `Bitmap::import_from_bmp` on the content `file` of a file that
could be opened. A header the stream is too short for is the "I/O error" of the
source, and so is pixel data that ends before `biSizeImage` bytes are read. -/
def Bitmap.import_from_bmp (b : Bitmap) (file : Buffer) (special : Special) :
    Option (Bool × Bitmap) :=
  match BmpHeader.load_from_stream file with
  | none => some (false, b)
  | some (header, s1) =>
    if header.bfType ≠ 0x4D42 then some (false, b)
    else
      match BmpInfoHeader.load_from_stream s1 with
      | none => some (false, b)
      | some (info_header, _) =>
        if to_long info_header.biSize < 40 then some (false, b)
        else if info_header.biWidth = 0 ∨ info_header.biHeight = 0 then some (false, b)
        else if abs_long info_header.biWidth > k_max_width then some (false, b)
        else if abs_long info_header.biHeight > k_max_height then some (false, b)
        else if info_header.biPlanes ≠ 1 then some (false, b)
        else if info_header.biBitCount ≠ 8 then some (false, b)
        else if ¬ (info_header.biCompression = 0 ∨ info_header.biCompression = 1) then
          some (false, b)
        else if info_header.is_compressed ∧ info_header.biSizeImage = 0 then some (false, b)
        else if info_header.biClrUsed ≠ 0 ∧ info_header.biClrUsed ≠ 256 then some (false, b)
        else if info_header.biSizeImage ≠ 0 ∧
            file.length < header.bfOffBits + info_header.biSizeImage then some (false, b)
        else
          let data := (file.drop header.bfOffBits).take info_header.biSizeImage
          let width : Int := info_header.biWidth
          let height : Int := abs_long info_header.biHeight
          if (b.width : Int) ≠ width ∨ (b.height : Int) ≠ height then some (false, b)
          else b.import_pixels data info_header width height special

/-! ### The image file on a build whose `long` has `long_size` bytes -/

/-- The bytes `write_value` emits for an unsigned value of a type of `size`
bytes: `sizeof(T)` bytes, the low byte first. -/
def le_bytes : Nat → Nat → Buffer
  | 0, _ => []
  | size + 1, v => v % 256 :: le_bytes size (v / 256)

/-- The bytes `write_value` emits for a `long` of `size` bytes (two's
complement). -/
def le_bytes_long (size : Nat) (v : Int) : Buffer := le_bytes size (v % 2 ^ (8 * size)).toNat

/-- The conversion of an unsigned value of `size` bytes to the signed type of
that size. -/
def to_signed (size : Nat) (v : Nat) : Int :=
  if v < 2 ^ (8 * size - 1) then (v : Int) else (v : Int) - 2 ^ (8 * size)

/-- The method `BmpHeader::save_to_stream` where `unsigned long` has
`long_size` bytes: `write_value` emits `sizeof(T)` bytes for each field. -/
def BmpHeader.save_to_stream_sized (long_size : Nat) (h : BmpHeader) : Buffer :=
  le_bytes 2 h.bfType ++ le_bytes long_size h.bfSize ++ le_bytes 2 h.bfReserved1 ++
    le_bytes 2 h.bfReserved2 ++ le_bytes long_size h.bfOffBits

/-- The method `BmpHeader::load_from_stream` where `unsigned long` has
`long_size` bytes; `none` when the stream failed. -/
def BmpHeader.load_from_stream_sized (long_size : Nat) (stream : Buffer) :
    Option (BmpHeader × Buffer) :=
  match read_value 2 stream with
  | none => none
  | some (bfType, s1) =>
  match read_value long_size s1 with
  | none => none
  | some (bfSize, s2) =>
  match read_value 2 s2 with
  | none => none
  | some (bfReserved1, s3) =>
  match read_value 2 s3 with
  | none => none
  | some (bfReserved2, s4) =>
  match read_value long_size s4 with
  | none => none
  | some (bfOffBits, s5) =>
    some ({ bfType := bfType, bfSize := bfSize, bfReserved1 := bfReserved1,
            bfReserved2 := bfReserved2, bfOffBits := bfOffBits }, s5)

/-- The method `BmpInfoHeader::save_to_stream` where `long` and
`unsigned long` have `long_size` bytes. -/
def BmpInfoHeader.save_to_stream_sized (long_size : Nat) (h : BmpInfoHeader) : Buffer :=
  le_bytes long_size h.biSize ++ le_bytes_long long_size h.biWidth ++
    le_bytes_long long_size h.biHeight ++ le_bytes 2 h.biPlanes ++
    le_bytes 2 h.biBitCount ++ le_bytes long_size h.biCompression ++
    le_bytes long_size h.biSizeImage ++ le_bytes_long long_size h.biXPelsPerMeter ++
    le_bytes_long long_size h.biYPelsPerMeter ++ le_bytes long_size h.biClrUsed ++
    le_bytes long_size h.biClrImportant

/-- The method `BmpInfoHeader::load_from_stream` where `long` and
`unsigned long` have `long_size` bytes; `none` when the stream failed. -/
def BmpInfoHeader.load_from_stream_sized (long_size : Nat) (stream : Buffer) :
    Option (BmpInfoHeader × Buffer) :=
  match read_value long_size stream with
  | none => none
  | some (biSize, s1) =>
  match read_value long_size s1 with
  | none => none
  | some (biWidth, s2) =>
  match read_value long_size s2 with
  | none => none
  | some (biHeight, s3) =>
  match read_value 2 s3 with
  | none => none
  | some (biPlanes, s4) =>
  match read_value 2 s4 with
  | none => none
  | some (biBitCount, s5) =>
  match read_value long_size s5 with
  | none => none
  | some (biCompression, s6) =>
  match read_value long_size s6 with
  | none => none
  | some (biSizeImage, s7) =>
  match read_value long_size s7 with
  | none => none
  | some (biXPelsPerMeter, s8) =>
  match read_value long_size s8 with
  | none => none
  | some (biYPelsPerMeter, s9) =>
  match read_value long_size s9 with
  | none => none
  | some (biClrUsed, s10) =>
  match read_value long_size s10 with
  | none => none
  | some (biClrImportant, s11) =>
    some ({ biSize := biSize, biWidth := to_signed long_size biWidth,
            biHeight := to_signed long_size biHeight,
            biPlanes := biPlanes, biBitCount := biBitCount, biCompression := biCompression,
            biSizeImage := biSizeImage,
            biXPelsPerMeter := to_signed long_size biXPelsPerMeter,
            biYPelsPerMeter := to_signed long_size biYPelsPerMeter, biClrUsed := biClrUsed,
            biClrImportant := biClrImportant }, s11)

/-- The method `Bitmap::export_to_bmp` where `long` has `long_size` bytes: the
header fields hold the same values, `BmpHeader::get_size` and
`BmpInfoHeader::get_size` being the constants 14 and 40, and the two headers
are written with `sizeof(long)` bytes for each field of that type. -/
def Bitmap.export_to_bmp_sized (long_size : Nat) (b : Bitmap) (g_aux_palettes : AuxPalettes)
    (padding : Nat → Nat) : Option Buffer :=
  let pad := ((b.width + 3) / 4) * 4 - b.width
  match b.decompress g_aux_palettes with
  | none => none
  | some bmp_color_indices =>
    let header : BmpHeader :=
      { bfType := 0x4D42,
        bfSize := 14 + 40 + (4 * 256) + ((b.width + pad) * b.height),
        bfReserved1 := 0, bfReserved2 := 0,
        bfOffBits := 14 + 40 + (4 * 256) }
    let info_header : BmpInfoHeader :=
      { biSize := 40, biWidth := (b.width : Int), biHeight := -(b.height : Int),
        biPlanes := 1, biBitCount := 8, biCompression := 0,
        biSizeImage := (b.width + pad) * b.height,
        biXPelsPerMeter := 0, biYPelsPerMeter := 0, biClrUsed := 0, biClrImportant := 0 }
    match b.palette with
    | none => none
    | some palette =>
      match bmp_palette_block palette 256 0 with
      | none => none
      | some bmp_palette =>
        let rows : Option Buffer :=
          if pad = 0 then some bmp_color_indices
          else export_rows bmp_color_indices b.width pad padding b.height 0
        match rows with
        | none => none
        | some image =>
          some (header.save_to_stream_sized long_size ++
            info_header.save_to_stream_sized long_size ++ bmp_palette ++ image)

/-! ### Paths -/

/-- The method `rfind` of `std::string` for a character: the last position
of `c` in `path`, `none` for `npos`. -/
def rfind : List Char → Char → Option Nat
  | [], _ => none
  | x :: xs, c =>
    match rfind xs c with
    | some i => some (i + 1)
    | none => if x = c then some 0 else none

/-- The number of bits of `size_t`. -/
def k_size_bits : Nat := 64

/-- The function `extract_dir`. A `std::string` is the list of its
characters; the constant `k_path_separator`, which the source defines as the
backslash under `_WIN32` and as the slash otherwise, is an argument.
`name_pos - 1` is computed in `size_t`, and `substr(0, n)` keeps the first `n`
characters, all of them when there are fewer. -/
def extract_dir (k_path_separator : Char) (path : List Char) : List Char :=
  if path.isEmpty then []
  else
    match rfind path k_path_separator with
    | none => []
    | some name_pos => path.take ((name_pos + 2 ^ k_size_bits - 1) % 2 ^ k_size_bits)

/-- The function `combine_path` of two arguments. -/
def combine_path (k_path_separator : Char) (path1 path2 : List Char) : List Char :=
  if path1.isEmpty then path2
  else if path2.isEmpty then path1
  else if path2.head? = some k_path_separator then path2
  else
    let use_separator : Bool := path1.getLast? != some k_path_separator
    path1 ++ (if use_separator then [k_path_separator] else []) ++ path2

/-! ### The runs of the RLE8 decoder, in the words of the specification -/

/-- A run as the specification words it, to compare the loop with: the values
of a list are written one after the other at the cursor, each at the index
`row * width + col`, the column then moving right by one, and being reset to 0
with the row advanced by the step when it reaches `width`. The result is the
pixel buffer and the cursor after the run, or `none` when an index is outside
the buffer. -/
def write_run (width y_step : Int) : List Nat → Int → Int → Buffer → Option (Buffer × Int × Int)
  | [], col, row, pixels => some (pixels, col, row)
  | v :: vs, col, row, pixels =>
    if 0 ≤ row * width + col ∧ row * width + col < (pixels.length : Int) then
      if col + 1 = width then
        write_run width y_step vs 0 (row + y_step) (pixels.set (row * width + col).toNat v)
      else
        write_run width y_step vs (col + 1) row (pixels.set (row * width + col).toNat v)
    else none

/-! ### The canonical RLE8 stream of an image, in the words of the specification -/

/-- The canonical encoding of a row, as the claim words it: the pair (1, v)
for each pixel v of the row, then 0, 0 (end-of-line). -/
def rle8_row (row : List Nat) : Buffer := row.flatMap (fun v => [1, v]) ++ [0, 0]

/-- The canonical encoding of an image given as its stored rows: the encoding
of each row in turn, then 0, 1 (end-of-bitmap). -/
def rle8_canonical (rows : List (List Nat)) : Buffer := rows.flatMap rle8_row ++ [0, 1]

/-- The rows of an image of `height` rows of `width` pixels, from the top
row to the bottom row; the image is the list of its pixels in top-to-bottom
row-major order. -/
def image_rows (width : Nat) : Nat → Buffer → List (List Nat)
  | 0, _ => []
  | height + 1, image => image.take width :: image_rows width height (image.drop width)

/-! ### Invariants used by the proofs -/

/-- The state of a reader over `d` with size `S` after `i` calls of `read`,
none of which met the end-of-data test. -/
def ReaderAt (d : Buffer) (S i : Nat) (r : NibbleReader) : Prop :=
  r.data = d ∧ r.data_size = S ∧ r.data_offset = (i + 1) / 2 ∧
  (i % 2 = 0 → r.nibble_index = 2) ∧
  (i % 2 = 1 → r.nibble_index = 1 ∧ r.nibble_buffer1 = d.getD (i / 2) 0 % 16)

/-- A reader whose every further `read` stays inside its buffer and returns a
value below 16. -/
def ReaderOk (r : NibbleReader) : Prop :=
  r.data_size ≤ r.data.length ∧ r.data_offset ≤ r.data_size ∧
  r.nibble_buffer0 < 16 ∧ r.nibble_buffer1 < 16

/-- The invariant of the type-8 loop: the reader is sound, the output buffer
has `area` cells, and the write position is the number of pixels emitted. -/
def DecompressInv (area : Nat) (s : DecompressState) : Prop :=
  ReaderOk s.reader ∧ s.buffer.length = area ∧ s.buffer_offset = s.pixel_count

/-- The state of the output of the type-8 loop: the buffer has `area` cells,
the write position is the number of pixels emitted, and every cell from the
write position on holds 0. -/
def DecompressTail (area : Nat) (s : DecompressState) : Prop :=
  s.buffer.length = area ∧ s.buffer_offset = s.pixel_count ∧
  ∀ i, s.pixel_count ≤ i → i < area → s.buffer[i]? = some 0

/-- The loop of the RLE8 decoder about to read an opcode, with the cursor, the
read position and the pixels given; the other variables are set before they
are read. -/
def RleAt (m : RleMachine) (x y : Int) (src_offset : Nat) (pixels : Buffer) : Prop :=
  m.state = RleState.e_rle_repeat ∧ m.x = x ∧ m.y = y ∧ m.src_offset = src_offset ∧
  m.pixels = pixels

/-! ### Concrete inputs used by the theorems -/

/-- An auxiliary palette table whose every palette maps the key `k` to `10 * k`. -/
def example_aux_palettes : AuxPalettes := fun _ k => 10 * k.val

/-- A palette of 256 black entries. -/
def example_palette : Palette := List.replicate 768 0

/-- A kind-8 record of four nibbles, as `load_from_gr` builds it from the bytes
8, 2, 2, 0, 4, 0, 0x12, 0x34. -/
def example_compressed_record : Bitmap :=
  { type := 8, width := 2, height := 2, data_size := 4, special := Special.e_none,
    pixels := [0x12, 0x34], palette := some example_palette, aux_palette := some 0 }

/-- An archive of one record, the kind-8 record above: tag, count, two offsets
(11 and 19), then the record's six header bytes and two payload bytes. -/
def example_archive : Buffer :=
  [1, 1, 0, 11, 0, 0, 0, 19, 0, 0, 0, 8, 2, 2, 0, 4, 0, 0x12, 0x34]

/-- The kind-10 record of the bytes 0x12, 0x34 with four nibbles. -/
def example_plain_record : Bitmap :=
  { type := 10, width := 2, height := 2, data_size := 4, special := Special.e_none,
    pixels := [0x12, 0x34], palette := some example_palette, aux_palette := some 0 }

/-- A kind-8 record with an empty payload, as `load_from_gr` builds it from the
header bytes 8, 2, 2, 0, 0, 0. -/
def example_empty_compressed_record : Bitmap :=
  { type := 8, width := 2, height := 2, data_size := 0, special := Special.e_none,
    pixels := [], palette := some example_palette, aux_palette := some 0 }

/-- A raw record of the panel size 79 x 112. -/
def example_panel_record : Bitmap :=
  { type := 4, width := 79, height := 112, data_size := 8848, special := Special.e_none,
    pixels := List.replicate 8848 7, palette := some example_palette, aux_palette := none }

/-- A buffer holding, from offset 2, a kind-8 record whose auxiliary-palette
index byte is 31. -/
def example_record_aux31 : Buffer := [0, 0, 8, 2, 2, 31, 4, 0, 0x12, 0x34]

/-- The same buffer with the index byte 32. -/
def example_record_aux32 : Buffer := [0, 0, 8, 2, 2, 32, 4, 0, 0x12, 0x34]

/-- Three palettes, standing for the table `g_palettes`. -/
def example_palettes : List Palette := [example_palette, example_palette, example_palette]

/-- A raw 3 x 2 record. -/
def example_raw_record : Bitmap :=
  { type := 4, width := 3, height := 2, data_size := 6, special := Special.e_none,
    pixels := [1, 2, 3, 4, 5, 6], palette := some example_palette, aux_palette := none }

/-- A kind-10 record of 2 x 2 pixels whose `data_size` is 2 nibbles. -/
def example_plain_short_record : Bitmap :=
  { type := 10, width := 2, height := 2, data_size := 2, special := Special.e_none,
    pixels := [0x12], palette := some example_palette, aux_palette := some 0 }

/-- A kind-8 record whose nibble stream is 1, 2, 1, 2: the skip marker, the
run count 2 and the keys 1 and 2; `data_size` is the 4 nibbles of the stream. -/
def example_run_record : Bitmap :=
  { type := 8, width := 2, height := 1, data_size := 4, special := Special.e_none,
    pixels := [0x12, 0x12], palette := some example_palette, aux_palette := some 0 }

/-- A kind-8 record whose nibble stream is 1, 3, 1, 2, 3 and a filler nibble:
the skip marker, the run count 3 and the keys 1, 2 and 3; `data_size` is 5. -/
def example_run_record_three : Bitmap :=
  { type := 8, width := 3, height := 1, data_size := 5, special := Special.e_none,
    pixels := [0x13, 0x12, 0x30], palette := some example_palette, aux_palette := some 0 }

/-- A kind-8 record whose nibble stream is 2, 1, 3, 5: the count 2, the number
1 of repeat records, and the repeat record of count 3 and key 5; `data_size`
is the 4 nibbles of the stream. -/
def example_multiplier_record : Bitmap :=
  { type := 8, width := 3, height := 1, data_size := 4, special := Special.e_none,
    pixels := [0x21, 0x35], palette := some example_palette, aux_palette := some 0 }

/-- The file header of an image file whose pixel data follows the palette. -/
def example_bmp_header_3x2 : BmpHeader :=
  { bfType := 0x4D42, bfSize := 1086, bfReserved1 := 0, bfReserved2 := 0, bfOffBits := 1078 }

/-- The info header of a 3 x 2 uncompressed bottom-up image (the stored height
is positive). -/
def example_bmp_info_header_bottom_up : BmpInfoHeader :=
  { biSize := 40, biWidth := 3, biHeight := 2, biPlanes := 1, biBitCount := 8,
    biCompression := 0, biSizeImage := 8, biXPelsPerMeter := 0, biYPelsPerMeter := 0,
    biClrUsed := 0, biClrImportant := 0 }

/-- A 3 x 2 uncompressed bottom-up image file: the first stored row is 1, 2, 3
(the bottom row of the image), the second 4, 5, 6, each with one padding byte. -/
def example_bmp_bottom_up : Buffer :=
  example_bmp_header_3x2.save_to_stream ++
    (example_bmp_info_header_bottom_up.save_to_stream ++
      (List.replicate 1024 0 ++ [1, 2, 3, 0, 4, 5, 6, 0]))

/-- The state of the RLE8 loop of a bottom-up image of width 4 with the cursor
at column 1 of row 1, about to read its next opcode at offset 0. -/
def example_rle_machine : RleMachine :=
  { x := 1, y := 1, align := false, count := 0, src_offset := 0, pixel := 0,
    state := RleState.e_rle_repeat, pixels := List.replicate 8 0 }

/-- A raw 3 x 2 record whose palette has the value 11 in every channel. -/
def example_grey_record : Bitmap :=
  { type := 4, width := 3, height := 2, data_size := 6, special := Special.e_none,
    pixels := [1, 2, 3, 4, 5, 6], palette := some (List.replicate 768 11),
    aux_palette := none }

/-- A panel archive of two records: tag, count 2, the offsets 15, 8863 and
9199, then 8848 bytes of value 7 and 336 bytes of value 9. -/
def example_panel_archive : Buffer :=
  [1, 2, 0, 15, 0, 0, 0, 159, 34, 0, 0, 239, 35, 0, 0] ++
    (List.replicate 8848 7 ++ List.replicate 336 9)

/-- The second record of the panel archive above, as loaded. -/
def example_border_record : Bitmap :=
  { type := 4, width := 3, height := 112, data_size := 336, special := Special.e_none,
    pixels := List.replicate 336 9, palette := some example_palette, aux_palette := none }

/-- An archive cut after the record count: the count is 1 and the offset table
of 8 bytes is missing. -/
def example_truncated_table : Buffer := [1, 1, 0]

/-- The one-record archive cut inside the header of its record: the bytes of
the kind, the width and the height are there, the index of the auxiliary
palette is not. -/
def example_truncated_header : Buffer := [1, 1, 0, 11, 0, 0, 0, 19, 0, 0, 0, 8, 2, 2]

/-- A one-record archive cut inside the payload: the kind-4 record declares 4
payload bytes and 2 are there. -/
def example_truncated_payload : Buffer :=
  [1, 1, 0, 11, 0, 0, 0, 19, 0, 0, 0, 4, 2, 2, 4, 0, 1, 2]

/-- A kind-8 record of 8 x 1 pixels whose nibble stream is 0, 0, 5, 7, 1, 2, 3:
a count field that starts with two zero nibbles, then the key 7, then the
count 1, the key 2 and the count 3; `data_size` is the 7 nibbles. -/
def example_two_zero_record : Bitmap :=
  { type := 8, width := 8, height := 1, data_size := 7, special := Special.e_none,
    pixels := [0x00, 0x57, 0x12, 0x30], palette := some example_palette,
    aux_palette := some 0 }

/-- An auxiliary palette table whose every palette maps the key `k` to
`10 * k + 1`, so that the entry of the key 0 is not the value 0 the output
buffer is filled with. -/
def example_aux_palettes_odd : AuxPalettes := fun _ k => 10 * k.val + 1

/-- A kind-8 record of 4 x 1 pixels whose nibble stream is 3, 5: the count 3
and the key 5; `data_size` is the 2 nibbles of the stream. -/
def example_repeat_record : Bitmap :=
  { type := 8, width := 4, height := 1, data_size := 2, special := Special.e_none,
    pixels := [0x35], palette := some example_palette, aux_palette := some 0 }

/-- The same stream followed by a zero nibble; `data_size` is 3. -/
def example_repeat_record_three : Bitmap :=
  { type := 8, width := 4, height := 1, data_size := 3, special := Special.e_none,
    pixels := [0x35, 0x00], palette := some example_palette, aux_palette := some 0 }

/-- A kind-8 record of 2 x 1 pixels whose seven nibbles 5, 3, 0, 0, 0, 0, 0
fill the image after the second one: the count 5 and the key 3. -/
def example_long_stream_record : Bitmap :=
  { type := 8, width := 2, height := 1, data_size := 7, special := Special.e_none,
    pixels := [0x53, 0x00, 0x00, 0x00], palette := some example_palette,
    aux_palette := some 0 }

/-- The state of the RLE8 loop of a top-down image of width 4 and height 3
with the cursor at column 2 of row 0, about to read its next opcode at
offset 0. -/
def example_rle_machine_top_down : RleMachine :=
  { x := 2, y := 0, align := false, count := 0, src_offset := 0, pixel := 0,
    state := RleState.e_rle_repeat, pixels := List.replicate 12 0 }

/-- The file header of an image file whose pixel data follows the two
headers. -/
def example_rle_header : BmpHeader :=
  { bfType := 0x4D42, bfSize := 68, bfReserved1 := 0, bfReserved2 := 0, bfOffBits := 54 }

/-- The info header of a 2 x 2 bottom-up image compressed with RLE8, of 14
bytes of pixel data. -/
def example_rle_info_header : BmpInfoHeader :=
  { biSize := 40, biWidth := 2, biHeight := 2, biPlanes := 1, biBitCount := 8,
    biCompression := 1, biSizeImage := 14, biXPelsPerMeter := 0, biYPelsPerMeter := 0,
    biClrUsed := 0, biClrImportant := 0 }

/-- The file of the 2 x 2 image with the rows 1, 2 and 3, 4, stored bottom-up
in the canonical encoding: the row 3, 4 first. -/
def example_rle_file : Buffer :=
  example_rle_header.save_to_stream ++
    (example_rle_info_header.save_to_stream ++
      [1, 3, 1, 4, 0, 0, 1, 1, 1, 2, 0, 0, 0, 1])

/-- The header `export_to_bmp` builds for a record of 3 x 2 pixels. -/
def example_export_header : BmpHeader :=
  { bfType := 0x4D42, bfSize := 1086, bfReserved1 := 0, bfReserved2 := 0, bfOffBits := 1078 }

/-- The info header `export_to_bmp` builds for a record of 3 x 2 pixels. -/
def example_export_info_header : BmpInfoHeader :=
  { biSize := 40, biWidth := 3, biHeight := -2, biPlanes := 1, biBitCount := 8,
    biCompression := 0, biSizeImage := 8, biXPelsPerMeter := 0, biYPelsPerMeter := 0,
    biClrUsed := 0, biClrImportant := 0 }

/-! ## Theorems -/

set_option maxRecDepth 20000

/-- C3 (the code at the failing input): over the single byte 0x12 with size 1
the second call of `read` returns 0, not the low nibble 2: the end-of-data test
comes before the delivery of the buffered low nibble of the last byte. -/
theorem nibble_reader_loses_last_low_nibble :
    (NibbleReader.read_many 2 (NibbleReader.mk_reader [0x12] 1)).map Prod.fst
      = some [1, 0] := by
  decide

/-- Whenever the write of a record stays inside the payload, the bytes written
are as many as `save_record_length` counts. -/
theorem save_record_length_eq (g_is_panels : Bool) (bitmap : Bitmap) (bytes : Buffer)
    (h : save_record g_is_panels bitmap = some bytes) :
    bytes.length = save_record_length g_is_panels bitmap := by
  unfold save_record at h
  unfold save_record_length
  by_cases he : bitmap.is_empty = true
  · rw [if_pos he] at h
    rw [if_pos he]
    simp only [Option.some.injEq] at h
    rw [← h]
    rfl
  · rw [if_neg he] at h
    rw [if_neg he]
    cases g_is_panels with
    | true =>
      simp only [if_true] at h
      split_ifs at h with hd
      simp only [Option.some.injEq] at h
      rw [← h]
      simp only [List.nil_append, List.length_take, if_true]
      omega
    | false =>
      simp only [Bool.false_eq_true, if_false] at h
      by_cases hc : bitmap.is_compressed = true
      · rw [if_pos hc] at h
        rw [if_pos hc]
        cases ha : bitmap.aux_palette with
        | none => rw [ha] at h; simp at h
        | some k =>
          rw [ha] at h
          simp only at h
          split_ifs at h with hd
          simp only [Option.some.injEq] at h
          rw [← h]
          simp only [le16, List.length_append, List.length_cons, List.length_nil,
            List.length_take, Bool.false_eq_true, if_false, if_true]
          omega
      · rw [if_neg hc] at h
        rw [if_neg hc]
        simp only at h
        split_ifs at h with hd
        simp only [Option.some.injEq] at h
        rw [← h]
        simp only [le16, List.length_append, List.length_cons, List.length_nil,
          List.length_take, Bool.false_eq_true, if_false, if_true]
        omega

/-- C4 (the code at the failing input): for the kind-8 record of four nibbles
the offset table reserves 19 - 11 = 8 bytes (six of header, two of payload),
while the write loop hands 6 + `data_size` = 10 bytes to the stream, four of
them from the two-byte payload: the write reads past the payload. -/
theorem save_gr_file_compressed_offsets_disagree :
    save_offset_table false [example_compressed_record] = [11, 19] ∧
    save_record_length false example_compressed_record = 10 ∧
    example_compressed_record.get_size_in_bytes = 2 ∧
    example_compressed_record.pixels.length = 2 ∧
    example_compressed_record.data_size = 4 ∧
    save_gr_file false [example_compressed_record] = none := by
  decide

/-- C5 (the code at the failing input): the one-record archive loads, its
record occupies the 8 bytes from offset 11, and saving the unchanged record
hands 10 bytes to the stream, four of them from the two-byte payload, instead
of writing those 8 bytes back. -/
theorem rebuild_compressed_record_not_preserved :
    load_gr_file false 0 [example_palette] [] example_archive
      = some (true, [example_compressed_record]) ∧
    (example_archive.drop 11).take (19 - 11) = [8, 2, 2, 0, 4, 0, 0x12, 0x34] ∧
    save_record_length false example_compressed_record = 10 ∧
    save_record false example_compressed_record = none := by
  decide

/-! ### The nibble reader -/

theorem readerAt_mk_reader (d : Buffer) (S : Nat) :
    ReaderAt d S 0 (NibbleReader.mk_reader d S) := by
  simp [ReaderAt, NibbleReader.mk_reader]

theorem read_of_readerAt (d : Buffer) (S i : Nat) (r : NibbleReader)
    (hr : ReaderAt d S i r) (hS : (i + 1) / 2 < S) (hd : i / 2 < d.length) :
    ∃ r1, r.read = some ((if i % 2 = 0 then d.getD (i / 2) 0 % 256 / 16
        else d.getD (i / 2) 0 % 16), r1) ∧ ReaderAt d S (i + 1) r1 := by
  obtain ⟨h1, h2, h3, h4, h5⟩ := hr
  rcases Nat.mod_two_eq_zero_or_one i with hi | hi
  · have hidx := h4 hi
    have hoff : r.data_offset = i / 2 := by omega
    have hget : r.data[r.data_offset]? = some (d.getD (i / 2) 0) := by
      rw [h1, hoff, List.getD_eq_getElem?_getD, List.getElem?_eq_getElem hd]
      simp
    refine ⟨{ r with nibble_buffer0 := d.getD (i / 2) 0 % 256 / 16,
                     nibble_buffer1 := d.getD (i / 2) 0 % 16,
                     nibble_index := 1, data_offset := r.data_offset + 1 }, ?_, ?_⟩
    · unfold NibbleReader.read
      rw [if_neg (by omega), if_pos hidx, hget]
      simp only [hi, if_true]
    · refine ⟨h1, h2, ?_, ?_, ?_⟩
      · simp only; omega
      · intro h; omega
      · intro _
        refine ⟨rfl, ?_⟩
        have : (i + 1) / 2 = i / 2 := by omega
        simp only [this]
  · obtain ⟨hidx, hbuf⟩ := h5 hi
    refine ⟨{ r with nibble_index := r.nibble_index + 1 }, ?_, ?_⟩
    · unfold NibbleReader.read
      rw [if_neg (by omega), if_neg (by omega)]
      have h01 : ¬ (i % 2 = 0) := by omega
      simp only [hidx, hbuf, h01, if_false]
      simp
    · refine ⟨h1, h2, ?_, ?_, ?_⟩
      · simp only; omega
      · intro _; simp only [hidx]
      · intro h; omega

theorem plain_loop_spec (d : Buffer) (S : Nat) :
    ∀ (n i : Nat) (r : NibbleReader) (buf : Buffer),
      ReaderAt d S i r → (i + n) / 2 < S ∨ n = 0 → (i + n + 1) / 2 ≤ d.length ∨ n = 0 →
      i + n ≤ buf.length →
      ∃ out, plain_loop n i r buf = some out ∧ out.length = buf.length ∧
        (∀ j, j < i → out[j]? = buf[j]?) ∧
        (∀ j, i ≤ j → j < i + n →
          out[j]? = some (if j % 2 = 0 then d.getD (j / 2) 0 % 256 / 16
            else d.getD (j / 2) 0 % 16)) := by
  intro n
  induction n with
  | zero =>
    intro i r buf _ _ _ _
    exact ⟨buf, rfl, rfl, fun _ _ => rfl, fun j h1 h2 => by omega⟩
  | succ n ih =>
    intro i r buf hr hS hd hlen
    have hS1 : (i + 1) / 2 < S := by omega
    have hd1 : i / 2 < d.length := by omega
    obtain ⟨r1, hread, hr1⟩ := read_of_readerAt d S i r hr hS1 hd1
    have hib : i < buf.length := by omega
    obtain ⟨out, hout, hl, hlo, hhi⟩ := ih (i + 1) r1
      (buf.set i (if i % 2 = 0 then d.getD (i / 2) 0 % 256 / 16 else d.getD (i / 2) 0 % 16)) hr1
      (by omega) (by omega) (by rw [List.length_set]; omega)
    refine ⟨out, ?_, ?_, ?_, ?_⟩
    · rw [plain_loop, hread]
      simp only [hib, if_true]
      exact hout
    · rw [hl, List.length_set]
    · intro j hj
      rw [hlo j (by omega), List.getElem?_set_ne (by omega)]
    · intro j hj1 hj2
      rcases Nat.eq_or_lt_of_le hj1 with h | h
      · subst h
        rw [hlo i (by omega), List.getElem?_set_self hib]
      · exact hhi j (by omega) (by omega)

/-- C10: for a type-10 record with a non-empty payload that holds its
`data_size` nibbles, and `data_size <= width * height`, `decompress` returns a
buffer whose element `i`, for every `i < data_size`, is the `i`-th nibble of
the payload (high nibble of byte `i / 2` for even `i`, low nibble for odd `i`);
no auxiliary palette is consulted (the table is arbitrary). -/
theorem decompress_type10_nibbles (b : Bitmap) (g_aux_palettes : AuxPalettes)
    (h10 : b.type = 10) (hne : b.pixels ≠ [])
    (hsz : b.data_size ≤ b.width * b.height)
    (hpay : (b.data_size + 1) / 2 ≤ b.pixels.length) :
    ∃ out, b.decompress g_aux_palettes = some out ∧
      ∀ i, i < b.data_size →
        out[i]? = some (if i % 2 = 0 then b.pixels.getD (i / 2) 0 % 256 / 16
          else b.pixels.getD (i / 2) 0 % 16) := by
  obtain ⟨out, hout, _, _, hhi⟩ := plain_loop_spec b.pixels b.data_size b.data_size 0
    (NibbleReader.mk_reader b.pixels b.data_size)
    (List.replicate (b.width * b.height) 0)
    (readerAt_mk_reader _ _) (by omega) (by omega) (by simpa using hsz)
  refine ⟨out, ?_, fun i hi => hhi i (Nat.zero_le _) (by omega)⟩
  have hc : b.is_compressed = true := by simp [Bitmap.is_compressed, h10]
  have he : b.pixels.isEmpty = false := by
    cases hp : b.pixels with
    | nil => exact absurd hp hne
    | cons _ _ => rfl
  unfold Bitmap.decompress
  simp only [hc, he, h10]
  simpa using hout

/-- C10, at the payload 0x12, 0x34 with four nibbles. -/
theorem decompress_type10_nibbles_witness :
    ∃ out, example_plain_record.decompress example_aux_palettes = some out ∧
      ∀ i, i < example_plain_record.data_size →
        out[i]? = some (if i % 2 = 0 then example_plain_record.pixels.getD (i / 2) 0 % 256 / 16
          else example_plain_record.pixels.getD (i / 2) 0 % 16) :=
  decompress_type10_nibbles example_plain_record example_aux_palettes
    (by decide) (by decide) (by decide) (by decide)

/-- The example of C10 evaluated: the bytes 0x12, 0x34 decode to 1, 2, 3, 4. -/
theorem decompress_type10_example :
    example_plain_record.decompress example_aux_palettes = some [1, 2, 3, 4] := by
  decide

/-! ### The type-8 loop keeps its buffers -/

theorem read_of_readerOk (r : NibbleReader) (hr : ReaderOk r) :
    ∃ v r1, r.read = some (v, r1) ∧ v < 16 ∧ ReaderOk r1 := by
  obtain ⟨h1, h2, h3, h4⟩ := hr
  unfold NibbleReader.read
  by_cases he : r.data_offset = r.data_size
  · exact ⟨0, r, by simp [he], by omega, ⟨h1, h2, h3, h4⟩⟩
  · by_cases hi : r.nibble_index = 2
    · have hlt : r.data_offset < r.data.length := by omega
      refine ⟨r.data[r.data_offset] % 256 / 16,
        { r with nibble_buffer0 := r.data[r.data_offset] % 256 / 16,
                 nibble_buffer1 := r.data[r.data_offset] % 16,
                 nibble_index := 1, data_offset := r.data_offset + 1 }, ?_, ?_, ?_⟩
      · simp [he, hi, List.getElem?_eq_getElem hlt]
      · omega
      · refine ⟨h1, ?_, ?_, ?_⟩
        · simp only; omega
        · simp only; omega
        · simp only; omega
    · refine ⟨if r.nibble_index = 0 then r.nibble_buffer0 else r.nibble_buffer1,
        { r with nibble_index := r.nibble_index + 1 },
        by simp only [he, hi, if_false], ?_, ⟨h1, h2, h3, h4⟩⟩
      split <;> assumption

theorem repeat_write_inv (p : AuxPalette) (nibble area : Nat) (hn : nibble < 16) :
    ∀ (n : Nat) (buffer : Buffer) (off pc : Nat),
      buffer.length = area → off = pc → pc < area →
      ∃ buffer1 pc1, repeat_write (some p) nibble area n buffer off pc
          = some (buffer1, pc1, pc1) ∧ buffer1.length = area := by
  intro n
  induction n with
  | zero =>
    intro buffer off pc hl ho _
    exact ⟨buffer, pc, by simp [repeat_write, ho], hl⟩
  | succ n ih =>
    intro buffer off pc hl ho hpc
    subst ho
    have hlt : off < buffer.length := by omega
    by_cases hfull : off + 1 ≥ area
    · exact ⟨buffer.set off (p ⟨nibble, hn⟩), off + 1,
        by simp [repeat_write, aux_lookup, hn, hlt, hfull], by simp [hl]⟩
    · obtain ⟨b1, pc1, h1, h2⟩ := ih (buffer.set off (p ⟨nibble, hn⟩)) (off + 1) (off + 1)
        (by simp [hl]) rfl (by omega)
      exact ⟨b1, pc1, by simp [repeat_write, aux_lookup, hn, hlt, hfull, h1], h2⟩

theorem decode_record_inv (p : AuxPalette) (area nibble : Nat) (hn : nibble < 16)
    (s : DecompressState) (hs : DecompressInv area s) (hpc : s.pixel_count < area) :
    ∃ s1, decode_record (some p) area nibble s = some s1 ∧ DecompressInv area s1 := by
  obtain ⟨hr, hl, ho⟩ := hs
  unfold decode_record
  by_cases h0 : s.record = 0
  · rw [if_pos h0]
    split_ifs
    · exact ⟨_, rfl, hr, hl, ho⟩
    · exact ⟨_, rfl, hr, hl, ho⟩
    · exact ⟨_, rfl, hr, hl, ho⟩
  · rw [if_neg h0]
    by_cases h1 : s.record = 1
    · rw [if_pos h1]
      obtain ⟨b1, pc1, hw, hbl⟩ := repeat_write_inv p nibble area hn s.count.toNat s.buffer
        s.buffer_offset s.pixel_count hl ho hpc
      simp only [hw]
      split_ifs
      · exact ⟨_, rfl, hr, hbl, rfl⟩
      · exact ⟨_, rfl, hr, hbl, rfl⟩
    · rw [if_neg h1]
      by_cases h2 : s.record = 2
      · rw [if_pos h2]
        exact ⟨_, rfl, hr, hl, ho⟩
      · rw [if_neg h2]
        by_cases h3 : s.record = 3
        · rw [if_pos h3]
          exact ⟨_, rfl, hr, hl, ho⟩
        · rw [if_neg h3]
          by_cases h4 : s.record = 4
          · rw [if_pos h4]
            have hlt : s.buffer_offset < s.buffer.length := by omega
            simp only [aux_lookup, hn, dite_true, hlt, if_true]
            split_ifs
            · exact ⟨_, rfl, hr, by simp [hl], by simp [ho]⟩
            · exact ⟨_, rfl, hr, by simp [hl], by simp [ho]⟩
          · rw [if_neg h4]
            exact ⟨_, rfl, hr, hl, ho⟩

theorem decompress_step_inv (p : AuxPalette) (area : Nat)
    (s : DecompressState) (hs : DecompressInv area s) (hpc : s.pixel_count < area) :
    ∃ s1, decompress_step (some p) area s = some s1 ∧ DecompressInv area s1 := by
  obtain ⟨v, r1, hread, hv, hr1⟩ := read_of_readerOk s.reader hs.1
  unfold decompress_step
  simp only [hread]
  split_ifs
  · exact ⟨_, rfl, hr1, hs.2.1, hs.2.2⟩
  · exact decode_record_inv p area v hv _ ⟨hr1, hs.2.1, hs.2.2⟩ hpc

theorem decompress_loop_inv (p : AuxPalette) (area : Nat) :
    ∀ (data_length : Nat) (s : DecompressState), DecompressInv area s →
      ∃ s1, decompress_loop (some p) area data_length s = some s1 ∧ DecompressInv area s1 := by
  intro n
  induction n with
  | zero => intro s hs; exact ⟨s, rfl, hs⟩
  | succ n ih =>
    intro s hs
    unfold decompress_loop
    by_cases hpc : s.pixel_count < area
    · obtain ⟨s1, h1, hs1⟩ := decompress_step_inv p area s hs hpc
      simp only [hpc, if_true, h1]
      exact ih s1 hs1
    · simp only [hpc, if_false]
      exact ⟨s, rfl, hs⟩

theorem repeat_write_length (aux : Option AuxPalette) (nibble area : Nat) :
    ∀ (n : Nat) (buffer : Buffer) (off pc : Nat) (r : Buffer × Nat × Nat),
      repeat_write aux nibble area n buffer off pc = some r → r.1.length = buffer.length := by
  intro n
  induction n with
  | zero =>
    intro buffer off pc r h
    rw [repeat_write] at h
    simp only [Option.some.injEq] at h
    rw [← h]
  | succ n ih =>
    intro buffer off pc r h
    rw [repeat_write] at h
    cases hc : aux_lookup aux nibble with
    | none => rw [hc] at h; simp at h
    | some color =>
      rw [hc] at h
      simp only at h
      split_ifs at h with h1 h2
      · simp only [Option.some.injEq] at h
        rw [← h]
        simp
      · rw [ih _ _ _ r h]
        simp

theorem decode_record_length (aux : Option AuxPalette) (area nibble : Nat)
    (s s1 : DecompressState) (h : decode_record aux area nibble s = some s1) :
    s1.buffer.length = s.buffer.length := by
  unfold decode_record at h
  by_cases h0 : s.record = 0
  · rw [if_pos h0] at h
    split_ifs at h <;> simp only [Option.some.injEq] at h <;> rw [← h]
  · rw [if_neg h0] at h
    by_cases h1 : s.record = 1
    · rw [if_pos h1] at h
      cases hw : repeat_write aux nibble area s.count.toNat s.buffer s.buffer_offset
          s.pixel_count with
      | none => rw [hw] at h; simp at h
      | some r =>
        obtain ⟨buffer, off, pc⟩ := r
        have hl := repeat_write_length aux nibble area _ _ _ _ _ hw
        rw [hw] at h
        simp only at h hl
        split_ifs at h <;> simp only [Option.some.injEq] at h <;> rw [← h] <;> exact hl
    · rw [if_neg h1] at h
      by_cases h2 : s.record = 2
      · rw [if_pos h2] at h
        simp only [Option.some.injEq] at h
        rw [← h]
      · rw [if_neg h2] at h
        by_cases h3 : s.record = 3
        · rw [if_pos h3] at h
          simp only [Option.some.injEq] at h
          rw [← h]
        · rw [if_neg h3] at h
          by_cases h4 : s.record = 4
          · rw [if_pos h4] at h
            cases hc : aux_lookup aux nibble with
            | none => rw [hc] at h; simp at h
            | some color =>
              rw [hc] at h
              simp only at h
              split_ifs at h <;> simp only [Option.some.injEq] at h <;> rw [← h] <;> simp
          · rw [if_neg h4] at h
            simp only [Option.some.injEq] at h
            rw [← h]

theorem decompress_step_length (aux : Option AuxPalette) (area : Nat)
    (s s1 : DecompressState) (h : decompress_step aux area s = some s1) :
    s1.buffer.length = s.buffer.length := by
  unfold decompress_step at h
  cases hr : s.reader.read with
  | none => rw [hr] at h; simp at h
  | some q =>
    obtain ⟨nibble, reader⟩ := q
    rw [hr] at h
    simp only at h
    split_ifs at h
    · simp only [Option.some.injEq] at h
      rw [← h]
    · exact decode_record_length aux area nibble
        { s with reader := reader, stage := (decode_stage s.stage s.count nibble).1,
                 count := (decode_stage s.stage s.count nibble).2 } s1 h

/-- The type-8 loop never changes the length of the output buffer. -/
theorem decompress_loop_length (aux : Option AuxPalette) (area : Nat) :
    ∀ (data_length : Nat) (s s1 : DecompressState),
      decompress_loop aux area data_length s = some s1 →
      s1.buffer.length = s.buffer.length := by
  intro n
  induction n with
  | zero =>
    intro s s1 h
    rw [decompress_loop] at h
    simp only [Option.some.injEq] at h
    rw [← h]
  | succ n ih =>
    intro s s1 h
    rw [decompress_loop] at h
    split_ifs at h
    · cases hs : decompress_step aux area s with
      | none => rw [hs] at h; simp at h
      | some s2 =>
        rw [hs] at h
        simp only at h
        rw [ih s2 s1 h, decompress_step_length aux area s s2 hs]
    · simp only [Option.some.injEq] at h
      rw [← h]

/-- C2 (counterexample): a type-8 record with an empty payload decompresses to
the empty buffer, whose length 0 is not `width * height` = 4. -/
theorem decompress_type8_empty_payload :
    example_empty_compressed_record.type = 8 ∧
    ∃ out, example_empty_compressed_record.decompress example_aux_palettes = some out ∧
      out.length ≠
        example_empty_compressed_record.width * example_empty_compressed_record.height :=
  ⟨rfl, [], by decide, by decide⟩

/-- C2 (amended): for every type-8 record with a non-empty payload, the
buffer `decompress` produces has exactly `width * height` elements, whatever
the nibble budget `data_size`; and `decompress` does produce a buffer when the
payload holds its `(data_size + 1) / 2` bytes and an auxiliary palette is
bound, as `load_from_gr` leaves a record. -/
theorem decompress_type8_length (b : Bitmap) (g_aux_palettes : AuxPalettes)
    (h8 : b.type = 8) (hne : b.pixels ≠ []) :
    (∀ out, b.decompress g_aux_palettes = some out → out.length = b.width * b.height) ∧
    (b.get_size_in_bytes ≤ b.pixels.length → b.aux_palette ≠ none →
      ∃ out, b.decompress g_aux_palettes = some out) := by
  have hc : b.is_compressed = true := by simp [Bitmap.is_compressed, h8]
  have he : b.pixels.isEmpty = false := by
    cases hp : b.pixels with
    | nil => exact absurd hp hne
    | cons _ _ => rfl
  have hdec : b.decompress g_aux_palettes =
      (decompress_loop (b.aux_palette.map g_aux_palettes) (b.width * b.height) b.data_size
        { reader := NibbleReader.mk_reader b.pixels b.get_size_in_bytes,
          buffer := List.replicate (b.width * b.height) 0, buffer_offset := 0,
          pixel_count := 0, stage := 0, count := 0, record := 0,
          repeat_count := 0 }).map (fun s => s.buffer) := by
    unfold Bitmap.decompress
    simp only [hc, he, h8]
    simp only [Bool.not_true, Bool.false_eq_true, if_false, if_true]
    cases decompress_loop (b.aux_palette.map g_aux_palettes) (b.width * b.height) b.data_size
        { reader := NibbleReader.mk_reader b.pixels b.get_size_in_bytes,
          buffer := List.replicate (b.width * b.height) 0, buffer_offset := 0,
          pixel_count := 0, stage := 0, count := 0, record := 0, repeat_count := 0 } with
    | none => rfl
    | some s => simp
  rw [hdec]
  refine ⟨fun out hout => ?_, fun hpay haux => ?_⟩
  · cases hl : decompress_loop (b.aux_palette.map g_aux_palettes) (b.width * b.height)
        b.data_size
        { reader := NibbleReader.mk_reader b.pixels b.get_size_in_bytes,
          buffer := List.replicate (b.width * b.height) 0, buffer_offset := 0,
          pixel_count := 0, stage := 0, count := 0, record := 0, repeat_count := 0 } with
    | none => rw [hl] at hout; simp at hout
    | some s =>
      rw [hl] at hout
      simp only [Option.map_some', Option.some.injEq] at hout
      rw [← hout, decompress_loop_length _ _ _ _ _ hl]
      simp
  · obtain ⟨k, hk⟩ := Option.ne_none_iff_exists'.mp haux
    obtain ⟨s1, hs1, _⟩ := decompress_loop_inv (g_aux_palettes k) (b.width * b.height)
      b.data_size
      { reader := NibbleReader.mk_reader b.pixels b.get_size_in_bytes,
        buffer := List.replicate (b.width * b.height) 0, buffer_offset := 0, pixel_count := 0,
        stage := 0, count := 0, record := 0, repeat_count := 0 }
      ⟨⟨hpay, Nat.zero_le _, by simp [NibbleReader.mk_reader],
        by simp [NibbleReader.mk_reader]⟩, by simp, rfl⟩
    rw [hk]
    simp only [Option.map_some']
    rw [hs1]
    exact ⟨s1.buffer, rfl⟩

/-- C2 (amended), at the kind-8 record of the bytes 0x12, 0x34: a buffer is
produced and it has `width * height` elements. -/
theorem decompress_type8_length_witness :
    ∃ out, example_compressed_record.decompress example_aux_palettes = some out ∧
      out.length = example_compressed_record.width * example_compressed_record.height := by
  obtain ⟨hlen, hdef⟩ := decompress_type8_length example_compressed_record
    example_aux_palettes (by decide) (by decide)
  obtain ⟨out, hout⟩ := hdef (by decide) (by decide)
  exact ⟨out, hout, hlen out hout⟩

/-! ### Headers written and read back -/

theorem read_value_two (a b : Nat) (rest : Buffer) :
    read_value 2 (a :: b :: rest) = some (a + 256 * b, rest) := by
  simp [read_value, from_le]

theorem read_value_four (a b c d : Nat) (rest : Buffer) :
    read_value 4 (a :: b :: c :: d :: rest)
      = some (a + 256 * (b + 256 * (c + 256 * d)), rest) := by
  simp [read_value, from_le]

theorem read_le16 (v : Nat) (hv : v < 65536) (rest : Buffer) :
    read_value 2 (le16 v ++ rest) = some (v, rest) := by
  have : v % 256 + 256 * (v / 256 % 256) = v := by omega
  simp [le16, read_value_two, this]

theorem read_le32 (v : Nat) (hv : v < 4294967296) (rest : Buffer) :
    read_value 4 (le32 v ++ rest) = some (v, rest) := by
  have : v % 256 + 256 * (v / 256 % 256 + 256 * (v / 65536 % 256 + 256 * (v / 16777216 % 256)))
      = v := by omega
  simp [le32, read_value_four, this]

theorem read_le32_long (v : Int) (h1 : -2147483648 ≤ v) (h2 : v < 2147483648)
    (rest : Buffer) :
    (read_value 4 (le32_long v ++ rest)).map (fun r => (to_long r.1, r.2))
      = some (v, rest) := by
  unfold le32_long
  rw [read_le32 _ (by omega)]
  simp only [Option.map_some', to_long]
  congr 2
  split_ifs <;> omega

theorem bmp_header_load_save (h : BmpHeader) (rest : Buffer)
    (h1 : h.bfType < 65536) (h2 : h.bfSize < 4294967296) (h3 : h.bfReserved1 < 65536)
    (h4 : h.bfReserved2 < 65536) (h5 : h.bfOffBits < 4294967296) :
    BmpHeader.load_from_stream (h.save_to_stream ++ rest) = some (h, rest) := by
  unfold BmpHeader.load_from_stream BmpHeader.save_to_stream
  simp only [List.append_assoc]
  rw [read_le16 _ h1]
  simp only []
  rw [read_le32 _ h2]
  simp only []
  rw [read_le16 _ h3]
  simp only []
  rw [read_le16 _ h4]
  simp only []
  rw [read_le32 _ h5]

theorem read_le32_long_some (v : Int) (h1 : -2147483648 ≤ v) (h2 : v < 2147483648)
    (rest : Buffer) :
    ∃ r, read_value 4 (le32_long v ++ rest) = some (r, rest) ∧ to_long r = v := by
  have h := read_le32_long v h1 h2 rest
  cases hr : read_value 4 (le32_long v ++ rest) with
  | none => rw [hr] at h; simp at h
  | some p =>
    rw [hr] at h
    simp only [Option.map_some', Option.some.injEq, Prod.mk.injEq] at h
    exact ⟨p.1, by rw [← h.2], h.1⟩

theorem bmp_info_header_load_save (h : BmpInfoHeader) (rest : Buffer)
    (h1 : h.biSize < 4294967296)
    (h2 : -2147483648 ≤ h.biWidth ∧ h.biWidth < 2147483648)
    (h3 : -2147483648 ≤ h.biHeight ∧ h.biHeight < 2147483648)
    (h4 : h.biPlanes < 65536) (h5 : h.biBitCount < 65536)
    (h6 : h.biCompression < 4294967296) (h7 : h.biSizeImage < 4294967296)
    (h8 : -2147483648 ≤ h.biXPelsPerMeter ∧ h.biXPelsPerMeter < 2147483648)
    (h9 : -2147483648 ≤ h.biYPelsPerMeter ∧ h.biYPelsPerMeter < 2147483648)
    (h10 : h.biClrUsed < 4294967296) (h11 : h.biClrImportant < 4294967296) :
    BmpInfoHeader.load_from_stream (h.save_to_stream ++ rest) = some (h, rest) := by
  unfold BmpInfoHeader.load_from_stream BmpInfoHeader.save_to_stream
  simp only [List.append_assoc]
  obtain ⟨w, hw, hw2⟩ := read_le32_long_some h.biWidth h2.1 h2.2
    (le32_long h.biHeight ++ (le16 h.biPlanes ++ (le16 h.biBitCount ++
      (le32 h.biCompression ++ (le32 h.biSizeImage ++ (le32_long h.biXPelsPerMeter ++
        (le32_long h.biYPelsPerMeter ++ (le32 h.biClrUsed ++
          (le32 h.biClrImportant ++ rest)))))))))
  obtain ⟨ht, hht, hht2⟩ := read_le32_long_some h.biHeight h3.1 h3.2
    (le16 h.biPlanes ++ (le16 h.biBitCount ++
      (le32 h.biCompression ++ (le32 h.biSizeImage ++ (le32_long h.biXPelsPerMeter ++
        (le32_long h.biYPelsPerMeter ++ (le32 h.biClrUsed ++
          (le32 h.biClrImportant ++ rest))))))))
  obtain ⟨px, hpx, hpx2⟩ := read_le32_long_some h.biXPelsPerMeter h8.1 h8.2
    (le32_long h.biYPelsPerMeter ++ (le32 h.biClrUsed ++ (le32 h.biClrImportant ++ rest)))
  obtain ⟨py, hpy, hpy2⟩ := read_le32_long_some h.biYPelsPerMeter h9.1 h9.2
    (le32 h.biClrUsed ++ (le32 h.biClrImportant ++ rest))
  rw [read_le32 _ h1]
  simp only []
  rw [hw]
  simp only []
  rw [hht]
  simp only []
  rw [read_le16 _ h4]
  simp only []
  rw [read_le16 _ h5]
  simp only []
  rw [read_le32 _ h6]
  simp only []
  rw [read_le32 _ h7]
  simp only []
  rw [hpx]
  simp only []
  rw [hpy]
  simp only []
  rw [read_le32 _ h10]
  simp only []
  rw [read_le32 _ h11]
  simp only [hw2, hht2, hpx2, hpy2]

/-! ### Import: the validation of the headers -/

theorem getElem?_eq_some_getD (l : Buffer) (i : Nat) (h : i < l.length) :
    l[i]? = some (l.getD i 0) := by
  rw [List.getD_eq_getElem?_getD, List.getElem?_eq_getElem h]
  rfl

/-- A result of `load_payload` carries the flag `true` and keeps the kind and
the auxiliary palette of the record it was given. -/
theorem load_payload_some (b : Bitmap) (data : Buffer) (p : Nat) (special : Special)
    (palette : Palette) (r : Bool × Bitmap)
    (h : b.load_payload data p special palette = some r) :
    r.1 = true ∧ r.2.aux_palette = b.aux_palette ∧ r.2.type = b.type := by
  unfold Bitmap.load_payload at h
  by_cases hs : special = Special.e_none ∨ special = Special.e_default
  · rw [if_pos hs] at h
    cases h0 : data[p]? with
    | none => simp [h0] at h
    | some lo =>
      cases h1 : data[p + 1]? with
      | none => simp [h0, h1] at h
      | some hi =>
        simp only [h0, h1] at h
        split_ifs at h
        simp only [Option.some.injEq] at h
        subst h
        exact ⟨rfl, rfl, rfl⟩
  · rw [if_neg hs] at h
    simp only at h
    split_ifs at h
    simp only [Option.some.injEq] at h
    subst h
    exact ⟨rfl, rfl, rfl⟩

/-- With a per-record header `load_payload` succeeds as soon as the two bytes
of `data_size` and the payload they declare lie in the buffer. -/
theorem load_payload_default_defined (b : Bitmap) (data : Buffer) (p : Nat)
    (palette : Palette)
    (hfit : p + 2 + (if b.is_compressed
        then (data.getD p 0 + 256 * data.getD (p + 1) 0 + 1) / 2
        else data.getD p 0 + 256 * data.getD (p + 1) 0) ≤ data.length) :
    ∃ b1, b.load_payload data p Special.e_default palette = some (true, b1) := by
  unfold Bitmap.load_payload
  rw [if_pos (Or.inr rfl)]
  rw [getElem?_eq_some_getD data p (by omega), getElem?_eq_some_getD data (p + 1) (by omega)]
  simp only
  have hsz : ({ b with data_size := data.getD p 0 + 256 * data.getD (p + 1) 0 } :
      Bitmap).get_size_in_bytes
      = (if b.is_compressed then (data.getD p 0 + 256 * data.getD (p + 1) 0 + 1) / 2
          else data.getD p 0 + 256 * data.getD (p + 1) 0) := by
    simp [Bitmap.get_size_in_bytes, Bitmap.is_compressed]
  rw [hsz, if_pos (by omega)]
  exact ⟨_, rfl⟩

/-- C8: for a record with a per-record header (`special` is `e_default`),
whenever the load stays inside the buffer it fails exactly when the kind byte
is not 4, 8 or 10, or the kind is not 4 and the auxiliary-palette index byte is
above 31; on success a record of kind 4 has no auxiliary palette and a record
of kind 8 or 10 is bound to the palette of that index. The load does stay
inside the buffer, and so rejects, when four header bytes are there and one of
the two conditions holds; and it stays inside and accepts when neither holds
and the bytes of `data_size` and of the payload are there. -/
theorem load_from_gr_header_fails_iff (b : Bitmap) (data : Buffer) (offset : Nat)
    (palette : Palette) :
    (∀ r, b.load_from_gr data offset Special.e_default palette = some r →
      ((r.1 = false ↔
          (¬ (data.getD offset 0 = 4 ∨ data.getD offset 0 = 8 ∨ data.getD offset 0 = 10) ∨
           (data.getD offset 0 ≠ 4 ∧ data.getD (offset + 3) 0 > 31))) ∧
       (r.1 = true → data.getD offset 0 = 4 → r.2.aux_palette = none) ∧
       (r.1 = true → data.getD offset 0 ≠ 4 →
          r.2.aux_palette.map Fin.val = some (data.getD (offset + 3) 0)))) ∧
    (offset + 4 ≤ data.length →
      (¬ (data.getD offset 0 = 4 ∨ data.getD offset 0 = 8 ∨ data.getD offset 0 = 10) ∨
       (data.getD offset 0 ≠ 4 ∧ data.getD (offset + 3) 0 > 31)) →
      ∃ b1, b.load_from_gr data offset Special.e_default palette = some (false, b1)) ∧
    (data.getD offset 0 = 4 →
      offset + 5 + (data.getD (offset + 3) 0 + 256 * data.getD (offset + 4) 0) ≤ data.length →
      ∃ b1, b.load_from_gr data offset Special.e_default palette = some (true, b1)) ∧
    (data.getD offset 0 = 8 ∨ data.getD offset 0 = 10 → data.getD (offset + 3) 0 ≤ 31 →
      offset + 6 + (data.getD (offset + 4) 0 + 256 * data.getD (offset + 5) 0 + 1) / 2
        ≤ data.length →
      ∃ b1, b.load_from_gr data offset Special.e_default palette = some (true, b1)) := by
  rcases Nat.lt_or_ge data.length (offset + 3) with hshort | hlong
  · -- the three header bytes are not all there: the load is undefined
    have hnone : b.load_from_gr data offset Special.e_default palette = none := by
      unfold Bitmap.load_from_gr Bitmap.load_header
      rw [if_pos rfl]
      have h2 : data[offset + 2]? = none := List.getElem?_eq_none (by omega)
      cases data[offset]? <;> cases data[offset + 1]? <;> simp [h2]
    refine ⟨fun r hr => ?_, fun h => ?_, fun _ h => ?_, fun _ _ h => ?_⟩
    · rw [hnone] at hr; exact absurd hr (by simp)
    · omega
    · omega
    · omega
  · have e0 := getElem?_eq_some_getD data offset (by omega)
    have e1 := getElem?_eq_some_getD data (offset + 1) (by omega)
    have e2 := getElem?_eq_some_getD data (offset + 2) (by omega)
    have hload : b.load_from_gr data offset Special.e_default palette =
        (if ¬ (data.getD offset 0 = 4 ∨ data.getD offset 0 = 8 ∨ data.getD offset 0 = 10) then
          some (false, { b with type := data.getD offset 0, width := data.getD (offset + 1) 0,
                                height := data.getD (offset + 2) 0 })
        else if data.getD offset 0 ≠ 4 then
          match data[offset + 3]? with
          | none => none
          | some aux_palette_index =>
            if h : aux_palette_index > 31 then
              some (false, { b with type := data.getD offset 0,
                                    width := data.getD (offset + 1) 0,
                                    height := data.getD (offset + 2) 0 })
            else
              Bitmap.load_payload
                { b with type := data.getD offset 0, width := data.getD (offset + 1) 0,
                         height := data.getD (offset + 2) 0,
                         aux_palette := some ⟨aux_palette_index, by omega⟩ }
                data (offset + 3 + 1) Special.e_default palette
        else
          Bitmap.load_payload
            { b with type := data.getD offset 0, width := data.getD (offset + 1) 0,
                     height := data.getD (offset + 2) 0, aux_palette := none }
            data (offset + 3) Special.e_default palette) := by
      unfold Bitmap.load_from_gr Bitmap.load_header
      rw [if_pos rfl, e0, e1, e2]
      simp only [Bitmap.is_compressed, bne_iff_ne, ne_eq]
    rw [hload]
    by_cases hk : data.getD offset 0 = 4 ∨ data.getD offset 0 = 8 ∨ data.getD offset 0 = 10
    · rw [if_neg (not_not.mpr hk)]
      by_cases h4 : data.getD offset 0 = 4
      · rw [if_neg (not_not.mpr h4)]
        refine ⟨fun r hr => ?_, fun _ hbad => ?_, fun _ hfit => ?_, fun h8 _ _ => ?_⟩
        · obtain ⟨hr1, hr2, _⟩ := load_payload_some _ _ _ _ _ _ hr
          refine ⟨⟨fun hf => ?_, fun hbad => ?_⟩, fun _ _ => hr2, fun _ hn => absurd h4 hn⟩
          · rw [hr1] at hf; exact absurd hf (by simp)
          · rcases hbad with hb | hb
            · exact absurd hk hb
            · exact absurd h4 hb.1
        · rcases hbad with hb | hb
          · exact absurd hk hb
          · exact absurd h4 hb.1
        · apply load_payload_default_defined
          simp only [Bitmap.is_compressed, h4]
          simp only [bne_self_eq_false, Bool.false_eq_true, if_false]
          have : offset + 3 + 1 = offset + 4 := rfl
          rw [this]
          omega
        · omega
      · rw [if_pos h4]
        rcases Nat.lt_or_ge (offset + 3) data.length with h3 | h3
        · rw [getElem?_eq_some_getD data (offset + 3) h3]
          simp only
          by_cases ha : data.getD (offset + 3) 0 > 31
          · rw [dif_pos ha]
            refine ⟨fun r hr => ?_, fun _ _ => ⟨_, rfl⟩, fun h _ => absurd h h4,
              fun _ hle _ => by omega⟩
            simp only [Option.some.injEq] at hr
            subst hr
            exact ⟨⟨fun _ => Or.inr ⟨h4, ha⟩, fun _ => rfl⟩, fun h => by simp at h,
              fun h => by simp at h⟩
          · rw [dif_neg ha]
            refine ⟨fun r hr => ?_, fun _ hbad => ?_, fun h _ => absurd h h4,
              fun _ _ hfit => ?_⟩
            · obtain ⟨hr1, hr2, _⟩ := load_payload_some _ _ _ _ _ _ hr
              refine ⟨⟨fun hf => ?_, fun hbad => ?_⟩, fun _ h => absurd h h4, fun _ _ => ?_⟩
              · rw [hr1] at hf; exact absurd hf (by simp)
              · rcases hbad with hb | hb
                · exact absurd hk hb
                · exact absurd hb.2 ha
              · rw [hr2]; rfl
            · rcases hbad with hb | hb
              · exact absurd hk hb
              · exact absurd hb.2 ha
            · apply load_payload_default_defined
              have hc : data.getD offset 0 ≠ 4 := h4
              simp only [Bitmap.is_compressed, bne_iff_ne, ne_eq, hc, not_false_eq_true,
                decide_True, if_true]
              have e4 : offset + 3 + 1 = offset + 4 := rfl
              have e5 : offset + 3 + 1 + 1 = offset + 5 := rfl
              rw [e5, e4]
              omega
        · rw [List.getElem?_eq_none h3]
          refine ⟨fun r hr => absurd hr (by simp), fun h _ => by omega,
            fun h _ => absurd h h4, fun _ _ h => by omega⟩
    · rw [if_pos hk]
      refine ⟨fun r hr => ?_, fun _ _ => ⟨_, rfl⟩, fun h _ => absurd (Or.inl h) hk,
        fun h _ _ => ?_⟩
      · simp only [Option.some.injEq] at hr
        subst hr
        exact ⟨⟨fun _ => Or.inl hk, fun _ => rfl⟩, fun h => by simp at h,
          fun h => by simp at h⟩
      · rcases h with h | h
        · exact absurd (Or.inr (Or.inl h)) hk
        · exact absurd (Or.inr (Or.inr h)) hk

/-- C8, at the index bytes 31 and 32: the first record is accepted, the second
rejected. -/
theorem load_from_gr_header_fails_iff_witness :
    (∃ b1, Bitmap.new.load_from_gr example_record_aux31 2 Special.e_default example_palette
      = some (true, b1)) ∧
    (∃ b1, Bitmap.new.load_from_gr example_record_aux32 2 Special.e_default example_palette
      = some (false, b1)) :=
  ⟨(load_from_gr_header_fails_iff Bitmap.new example_record_aux31 2 example_palette).2.2.2
      (by decide) (by decide) (by decide),
   (load_from_gr_header_fails_iff Bitmap.new example_record_aux32 2 example_palette).2.1
      (by decide) (by decide)⟩

/-! ### The palette-index constraint of `load_gr_file` -/

theorem load_payload_palette (b : Bitmap) (data : Buffer) (p : Nat) (special : Special)
    (pal pal1 : Palette) :
    b.load_payload data p special pal1 =
      (b.load_payload data p special pal).map
        (fun r => (r.1, { r.2 with palette := some pal1 })) := by
  unfold Bitmap.load_payload
  by_cases hs : special = Special.e_none ∨ special = Special.e_default
  · rw [if_pos hs]
    cases h0 : data[p]? with
    | none => simp
    | some lo =>
      cases h1 : data[p + 1]? with
      | none => simp
      | some hi =>
        simp only
        split_ifs <;> simp
  · rw [if_neg hs]
    simp only
    split_ifs <;> simp

/-- The palette handed to `load_from_gr` decides neither the flag nor, on
failure, the record; on success it only fills the field `palette`. -/
theorem load_from_gr_palette (b : Bitmap) (data : Buffer) (offset : Nat) (special : Special)
    (pal pal1 : Palette) :
    (∀ b1, b.load_from_gr data offset special pal = some (false, b1) →
      b.load_from_gr data offset special pal1 = some (false, b1)) ∧
    (∀ b1, b.load_from_gr data offset special pal = some (true, b1) →
      ∃ b2, b.load_from_gr data offset special pal1 = some (true, b2) ∧ b2.type = b1.type) := by
  unfold Bitmap.load_from_gr
  cases b.load_header data offset special with
  | none => simp
  | some hp =>
    obtain ⟨b1, p1⟩ := hp
    simp only
    by_cases hk : ¬ (b1.type = 4 ∨ b1.type = 8 ∨ b1.type = 10)
    · rw [if_pos hk, if_pos hk]
      exact ⟨fun _ h => h, fun _ h => by simp at h⟩
    · rw [if_neg hk, if_neg hk]
      by_cases hc : b1.is_compressed = true
      · rw [if_pos hc, if_pos hc]
        cases ha : data[p1]? with
        | none => simp
        | some a =>
          simp only
          by_cases h31 : a > 31
          · rw [dif_pos h31, dif_pos h31]
            exact ⟨fun _ h => h, fun _ h => by simp at h⟩
          · rw [dif_neg h31, dif_neg h31]
            rw [load_payload_palette _ data (p1 + 1) special pal pal1]
            refine ⟨fun c hc1 => ?_, fun c hc1 => ?_⟩
            · have := (load_payload_some _ _ _ _ _ _ hc1).1
              simp at this
            · rw [hc1]
              exact ⟨_, rfl, rfl⟩
      · rw [if_neg hc, if_neg hc]
        rw [load_payload_palette _ data p1 special pal pal1]
        refine ⟨fun c hc1 => ?_, fun c hc1 => ?_⟩
        · have := (load_payload_some _ _ _ _ _ _ hc1).1
          simp at this
        · rw [hc1]
          exact ⟨_, rfl, rfl⟩

/-- A record that `load_from_gr` accepts has the kind `load_header` found. -/
theorem load_from_gr_true_type (b : Bitmap) (data : Buffer) (offset : Nat)
    (special : Special) (pal : Palette) (b1 : Bitmap)
    (h : b.load_from_gr data offset special pal = some (true, b1)) :
    ∃ b0 p0, b.load_header data offset special = some (b0, p0) ∧ b1.type = b0.type := by
  unfold Bitmap.load_from_gr at h
  cases hh : b.load_header data offset special with
  | none => rw [hh] at h; simp at h
  | some hp =>
    obtain ⟨b0, p0⟩ := hp
    rw [hh] at h
    simp only at h
    refine ⟨b0, p0, rfl, ?_⟩
    by_cases hk : ¬ (b0.type = 4 ∨ b0.type = 8 ∨ b0.type = 10)
    · rw [if_pos hk] at h; simp at h
    · rw [if_neg hk] at h
      by_cases hc : b0.is_compressed = true
      · rw [if_pos hc] at h
        cases ha : data[p0]? with
        | none => rw [ha] at h; simp at h
        | some a =>
          rw [ha] at h
          simp only at h
          by_cases h31 : a > 31
          · rw [dif_pos h31] at h; simp at h
          · rw [dif_neg h31] at h
            exact (load_payload_some _ _ _ _ _ _ h).2.2
      · rw [if_neg hc] at h
        exact (load_payload_some _ _ _ _ _ _ h).2.2

/-- A record loaded with a per-record header has the kind its first byte
gives. -/
theorem load_from_gr_default_type (b : Bitmap) (data : Buffer) (offset : Nat)
    (pal : Palette) (b1 : Bitmap)
    (h : b.load_from_gr data offset Special.e_default pal = some (true, b1)) :
    b1.type = data.getD offset 0 := by
  obtain ⟨b0, p0, hh, ht⟩ := load_from_gr_true_type b data offset _ pal b1 h
  rw [ht]
  unfold Bitmap.load_header at hh
  rw [if_pos rfl] at hh
  cases h0 : data[offset]? with
  | none => rw [h0] at hh; cases data[offset + 1]? <;> cases data[offset + 2]? <;> simp at hh
  | some t =>
    cases h1 : data[offset + 1]? with
    | none => rw [h0, h1] at hh; cases data[offset + 2]? <;> simp at hh
    | some w =>
      cases h2 : data[offset + 2]? with
      | none => rw [h0, h1, h2] at hh; simp at hh
      | some ht2 =>
        rw [h0, h1, h2] at hh
        simp only [Option.some.injEq, Prod.mk.injEq] at hh
        rw [← hh.1, List.getD_eq_getElem?_getD, h0]
        rfl

/-- In an archive with per-record headers and a palette index other than 0,
the record loop never returns `true` when a non-empty record still to be
loaded has a kind byte other than 4. -/
theorem load_records_rejects (pals : List Palette) (buffer : Buffer) (offsets : List Nat)
    (count p : Nat) (hp : p ≠ 0) :
    ∀ (bitmaps : List Bitmap) (i : Nat),
      (∃ j o0 o1, i ≤ j ∧ j < i + bitmaps.length ∧ offsets[j]? = some o0 ∧
        offsets[j + 1]? = some o1 ∧ o1 ≠ o0 ∧ buffer.getD o0 0 ≠ 4) →
      ∀ r, load_records false p pals buffer offsets count i bitmaps = some r →
        r.1 = false := by
  intro bitmaps
  induction bitmaps with
  | nil =>
    intro i ⟨j, _, _, h1, h2, _⟩
    simp at h2
    omega
  | cons bitmap rest ih =>
    intro i ⟨j, o0, o1, hij, hjlt, hj0, hj1, hne, hkind⟩ r hr
    rw [load_records] at hr
    cases e0 : offsets[i]? with
    | none => rw [e0] at hr; simp at hr
    | some a =>
      cases e1 : offsets[i + 1]? with
      | none => rw [e0, e1] at hr; simp at hr
      | some c =>
        rw [e0, e1] at hr
        simp only at hr
        have hji : j = i → c ≠ a ∧ buffer.getD a 0 ≠ 4 := by
          intro h
          subst h
          rw [e0] at hj0
          rw [e1] at hj1
          simp only [Option.some.injEq] at hj0 hj1
          subst hj0
          subst hj1
          exact ⟨hne, hkind⟩
        have hrest : j ≠ i → ∃ j o0 o1, i + 1 ≤ j ∧ j < i + 1 + rest.length ∧
            offsets[j]? = some o0 ∧ offsets[j + 1]? = some o1 ∧ o1 ≠ o0 ∧
            buffer.getD o0 0 ≠ 4 := by
          intro h
          refine ⟨j, o0, o1, by omega, ?_, hj0, hj1, hne, hkind⟩
          simp only [List.length_cons] at hjlt
          omega
        by_cases hca : c = a
        · rw [if_pos hca] at hr
          have hj : j ≠ i := fun h => (hji h).1 hca
          cases hrec : load_records false p pals buffer offsets count (i + 1) rest with
          | none => rw [hrec] at hr; simp at hr
          | some q =>
            obtain ⟨ok, bs⟩ := q
            rw [hrec] at hr
            simp only [Option.some.injEq] at hr
            rw [← hr]
            exact ih (i + 1) (hrest hj) (ok, bs) hrec
        · rw [if_neg hca] at hr
          simp only [Bool.false_eq_true, if_false] at hr
          cases hpal : pals[p]? with
          | none => rw [hpal] at hr; simp at hr
          | some pal =>
            rw [hpal] at hr
            simp only at hr
            cases hl : bitmap.load_from_gr buffer a Special.e_default pal with
            | none => rw [hl] at hr; simp at hr
            | some q =>
              obtain ⟨ok, b1⟩ := q
              rw [hl] at hr
              cases ok with
              | false =>
                simp only [Option.some.injEq] at hr
                rw [← hr]
              | true =>
                simp only at hr
                by_cases hchk : b1.type ≠ 4 ∧ p ≠ 0
                · rw [if_pos hchk] at hr
                  simp only [Option.some.injEq] at hr
                  rw [← hr]
                · rw [if_neg hchk] at hr
                  have hj : j ≠ i := by
                    intro h
                    apply hchk
                    refine ⟨?_, hp⟩
                    rw [load_from_gr_default_type bitmap buffer a pal b1 hl]
                    exact (hji h).2
                  cases hrec : load_records false p pals buffer offsets count (i + 1) rest with
                  | none => rw [hrec] at hr; simp at hr
                  | some q =>
                    obtain ⟨ok, bs⟩ := q
                    rw [hrec] at hr
                    simp only [Option.some.injEq] at hr
                    rw [← hr]
                    exact ih (i + 1) (hrest hj) (ok, bs) hrec

/-- Whatever the record loop returns with palette index 0, it returns a result
with any index of an existing palette, and a rejection stays a rejection. -/
theorem load_records_index_zero (g : Bool) (pals : List Palette) (buffer : Buffer)
    (offsets : List Nat) (count p : Nat) (hlt : p < pals.length) :
    ∀ (bitmaps : List Bitmap) (i : Nat) (ok0 : Bool) (bs0 : List Bitmap),
      load_records g 0 pals buffer offsets count i bitmaps = some (ok0, bs0) →
      ∃ ok bs, load_records g p pals buffer offsets count i bitmaps = some (ok, bs) ∧
        (ok0 = false → ok = false) := by
  intro bitmaps
  induction bitmaps with
  | nil =>
    intro i ok0 bs0 h
    rw [load_records] at h
    simp only [Option.some.injEq, Prod.mk.injEq] at h
    exact ⟨true, [], by rw [load_records], fun h0 => by rw [← h.1] at h0; exact h0⟩
  | cons bitmap rest ih =>
    intro i ok0 bs0 h
    rw [load_records] at h
    rw [load_records]
    cases e0 : offsets[i]? with
    | none => rw [e0] at h; simp at h
    | some a =>
      cases e1 : offsets[i + 1]? with
      | none => rw [e0, e1] at h; simp at h
      | some c =>
        rw [e0, e1] at h
        simp only at h ⊢
        by_cases hca : c = a
        · rw [if_pos hca] at h ⊢
          cases hrec : load_records g 0 pals buffer offsets count (i + 1) rest with
          | none => rw [hrec] at h; simp at h
          | some q =>
            obtain ⟨okr, bsr⟩ := q
            rw [hrec] at h
            simp only [Option.some.injEq, Prod.mk.injEq] at h
            obtain ⟨ok, bs, hrp, himp⟩ := ih (i + 1) okr bsr hrec
            rw [hrp]
            exact ⟨ok, _, rfl, fun h0 => himp (by rw [h.1]; exact h0)⟩
        · rw [if_neg hca] at h ⊢
          obtain ⟨palp, hpalp⟩ : ∃ palp, pals[p]? = some palp :=
            ⟨pals[p], List.getElem?_eq_getElem hlt⟩
          cases hpal : pals[0]? with
          | none => rw [hpal] at h; simp at h
          | some pal0 =>
            rw [hpal] at h
            rw [hpalp]
            simp only at h ⊢
            generalize (if g = true then
                (if i = count - 1 then Special.e_last_panel else Special.e_panel)
              else Special.e_default) = special at h ⊢
            cases hl : bitmap.load_from_gr buffer a special pal0 with
            | none => rw [hl] at h; simp at h
            | some q =>
              obtain ⟨okl, b1⟩ := q
              rw [hl] at h
              cases okl with
              | false =>
                rw [(load_from_gr_palette bitmap buffer a special pal0 palp).1 b1 hl]
                exact ⟨false, _, rfl, fun _ => rfl⟩
              | true =>
                obtain ⟨b2, hl2, _⟩ :=
                  (load_from_gr_palette bitmap buffer a special pal0 palp).2 b1 hl
                rw [hl2]
                simp only at h ⊢
                rw [if_neg (by simp)] at h
                by_cases hchk : b2.type ≠ 4 ∧ p ≠ 0
                · rw [if_pos hchk]
                  exact ⟨false, _, rfl, fun _ => rfl⟩
                · rw [if_neg hchk]
                  cases hrec : load_records g 0 pals buffer offsets count (i + 1) rest with
                  | none => rw [hrec] at h; simp at h
                  | some q =>
                    obtain ⟨okr, bsr⟩ := q
                    rw [hrec] at h
                    simp only [Option.some.injEq, Prod.mk.injEq] at h
                    obtain ⟨ok, bs, hrp, himp⟩ := ih (i + 1) okr bsr hrec
                    rw [hrp]
                    exact ⟨ok, _, rfl, fun h0 => himp (by rw [h.1]; exact h0)⟩

theorem resize_bitmaps_length (g_bitmaps : List Bitmap) (n : Nat) :
    (resize_bitmaps g_bitmaps n).length = n := by
  simp [resize_bitmaps]
  omega

/-- The part of `load_gr_file` before the record loop does not look at the
palette index: either it decides the result, or the result is that of the
record loop over the offsets read. -/
theorem load_gr_file_run (g : Bool) (pals : List Palette) (g_bitmaps : List Bitmap)
    (buffer : Buffer) :
    (∀ p, load_gr_file g p pals g_bitmaps buffer = none) ∨
    (∀ p, load_gr_file g p pals g_bitmaps buffer = some (false, g_bitmaps)) ∨
    (∃ offsets,
      read_offsets buffer (buffer.getD 1 0 + 256 * buffer.getD 2 0 + 1) 0 = some offsets ∧
      ∀ p, load_gr_file g p pals g_bitmaps buffer =
        load_records g p pals buffer offsets (buffer.getD 1 0 + 256 * buffer.getD 2 0) 0
          (resize_bitmaps g_bitmaps (buffer.getD 1 0 + 256 * buffer.getD 2 0))) := by
  unfold load_gr_file
  by_cases c1 : buffer.length = 0
  · right; left; intro p; rw [if_pos c1]
  simp only [if_neg c1]
  by_cases c2 : buffer.length > k_max_file_size
  · right; left; intro p; rw [if_pos c2]
  simp only [if_neg c2]
  cases e0 : buffer[0]? with
  | none => left; intro p; rfl
  | some t =>
    simp only
    by_cases c3 : t ≠ 1
    · right; left; intro p; rw [if_pos c3]
    simp only [if_neg c3]
    cases e1 : buffer[1]? with
    | none => left; intro p; cases buffer[2]? <;> rfl
    | some lo =>
      cases e2 : buffer[2]? with
      | none => left; intro p; rfl
      | some hi =>
        have h1 : buffer.getD 1 0 = lo := by rw [List.getD_eq_getElem?_getD, e1]; rfl
        have h2 : buffer.getD 2 0 = hi := by rw [List.getD_eq_getElem?_getD, e2]; rfl
        rw [h1, h2]
        simp only
        by_cases c4 : lo + 256 * hi = 0
        · right; left; intro p; rw [if_pos c4]
        simp only [if_neg c4]
        cases e3 : read_offsets buffer (lo + 256 * hi + 1) 0 with
        | none => left; intro p; rfl
        | some offsets => right; right; exact ⟨offsets, rfl, fun p => rfl⟩

/-- C9: with a palette index `p` other than 0 (the index of an existing
palette), an archive with per-record headers that has a non-empty record `j`
whose kind byte is not 4 is never accepted, and it is rejected whenever the
same archive is accepted with palette index 0; and whatever `load_gr_file`
rejects with palette index 0 it rejects with every palette index, so no
rejection with index 0 comes from the palette test. -/
theorem load_gr_file_palette_index (pals : List Palette) (g_bitmaps : List Bitmap)
    (buffer : Buffer) (p : Nat) (hp : p ≠ 0) (hlt : p < pals.length) :
    (∀ offsets j o0 o1,
      read_offsets buffer (buffer.getD 1 0 + 256 * buffer.getD 2 0 + 1) 0 = some offsets →
      j < buffer.getD 1 0 + 256 * buffer.getD 2 0 →
      offsets[j]? = some o0 → offsets[j + 1]? = some o1 → o1 ≠ o0 →
      buffer.getD o0 0 ≠ 4 →
      (∀ r, load_gr_file false p pals g_bitmaps buffer = some r → r.1 = false) ∧
      (∀ bs0, load_gr_file false 0 pals g_bitmaps buffer = some (true, bs0) →
        ∃ bs, load_gr_file false p pals g_bitmaps buffer = some (false, bs))) ∧
    (∀ g bs0, load_gr_file g 0 pals g_bitmaps buffer = some (false, bs0) →
      ∃ bs, load_gr_file g p pals g_bitmaps buffer = some (false, bs)) := by
  refine ⟨fun offsets j o0 o1 hoff hj hj0 hj1 hne hkind => ?_, fun g bs0 h0 => ?_⟩
  · rcases load_gr_file_run false pals g_bitmaps buffer with hn | hf | ⟨offs, hoffs, hrun⟩
    · exact ⟨fun r hr => by rw [hn] at hr; simp at hr,
        fun bs0 h0 => by rw [hn] at h0; simp at h0⟩
    · exact ⟨fun r hr => by
          rw [hf] at hr
          simp only [Option.some.injEq] at hr
          rw [← hr],
        fun bs0 h0 => by rw [hf] at h0; simp at h0⟩
    · rw [hoff] at hoffs
      simp only [Option.some.injEq] at hoffs
      subst hoffs
      have hrej : ∀ r, load_gr_file false p pals g_bitmaps buffer = some r → r.1 = false := by
        intro r hr
        rw [hrun] at hr
        exact load_records_rejects pals buffer offsets _ p hp _ 0
          ⟨j, o0, o1, Nat.zero_le _, by rw [resize_bitmaps_length]; omega, hj0, hj1, hne,
            hkind⟩ r hr
      refine ⟨hrej, fun bs0 h0 => ?_⟩
      rw [hrun] at h0
      obtain ⟨ok, bs, hpr, _⟩ := load_records_index_zero false pals buffer offsets _ p hlt
        _ 0 true bs0 h0
      have hok := hrej (ok, bs) (by rw [hrun]; exact hpr)
      simp only at hok
      subst hok
      exact ⟨bs, by rw [hrun]; exact hpr⟩
  · rcases load_gr_file_run g pals g_bitmaps buffer with hn | hf | ⟨offs, _, hrun⟩
    · rw [hn] at h0; simp at h0
    · exact ⟨g_bitmaps, hf p⟩
    · rw [hrun] at h0
      obtain ⟨ok, bs, hpr, himp⟩ := load_records_index_zero g pals buffer offs _ p hlt
        _ 0 false bs0 h0
      have hok := himp rfl
      subst hok
      exact ⟨bs, by rw [hrun]; exact hpr⟩

/-- C9, at the one-record archive with a kind-8 record: it is accepted with
palette index 0 and rejected with palette index 2. -/
theorem load_gr_file_palette_index_witness :
    load_gr_file false 0 example_palettes [] example_archive
      = some (true, [example_compressed_record]) ∧
    ∃ bs, load_gr_file false 2 example_palettes [] example_archive = some (false, bs) :=
  ⟨by decide,
   ((load_gr_file_palette_index example_palettes [] example_archive 2 (by decide)
      (by decide)).1 [11, 19] 0 11 19 (by decide) (by decide) (by decide) (by decide)
      (by decide) (by decide)).2 [example_compressed_record] (by decide)⟩

/-! ### Export followed by import -/

theorem bmp_palette_block_defined (palette : Palette) :
    ∀ (n i : Nat), 3 * (i + n) ≤ palette.length →
      ∃ block, bmp_palette_block palette n i = some block ∧ block.length = 4 * n := by
  intro n
  induction n with
  | zero => intro i _; exact ⟨[], rfl, rfl⟩
  | succ n ih =>
    intro i h
    obtain ⟨rest, hrest, hlen⟩ := ih (i + 1) (by omega)
    rw [bmp_palette_block, hrest]
    unfold bmp_palette_entry
    rw [getElem?_eq_some_getD palette (3 * i + 2) (by omega),
      getElem?_eq_some_getD palette (3 * i + 1) (by omega),
      getElem?_eq_some_getD palette (3 * i + 0) (by omega)]
    refine ⟨_, rfl, ?_⟩
    simp only [List.length_append, List.length_cons, List.length_nil, hlen]
    omega

/-- The rows `export_rows` writes: `n` rows of `width + pad` bytes, each
starting with the `width` pixels of its row. -/
theorem export_rows_spec (pixels : Buffer) (width pad : Nat) (padding : Nat → Nat) :
    ∀ (n i : Nat), (i + n) * width ≤ pixels.length →
      ∃ image, export_rows pixels width pad padding n i = some image ∧
        image.length = n * (width + pad) ∧
        ∀ k, k < n → (image.drop (k * (width + pad))).take width
          = (pixels.drop ((i + k) * width)).take width := by
  intro n
  induction n with
  | zero => intro i _; exact ⟨[], rfl, by simp, fun k hk => by omega⟩
  | succ n ih =>
    intro i h
    have hmul : (i + (n + 1)) * width = i * width + width + n * width := by ring
    obtain ⟨rest, hrest, hlen, hrows⟩ := ih (i + 1) (by
      have : (i + 1 + n) * width = i * width + width + n * width := by ring
      omega)
    have hrow : ((pixels.drop (i * width)).take width).length = width := by
      rw [List.length_take, List.length_drop]
      omega
    rw [export_rows, if_pos (by omega), hrest]
    refine ⟨_, rfl, ?_, ?_⟩
    · simp only [List.length_append, hrow, List.length_map, List.length_range, hlen]
      ring
    · intro k hk
      cases k with
      | zero =>
        simp only [Nat.zero_mul, List.drop_zero, Nat.add_zero, List.append_assoc]
        rw [List.take_append_of_le_length (by omega)]
        rw [List.take_of_length_le (by omega)]
      | succ k =>
        have hk1 := hrows k (by omega)
        have e1 : (k + 1) * (width + pad)
            = (((pixels.drop (i * width)).take width) ++ (List.range pad).map padding).length
              + k * (width + pad) := by
          simp only [List.length_append, hrow, List.length_map, List.length_range]
          ring
        rw [e1, List.drop_append]
        rw [hk1]
        have e2 : i + 1 + k = i + (k + 1) := by omega
        rw [e2]

/-- The top-down row loop of the import rebuilds `orig` from an image whose
row `k` starts, at `k * stride`, with the `width` pixels of row `k` of `orig`:
`n` rows are left, the rows before `k` are already in place. -/
theorem copy_rows_top_down (data orig : Buffer) (width stride height : Nat)
    (horig : orig.length = width * height) (hdata : height * stride ≤ data.length)
    (hstride : width ≤ stride)
    (hrows : ∀ k, k < height → (data.drop (k * stride)).take width
      = (orig.drop (k * width)).take width) :
    ∀ (n k : Nat) (pixels : Buffer), k + n = height → pixels.length = width * height →
      pixels.take (k * width) = orig.take (k * width) →
      copy_rows data width stride (height : Int) 1 n (k : Int) (k * stride) pixels
        = some orig := by
  intro n
  induction n with
  | zero =>
    intro k pixels hk hlen htake
    have hkh : k = height := by omega
    subst hkh
    rw [copy_rows, if_pos rfl]
    rw [List.take_of_length_le (by rw [hlen, Nat.mul_comm]),
      List.take_of_length_le (by rw [horig, Nat.mul_comm])] at htake
    rw [htake]
  | succ n ih =>
    intro k pixels hk hlen htake
    have hklt : k < height := by omega
    have hne : ¬ ((k : Int) = (height : Int)) := by omega
    have hkw : k * width + width ≤ width * height := by
      have : (k + 1) * width ≤ height * width := Nat.mul_le_mul_right _ (by omega)
      have e : (k + 1) * width = k * width + width := by ring
      have e2 : height * width = width * height := Nat.mul_comm _ _
      omega
    have hks : k * stride + stride ≤ height * stride := by
      have : (k + 1) * stride ≤ height * stride := Nat.mul_le_mul_right _ (by omega)
      have e : (k + 1) * stride = k * stride + stride := by ring
      omega
    rw [copy_rows, if_neg hne]
    have hrow : copy_row data (k * stride) width (k : Int) pixels
        = some (pixels.take (k * width) ++ (data.drop (k * stride)).take width ++
            pixels.drop (k * width + width)) := by
      unfold copy_row
      simp only [Int.toNat_ofNat]
      rw [if_pos ⟨by omega, Int.natCast_nonneg _, by omega⟩]
    rw [hrow]
    simp only
    have hcast : ((k : Int) + 1) = ((k + 1 : Nat) : Int) := by push_cast; rfl
    have hsrc : k * stride + stride = (k + 1) * stride := by ring
    rw [hcast, hsrc]
    apply ih (k + 1) _ (by omega)
    · simp only [List.length_append, List.length_take, List.length_drop]
      omega
    · rw [htake, hrows k hklt]
      have e : (k + 1) * width = k * width + width := by ring
      have hA : orig.take (k * width) ++ (orig.drop (k * width)).take width
          = orig.take (k * width + width) := (List.take_add _ _ _).symm
      have hl : (orig.take (k * width + width)).length = k * width + width := by
        rw [List.length_take]
        omega
      rw [e, hA, List.take_append_of_le_length (by omega), List.take_take]
      simp

/-- When both headers are read and every test passes, `import_from_bmp` returns
what the pixel decoder returns. -/
theorem import_from_bmp_valid (b : Bitmap) (file : Buffer) (special : Special)
    (header : BmpHeader) (s1 : Buffer) (info : BmpInfoHeader) (rest : Buffer)
    (hh : BmpHeader.load_from_stream file = some (header, s1))
    (hi : BmpInfoHeader.load_from_stream s1 = some (info, rest))
    (c1 : header.bfType = 0x4D42) (c2 : ¬ to_long info.biSize < 40)
    (c3 : ¬ (info.biWidth = 0 ∨ info.biHeight = 0))
    (c4 : ¬ abs_long info.biWidth > k_max_width)
    (c5 : ¬ abs_long info.biHeight > k_max_height)
    (c6 : info.biPlanes = 1) (c7 : info.biBitCount = 8)
    (c8 : info.biCompression = 0 ∨ info.biCompression = 1)
    (c9 : ¬ (info.is_compressed = true ∧ info.biSizeImage = 0))
    (c10 : ¬ (info.biClrUsed ≠ 0 ∧ info.biClrUsed ≠ 256))
    (c11 : ¬ (info.biSizeImage ≠ 0 ∧ file.length < header.bfOffBits + info.biSizeImage))
    (c12 : (b.width : Int) = info.biWidth) (c13 : (b.height : Int) = abs_long info.biHeight) :
    b.import_from_bmp file special =
      b.import_pixels ((file.drop header.bfOffBits).take info.biSizeImage) info
        info.biWidth (abs_long info.biHeight) special := by
  unfold Bitmap.import_from_bmp
  simp only [hh, hi]
  rw [if_neg (not_not.mpr c1), if_neg c2, if_neg c3, if_neg c4, if_neg c5,
    if_neg (not_not.mpr c6), if_neg (not_not.mpr c7), if_neg (not_not.mpr c8), if_neg c9,
    if_neg c10, if_neg c11, if_neg (by rw [not_or, not_not, not_not]; exact ⟨c12, c13⟩)]

theorem bmp_header_stream_length (h : BmpHeader) : h.save_to_stream.length = 14 := by
  simp [BmpHeader.save_to_stream, le16, le32]

theorem bmp_info_header_stream_length (h : BmpInfoHeader) :
    h.save_to_stream.length = 40 := by
  simp [BmpInfoHeader.save_to_stream, le16, le32, le32_long]

/-- The round trip where `long` has 4 bytes: for every raw (kind 4) record
with 1 <= width <= 255, 1 <= height <= 255, a payload of exactly
width * height bytes and a palette of at least 768 bytes bound, `export_to_bmp`
writes a file (whatever the three padding bytes hold), and importing that file
into any record of the same width and height succeeds and leaves a payload
identical to the original one. -/
theorem export_import_round_trip (b target : Bitmap) (g_aux_palettes : AuxPalettes)
    (padding : Nat → Nat) (special : Special) (palette : Palette)
    (h4 : b.type = 4)
    (hw : 1 ≤ b.width ∧ b.width ≤ 255) (hh : 1 ≤ b.height ∧ b.height ≤ 255)
    (hpix : b.pixels.length = b.width * b.height)
    (hpal : b.palette = some palette) (hpal_len : 768 ≤ palette.length)
    (htw : target.width = b.width) (hth : target.height = b.height) :
    ∃ file, b.export_to_bmp g_aux_palettes padding = some file ∧
      ∃ t1, target.import_from_bmp file special = some (true, t1) ∧
        t1.pixels = b.pixels := by
  obtain ⟨hw1, hw2⟩ := hw
  obtain ⟨hh1, hh2⟩ := hh
  have hdec : b.decompress g_aux_palettes = some b.pixels := by
    unfold Bitmap.decompress
    simp [Bitmap.is_compressed, h4]
  obtain ⟨P, hP, hPlen⟩ := bmp_palette_block_defined palette 256 0 (by omega)
  have hstride : b.width + ((b.width + 3) / 4 * 4 - b.width) = (b.width + 3) / 4 * 4 := by
    omega
  have hprod : b.width * b.height ≤ 255 * 255 := Nat.mul_le_mul hw2 hh2
  have hsprod : ((b.width + 3) / 4 * 4) * b.height ≤ 256 * 255 :=
    Nat.mul_le_mul (by omega) hh2
  obtain ⟨image, himg, himglen, hrows⟩ : ∃ image,
      (if (b.width + 3) / 4 * 4 - b.width = 0 then some b.pixels
        else export_rows b.pixels b.width ((b.width + 3) / 4 * 4 - b.width) padding
          b.height 0) = some image ∧
      image.length = b.height * ((b.width + 3) / 4 * 4) ∧
      ∀ k, k < b.height → (image.drop (k * ((b.width + 3) / 4 * 4))).take b.width
        = (b.pixels.drop (k * b.width)).take b.width := by
    by_cases hpad : (b.width + 3) / 4 * 4 - b.width = 0
    · rw [if_pos hpad]
      have hs : (b.width + 3) / 4 * 4 = b.width := by omega
      refine ⟨b.pixels, rfl, ?_, fun k _ => ?_⟩
      · rw [hpix, hs, Nat.mul_comm]
      · rw [hs]
    · rw [if_neg hpad]
      obtain ⟨image, h1, h2, h3⟩ := export_rows_spec b.pixels b.width
        ((b.width + 3) / 4 * 4 - b.width) padding b.height 0
        (by rw [Nat.zero_add, hpix, Nat.mul_comm])
      rw [hstride] at h2 h3
      refine ⟨image, h1, h2, fun k hk => ?_⟩
      have := h3 k hk
      rw [Nat.zero_add] at this
      exact this
  -- the file written
  have hexp : b.export_to_bmp g_aux_palettes padding = some
      (({ bfType := 0x4D42,
          bfSize := 14 + 40 + (4 * 256) +
            ((b.width + ((b.width + 3) / 4 * 4 - b.width)) * b.height),
          bfReserved1 := 0, bfReserved2 := 0,
          bfOffBits := 14 + 40 + (4 * 256) } : BmpHeader).save_to_stream ++
        ({ biSize := 40, biWidth := (b.width : Int), biHeight := -(b.height : Int),
           biPlanes := 1, biBitCount := 8, biCompression := 0,
           biSizeImage := (b.width + ((b.width + 3) / 4 * 4 - b.width)) * b.height,
           biXPelsPerMeter := 0, biYPelsPerMeter := 0, biClrUsed := 0,
           biClrImportant := 0 } : BmpInfoHeader).save_to_stream ++ P ++ image) := by
    unfold Bitmap.export_to_bmp
    simp only [hdec, hpal, hP, himg]
  refine ⟨_, hexp, ?_⟩
  rw [hstride]
  obtain ⟨header, hH⟩ : ∃ header : BmpHeader, header =
      { bfType := 0x4D42,
        bfSize := 14 + 40 + (4 * 256) + ((b.width + 3) / 4 * 4 * b.height),
        bfReserved1 := 0, bfReserved2 := 0,
        bfOffBits := 14 + 40 + (4 * 256) } := ⟨_, rfl⟩
  obtain ⟨info, hI⟩ : ∃ info : BmpInfoHeader, info =
      { biSize := 40, biWidth := (b.width : Int), biHeight := -(b.height : Int),
        biPlanes := 1, biBitCount := 8, biCompression := 0,
        biSizeImage := (b.width + 3) / 4 * 4 * b.height,
        biXPelsPerMeter := 0, biYPelsPerMeter := 0, biClrUsed := 0,
        biClrImportant := 0 } := ⟨_, rfl⟩
  rw [← hH, ← hI]
  have hload1 : BmpHeader.load_from_stream
      (header.save_to_stream ++ info.save_to_stream ++ P ++ image)
      = some (header, info.save_to_stream ++ (P ++ image)) := by
    rw [List.append_assoc, List.append_assoc]
    apply bmp_header_load_save <;> subst hH <;> simp only <;> omega
  have hload2 : BmpInfoHeader.load_from_stream (info.save_to_stream ++ (P ++ image))
      = some (info, P ++ image) := by
    apply bmp_info_header_load_save <;> subst hI <;> simp only <;> omega
  have habs : abs_long info.biHeight = (b.height : Int) := by
    subst hI
    unfold abs_long
    simp only
    rw [if_neg (by omega), abs_neg, abs_of_nonneg (Int.natCast_nonneg _)]
  have habsw : abs_long info.biWidth = (b.width : Int) := by
    subst hI
    unfold abs_long
    simp only
    rw [if_neg (by omega), abs_of_nonneg (Int.natCast_nonneg _)]
  have hflen : (header.save_to_stream ++ info.save_to_stream ++ P ++ image).length
      = 1078 + image.length := by
    simp only [List.length_append, bmp_header_stream_length,
      bmp_info_header_stream_length, hPlen]
  have hoff : header.bfOffBits = 1078 := by subst hH; rfl
  have hsize : info.biSizeImage = image.length := by
    subst hI; simp only; rw [himglen, Nat.mul_comm]
  have hvalid := import_from_bmp_valid target
    (header.save_to_stream ++ info.save_to_stream ++ P ++ image) special header _ info _
    hload1 hload2 (by subst hH; rfl) (by subst hI; simp [to_long])
    (by subst hI; simp only; omega)
    (by rw [habsw]; simp only [k_max_width]; omega)
    (by rw [habs]; simp only [k_max_height]; omega)
    (by subst hI; rfl) (by subst hI; rfl) (Or.inl (by subst hI; rfl))
    (by subst hI; simp [BmpInfoHeader.is_compressed])
    (by subst hI; simp)
    (by rw [hflen, hoff, hsize]; omega)
    (by rw [htw]; subst hI; rfl) (by rw [hth, habs])
  rw [hvalid]
  have hdata : ((header.save_to_stream ++ info.save_to_stream ++ P ++ image).drop
      header.bfOffBits).take info.biSizeImage = image := by
    rw [hoff, hsize, List.drop_left' (by
      simp only [List.length_append, bmp_header_stream_length,
        bmp_info_header_stream_length, hPlen]), List.take_length]
  rw [hdata, habs]
  have hwid : info.biWidth = (b.width : Int) := by subst hI; rfl
  have hneg : info.biHeight < 0 := by subst hI; simp only; omega
  have hnc : info.is_compressed = false := by
    subst hI; simp [BmpInfoHeader.is_compressed]
  rw [hwid]
  have hcopy := copy_rows_top_down image b.pixels b.width ((b.width + 3) / 4 * 4) b.height
    hpix (by rw [himglen]) (by omega) hrows b.height 0
    (List.replicate (b.width * b.height) 0) (by omega) (by simp) (by simp)
  have hstr : (((b.width : Int) + 3) / 4 * 4).toNat = (b.width + 3) / 4 * 4 := by omega
  have harea : ((b.width : Int) * (b.height : Int)).toNat = b.width * b.height := by
    rw [← Nat.cast_mul, Int.toNat_ofNat]
  unfold Bitmap.import_pixels
  simp only [hneg, hnc, decide_True, if_true, Int.toNat_ofNat, hstr, harea,
    Bool.false_eq_true, if_false]
  simp only [Nat.cast_zero, Nat.zero_mul] at hcopy
  rw [hcopy]
  exact ⟨_, rfl, rfl⟩

/-- The round trip where `long` has 4 bytes, at a raw 3 x 2 record (one
padding byte a row) imported into itself. -/
theorem export_import_round_trip_witness :
    ∃ file, example_raw_record.export_to_bmp example_aux_palettes (fun _ => 0) = some file ∧
      ∃ t1, example_raw_record.import_from_bmp file Special.e_default = some (true, t1) ∧
        t1.pixels = example_raw_record.pixels :=
  export_import_round_trip example_raw_record example_raw_record example_aux_palettes
    (fun _ => 0) Special.e_default example_palette (by decide) (by decide) (by decide)
    (by decide) (by decide) (by decide) (by decide) (by decide)

/-! ### The length of the type-10 output -/

theorem plain_loop_length :
    ∀ (n i : Nat) (r : NibbleReader) (buf out : Buffer),
      plain_loop n i r buf = some out → out.length = buf.length := by
  intro n
  induction n with
  | zero =>
    intro i r buf out h
    rw [plain_loop] at h
    simp only [Option.some.injEq] at h
    rw [h]
  | succ n ih =>
    intro i r buf out h
    rw [plain_loop] at h
    cases hr : r.read with
    | none => rw [hr] at h; simp at h
    | some q =>
      obtain ⟨v, r1⟩ := q
      rw [hr] at h
      simp only at h
      split_ifs at h
      rw [ih _ _ _ _ h, List.length_set]

/-- C11 (counterexample): a type-10 record of 2 x 2 pixels with `data_size` 2
decompresses to a buffer of 4 elements, not 2. -/
theorem decompress_type10_short_data_size :
    example_plain_short_record.type = 10 ∧
    ∃ out, example_plain_short_record.decompress example_aux_palettes = some out ∧
      out = [1, 2, 0, 0] ∧ out.length ≠ example_plain_short_record.data_size :=
  ⟨rfl, [1, 2, 0, 0], by decide, rfl, by decide⟩

/-- C11 (amended): for every type-10 record with a non-empty payload, the
buffer `decompress` produces has exactly `width * height` elements, hence
exactly `data_size` elements when `data_size` is `width * height`; and
`decompress` does produce a buffer when `data_size` is at most
`width * height` and the payload holds its `(data_size + 1) / 2` bytes. -/
theorem decompress_type10_length (b : Bitmap) (g_aux_palettes : AuxPalettes)
    (h10 : b.type = 10) (hne : b.pixels ≠ []) :
    (∀ out, b.decompress g_aux_palettes = some out →
      out.length = b.width * b.height ∧
      (b.data_size = b.width * b.height → out.length = b.data_size)) ∧
    (b.data_size ≤ b.width * b.height → (b.data_size + 1) / 2 ≤ b.pixels.length →
      ∃ out, b.decompress g_aux_palettes = some out) := by
  have hc : b.is_compressed = true := by simp [Bitmap.is_compressed, h10]
  have he : b.pixels.isEmpty = false := by
    cases hp : b.pixels with
    | nil => exact absurd hp hne
    | cons _ _ => rfl
  have hdec : b.decompress g_aux_palettes =
      plain_loop b.data_size 0 (NibbleReader.mk_reader b.pixels b.data_size)
        (List.replicate (b.width * b.height) 0) := by
    unfold Bitmap.decompress
    simp [hc, he, h10]
  rw [hdec]
  refine ⟨fun out hout => ?_, fun hsz hpay => ?_⟩
  · have hl := plain_loop_length _ _ _ _ _ hout
    rw [List.length_replicate] at hl
    exact ⟨hl, fun h => by rw [hl, h]⟩
  · obtain ⟨out, hout, _⟩ := plain_loop_spec b.pixels b.data_size b.data_size 0
      (NibbleReader.mk_reader b.pixels b.data_size)
      (List.replicate (b.width * b.height) 0)
      (readerAt_mk_reader _ _) (by omega) (by omega) (by simpa using hsz)
    exact ⟨out, hout⟩

/-- C11 (amended), at the kind-10 record of 2 x 2 pixels with `data_size` 2:
a buffer is produced and it has `width * height` elements. -/
theorem decompress_type10_length_witness :
    ∃ out, example_plain_short_record.decompress example_aux_palettes = some out ∧
      out.length = example_plain_short_record.width * example_plain_short_record.height := by
  obtain ⟨hlen, hdef⟩ := decompress_type10_length example_plain_short_record
    example_aux_palettes (by decide) (by decide)
  obtain ⟨out, hout⟩ := hdef (by decide) (by decide)
  exact ⟨out, hout, (hlen out hout).1⟩

/-! ### The code evaluated at failing inputs -/

/-- C12 (the code at the failing input): for the stream 1, 2, 1, 2 (marker,
run count 2, keys 1 and 2) with `data_size` 4 the output is 10, 0 and not
10, 20: the last nibble of the stream is the low nibble of the last byte, which
the reader never delivers. -/
theorem decompress_run_record_even_stream :
    example_run_record.decompress example_aux_palettes = some [10, 0] ∧
    example_aux_palettes 0 1 = 10 ∧ example_aux_palettes 0 2 = 20 := by
  decide

/-- The example of C12 evaluated: the keys 1, 2, 3 over the entries 10, 20, 30
give 10, 20, 30 (the stream has 5 nibbles, an odd number). -/
theorem decompress_run_record_example :
    example_run_record_three.decompress example_aux_palettes = some [10, 20, 30] := by
  decide

/-- C13 (the code at the failing input): for the stream 2, 1, 3, 5 (count 2,
one repeat record, count 3 and key 5) with `data_size` 4 the output is 0, 0, 0
and not three times the entry 50 of key 5: the key is the low nibble of the
last byte, which the reader never delivers. -/
theorem decompress_multiplier_even_stream :
    example_multiplier_record.decompress example_aux_palettes = some [0, 0, 0] ∧
    example_aux_palettes 0 5 = 50 ∧ example_aux_palettes 0 0 = 0 := by
  decide

/-- C15 (the code at the failing input): importing the 3 x 2 bottom-up image
whose stored rows are 1, 2, 3 and 4, 5, 6 leaves row 0 of the record at 0, 0, 0
instead of 4, 5, 6: the row loop stops at `y == 0` before it copies that row. -/
theorem import_bottom_up_skips_top_row :
    (example_raw_record.import_from_bmp example_bmp_bottom_up Special.e_default).map
      (fun r => (r.1, r.2.pixels)) = some (true, [0, 0, 0, 1, 2, 3]) := by
  decide

/-- C17 (the code at the failing input): exporting the raw 3 x 2 record when
the uninitialised array `padding` holds 99 writes the rows 1, 2, 3, 99 and
4, 5, 6, 99: the padding byte of a row is whatever the array holds, not 0. -/
theorem export_padding_not_zero :
    (example_raw_record.export_to_bmp example_aux_palettes (fun _ => 99)).map
      (fun file => file.drop 1078) = some [1, 2, 3, 99, 4, 5, 6, 99] := by
  decide

/-- C19 (the code at the failing input): for the kind-10 record of four
nibbles the payload has (4 + 1) / 2 = 2 bytes, but after the six header bytes
the write loop hands `data_size` = 4 payload bytes to the stream and so reads
past the payload. -/
theorem save_gr_file_plain_record_payload :
    example_plain_record.get_size_in_bytes = 2 ∧
    example_plain_record.pixels.length = 2 ∧
    save_record_length false example_plain_record = 6 + 4 ∧
    save_record false example_plain_record = none ∧
    save_gr_file false [example_plain_record] = none := by
  decide

/-! ### The RLE8 decoder step by step -/

/-- After an iteration of the RLE8 loop the column is never `width` (for a
width other than 0): the wrap has been applied. -/
theorem rle_step_x_ne_width (data : Buffer) (width y_step : Int) (hw : width ≠ 0)
    (m m1 : RleMachine) (h : rle_step data width y_step m = some m1) : m1.x ≠ width := by
  unfold rle_step at h
  cases hs : rle_switch data width y_step m with
  | none => rw [hs] at h; simp at h
  | some m0 =>
    rw [hs] at h
    simp only [Option.some.injEq] at h
    rw [← h]
    split_ifs with hx
    · exact fun h0 => hw h0.symm
    · exact hx

/-- C14 (counterexample): in a bottom-up image of width 4 with the cursor at
(1, 1), the sequence 0, 2, 3, 0 leaves the cursor at (0, 0) and not at
(1 + 3, 1): the column has reached the width and the wrap that ends every
iteration applies. -/
theorem rle_delta_reaches_width :
    ((rle_step [0, 2, 3, 0] 4 (-1) example_rle_machine).bind
        (rle_step [0, 2, 3, 0] 4 (-1))).map (fun m => (m.x, m.y, m.pixels))
      = some (0, 0, example_rle_machine.pixels) ∧
    ((0 : Int), (0 : Int)) ≠
      (example_rle_machine.x + 3, example_rle_machine.y + (-1) * 0) := by
  decide

/-- C14 (amended): when the loop is about to read an opcode (the state is
`e_rle_repeat`, the column is not `width`) and the next bytes are 0, 2, dx, dy,
two iterations consume the four bytes, write no pixel and leave the loop about
to read the next opcode, with the cursor at (x + dx, y + y_step * dy) when
x + dx is not `width`, and at (0, y + y_step * dy + y_step) when it is;
`y_step` is 1 for a top-down image and -1 for a bottom-up one. -/
theorem rle_delta_escape (data : Buffer) (width y_step : Int) (m : RleMachine)
    (dx dy : Nat)
    (hstate : m.state = RleState.e_rle_repeat) (hx : m.x ≠ width)
    (h0 : data[m.src_offset]? = some 0) (h1 : data[m.src_offset + 1]? = some 2)
    (h2 : data[m.src_offset + 2]? = some dx) (h3 : data[m.src_offset + 3]? = some dy) :
    ∃ m2, (rle_step data width y_step m).bind (rle_step data width y_step) = some m2 ∧
      (∀ fuel, rle_run data width y_step (fuel + 2) m = rle_run data width y_step fuel m2) ∧
      m2.pixels = m.pixels ∧ m2.src_offset = m.src_offset + 4 ∧
      m2.state = RleState.e_rle_repeat ∧
      (m.x + (dx : Int) ≠ width → m2.x = m.x + (dx : Int) ∧ m2.y = m.y + y_step * (dy : Int)) ∧
      (m.x + (dx : Int) = width → m2.x = 0 ∧ m2.y = m.y + y_step * (dy : Int) + y_step) := by
  have hs1 : rle_step data width y_step m
      = some { m with count := 0, src_offset := m.src_offset + 1,
                      state := RleState.e_rle_escape } := by
    unfold rle_step rle_switch
    rw [hstate]
    simp only [h0, if_true, Nat.cast_zero]
    rw [if_neg hx]
  have hs2 : rle_step data width y_step
      { m with count := 0, src_offset := m.src_offset + 1, state := RleState.e_rle_escape }
      = some (if m.x + (dx : Int) = width then
          { m with count := 2, src_offset := m.src_offset + 1 + 3, x := 0,
                   y := m.y + y_step * (dy : Int) + y_step, state := RleState.e_rle_repeat }
        else
          { m with count := 2, src_offset := m.src_offset + 1 + 3, x := m.x + (dx : Int),
                   y := m.y + y_step * (dy : Int), state := RleState.e_rle_repeat }) := by
    unfold rle_step rle_switch
    have e2 : m.src_offset + 1 + 1 = m.src_offset + 2 := rfl
    have e3 : m.src_offset + 1 + 2 = m.src_offset + 3 := rfl
    simp only [h1, e2, e3, h2, h3]
    simp only [show (2 : Nat) ≠ 0 by decide, show (2 : Nat) ≠ 1 by decide, if_false, if_true,
      Nat.cast_ofNat]
  refine ⟨(if m.x + (dx : Int) = width then
        { m with count := 2, src_offset := m.src_offset + 1 + 3, x := 0,
                 y := m.y + y_step * (dy : Int) + y_step, state := RleState.e_rle_repeat }
      else
        { m with count := 2, src_offset := m.src_offset + 1 + 3, x := m.x + (dx : Int),
                 y := m.y + y_step * (dy : Int), state := RleState.e_rle_repeat }),
    by rw [hs1]; exact hs2, ?_, ?_, ?_, ?_, ?_, ?_⟩
  · intro fuel
    have hnf : ¬ (m.state = RleState.e_rle_finished) := by rw [hstate]; decide
    rw [rle_run, if_neg hnf, hs1]
    simp only
    rw [rle_run, if_neg (by simp), hs2]
  · split_ifs <;> rfl
  · split_ifs <;> rfl
  · split_ifs <;> rfl
  · intro h
    rw [if_neg h]
    exact ⟨rfl, rfl⟩
  · intro h
    rw [if_pos h]
    exact ⟨rfl, rfl⟩

/-- C14 (amended), at the cursor (1, 1) of a bottom-up image of width 4 and the
sequence 0, 2, 1, 1: the cursor moves to (2, 0). -/
theorem rle_delta_escape_witness :
    ∃ m2, (rle_step [0, 2, 1, 1] 4 (-1) example_rle_machine).bind
        (rle_step [0, 2, 1, 1] 4 (-1)) = some m2 ∧
      m2.pixels = example_rle_machine.pixels ∧ m2.x = 2 ∧ m2.y = 0 := by
  obtain ⟨m2, h, _, hp, _, _, hmove, _⟩ := rle_delta_escape [0, 2, 1, 1] 4 (-1)
    example_rle_machine 1 1 (by decide) (by decide) (by decide) (by decide) (by decide)
    (by decide)
  obtain ⟨hx2, hy2⟩ := hmove (by decide)
  refine ⟨m2, h, hp, ?_, ?_⟩
  · rw [hx2]; decide
  · rw [hy2]; decide

/-! ### The file written by `export_to_bmp` -/

/-- The file `export_to_bmp` writes is the two headers it builds, the palette
block and the pixel data, in this order. -/
theorem export_to_bmp_parts (b : Bitmap) (g_aux_palettes : AuxPalettes)
    (padding : Nat → Nat) (file : Buffer)
    (hexp : b.export_to_bmp g_aux_palettes padding = some file) :
    ∃ bmp_color_indices palette bmp_palette image,
      b.decompress g_aux_palettes = some bmp_color_indices ∧
      b.palette = some palette ∧
      bmp_palette_block palette 256 0 = some bmp_palette ∧
      (if (b.width + 3) / 4 * 4 - b.width = 0 then some bmp_color_indices
        else export_rows bmp_color_indices b.width ((b.width + 3) / 4 * 4 - b.width) padding
          b.height 0) = some image ∧
      file =
        ({ bfType := 0x4D42,
           bfSize := 14 + 40 + (4 * 256) +
             ((b.width + ((b.width + 3) / 4 * 4 - b.width)) * b.height),
           bfReserved1 := 0, bfReserved2 := 0,
           bfOffBits := 14 + 40 + (4 * 256) } : BmpHeader).save_to_stream ++
        ({ biSize := 40, biWidth := (b.width : Int), biHeight := -(b.height : Int),
           biPlanes := 1, biBitCount := 8, biCompression := 0,
           biSizeImage := (b.width + ((b.width + 3) / 4 * 4 - b.width)) * b.height,
           biXPelsPerMeter := 0, biYPelsPerMeter := 0, biClrUsed := 0,
           biClrImportant := 0 } : BmpInfoHeader).save_to_stream ++ bmp_palette ++ image := by
  unfold Bitmap.export_to_bmp at hexp
  cases hd : b.decompress g_aux_palettes with
  | none => rw [hd] at hexp; simp at hexp
  | some bmp_color_indices =>
    cases hp : b.palette with
    | none => rw [hd, hp] at hexp; simp at hexp
    | some palette =>
      cases hb : bmp_palette_block palette 256 0 with
      | none => rw [hd, hp] at hexp; simp only [hb] at hexp; simp at hexp
      | some bmp_palette =>
        rw [hd, hp] at hexp
        simp only [hb] at hexp
        cases hr : (if (b.width + 3) / 4 * 4 - b.width = 0 then some bmp_color_indices
            else export_rows bmp_color_indices b.width ((b.width + 3) / 4 * 4 - b.width)
              padding b.height 0) with
        | none => rw [hr] at hexp; simp at hexp
        | some image =>
          rw [hr] at hexp
          simp only [Option.some.injEq] at hexp
          exact ⟨bmp_color_indices, palette, bmp_palette, image, rfl, rfl, hb, hr, hexp.symm⟩

/-- C16: whatever the kind of the record, the file `export_to_bmp` writes
starts with a file header and an info header that declare: magic 0x4D42, data
offset 1078, info-header size 40, the width of the record, minus its height,
1 plane, 8 bits per pixel, compression 0, image size stride * height and file
size 1078 + stride * height, the stride being the width rounded up to a
multiple of 4; for a width and a height of at most 255 these are the values
read back from the file. -/
theorem export_to_bmp_headers (b : Bitmap) (g_aux_palettes : AuxPalettes)
    (padding : Nat → Nat) (file : Buffer)
    (hexp : b.export_to_bmp g_aux_palettes padding = some file) :
    ∃ header info rest,
      file = header.save_to_stream ++ (info.save_to_stream ++ rest) ∧
      header.bfType = 0x4D42 ∧ header.bfOffBits = 1078 ∧
      header.bfSize = 1078 + (b.width + 3) / 4 * 4 * b.height ∧
      header.bfReserved1 = 0 ∧ header.bfReserved2 = 0 ∧
      info.biSize = 40 ∧ info.biWidth = (b.width : Int) ∧ info.biHeight = -(b.height : Int) ∧
      info.biPlanes = 1 ∧ info.biBitCount = 8 ∧ info.biCompression = 0 ∧
      info.biSizeImage = (b.width + 3) / 4 * 4 * b.height ∧
      (b.width ≤ 255 → b.height ≤ 255 →
        BmpHeader.load_from_stream file = some (header, info.save_to_stream ++ rest) ∧
        BmpInfoHeader.load_from_stream (info.save_to_stream ++ rest) = some (info, rest)) := by
  obtain ⟨_, _, bmp_palette, image, _, _, _, _, hfile⟩ :=
    export_to_bmp_parts b g_aux_palettes padding file hexp
  have hstride : b.width + ((b.width + 3) / 4 * 4 - b.width) = (b.width + 3) / 4 * 4 := by
    omega
  rw [hstride] at hfile
  refine ⟨
      { bfType := 0x4D42,
        bfSize := 14 + 40 + (4 * 256) + ((b.width + 3) / 4 * 4 * b.height),
        bfReserved1 := 0, bfReserved2 := 0,
        bfOffBits := 14 + 40 + (4 * 256) },
      { biSize := 40, biWidth := (b.width : Int), biHeight := -(b.height : Int),
        biPlanes := 1, biBitCount := 8, biCompression := 0,
        biSizeImage := (b.width + 3) / 4 * 4 * b.height,
        biXPelsPerMeter := 0, biYPelsPerMeter := 0, biClrUsed := 0,
        biClrImportant := 0 },
      bmp_palette ++ image, ?_, rfl, rfl, ?_, rfl, rfl, rfl, rfl, rfl, rfl, rfl, rfl,
      rfl, ?_⟩
  · rw [hfile, List.append_assoc, List.append_assoc]
  · rfl
  · intro hw hh
    have hsprod : ((b.width + 3) / 4 * 4) * b.height ≤ 256 * 255 :=
      Nat.mul_le_mul (by omega) hh
    rw [hfile, List.append_assoc, List.append_assoc]
    constructor
    · apply bmp_header_load_save <;> simp only <;> omega
    · apply bmp_info_header_load_save <;> simp only <;> omega

theorem example_raw_record_exports :
    ∃ file, example_raw_record.export_to_bmp example_aux_palettes (fun _ => 0) = some file :=
  Option.isSome_iff_exists.mp (by decide)

/-- C16, at the raw 3 x 2 record: a file is written, and its headers are read
back with width 3, height -2 and image size 4 * 2. -/
theorem export_to_bmp_headers_witness :
    ∃ file header info s1 rest,
      example_raw_record.export_to_bmp example_aux_palettes (fun _ => 0) = some file ∧
      BmpHeader.load_from_stream file = some (header, s1) ∧
      BmpInfoHeader.load_from_stream s1 = some (info, rest) ∧
      header.bfType = 0x4D42 ∧ header.bfOffBits = 1078 ∧ header.bfSize = 1078 + 8 ∧
      info.biWidth = 3 ∧ info.biHeight = -2 ∧ info.biSizeImage = 8 := by
  obtain ⟨file, hfile⟩ := example_raw_record_exports
  obtain ⟨header, info, rest, _, h1, h2, h3, _, _, _, h4, h5, _, _, _, h6, hload⟩ :=
    export_to_bmp_headers example_raw_record example_aux_palettes (fun _ => 0) file hfile
  obtain ⟨hl1, hl2⟩ := hload (by decide) (by decide)
  exact ⟨file, header, info, _, rest, hfile, hl1, hl2, h1, h2, by rw [h3]; rfl, by rw [h4]; rfl,
    by rw [h5]; rfl, by rw [h6]; rfl⟩

/-! ### The palette block of the exported file -/

/-- The entries the palette loop writes: entry `k` of the block is the scaled
blue, green and red bytes of palette entry `i + k`, then 0. -/
theorem bmp_palette_block_entries (palette : Palette) :
    ∀ (n i : Nat) (block : Buffer), bmp_palette_block palette n i = some block →
      block.length = 4 * n ∧
      ∀ k, k < n →
        block.getD (4 * k) 0 = scale_channel (palette.getD (3 * (i + k) + 2) 0) ∧
        block.getD (4 * k + 1) 0 = scale_channel (palette.getD (3 * (i + k) + 1) 0) ∧
        block.getD (4 * k + 2) 0 = scale_channel (palette.getD (3 * (i + k)) 0) ∧
        block.getD (4 * k + 3) 0 = 0 := by
  intro n
  induction n with
  | zero =>
    intro i block h
    rw [bmp_palette_block] at h
    simp only [Option.some.injEq] at h
    subst h
    exact ⟨rfl, fun k hk => by omega⟩
  | succ n ih =>
    intro i block h
    rw [bmp_palette_block] at h
    cases he : bmp_palette_entry palette i with
    | none => rw [he] at h; simp at h
    | some e =>
      cases hr : bmp_palette_block palette n (i + 1) with
      | none => rw [he, hr] at h; simp at h
      | some rest =>
        rw [he, hr] at h
        simp only [Option.some.injEq] at h
        subst h
        obtain ⟨hlen, hent⟩ := ih (i + 1) rest hr
        unfold bmp_palette_entry at he
        cases hb : palette[3 * i + 2]? with
        | none => rw [hb] at he; simp at he
        | some vb =>
          cases hg : palette[3 * i + 1]? with
          | none => rw [hb, hg] at he; simp at he
          | some vg =>
            cases hrd : palette[3 * i + 0]? with
            | none => rw [hb, hg, hrd] at he; simp at he
            | some vr =>
              rw [hb, hg, hrd] at he
              simp only [Option.some.injEq] at he
              subst he
              have gb : palette.getD (3 * i + 2) 0 = vb := by
                rw [List.getD_eq_getElem?_getD, hb]; rfl
              have gg : palette.getD (3 * i + 1) 0 = vg := by
                rw [List.getD_eq_getElem?_getD, hg]; rfl
              have gr : palette.getD (3 * i) 0 = vr := by
                rw [List.getD_eq_getElem?_getD]
                rw [Nat.add_zero] at hrd
                rw [hrd]; rfl
              have hlen1 : ([scale_channel vb, scale_channel vg, scale_channel vr, 0]
                  ++ rest).length = 4 * (n + 1) := by
                simp only [List.length_append, List.length_cons, List.length_nil, hlen]
                omega
              refine ⟨hlen1, fun k hk => ?_⟩
              cases k with
              | zero =>
                simp only [Nat.mul_zero, Nat.add_zero, Nat.zero_add, List.cons_append,
                  List.nil_append, List.getD_cons_zero, List.getD_cons_succ, gb, gg, gr]
                exact ⟨trivial, trivial, trivial, trivial⟩
              | succ k =>
                obtain ⟨e0, e1, e2, e3⟩ := hent k (by omega)
                have a0 : 4 * (k + 1) = 4 * k + 1 + 1 + 1 + 1 := by omega
                have a1 : 4 * (k + 1) + 1 = 4 * k + 1 + 1 + 1 + 1 + 1 := by omega
                have a2 : 4 * (k + 1) + 2 = 4 * k + 2 + 1 + 1 + 1 + 1 := by omega
                have a3 : 4 * (k + 1) + 3 = 4 * k + 3 + 1 + 1 + 1 + 1 := by omega
                have ei : i + (k + 1) = i + 1 + k := by omega
                rw [a1, a2, a3, a0, ei]
                simp only [List.cons_append, List.nil_append, List.getD_cons_succ]
                exact ⟨e0, e1, e2, e3⟩

/-- A channel value of at most 63 is scaled to the integer part of
`v * 255 / 63`. -/
theorem scale_channel_of_le (v : Nat) (hv : v ≤ 63) : scale_channel v = v * 255 / 63 := by
  unfold scale_channel
  omega

/-- C18 (counterexample): with the value 11 in every channel the first palette
entry of the exported file is 44, 44, 44, 0, while `11 * 255 / 63` = 44.52...
rounds to 45 (45 is within a half of it and 44 is not). -/
theorem export_palette_not_rounded :
    (example_grey_record.export_to_bmp example_aux_palettes (fun _ => 0)).map
      (fun file => (file.drop 54).take 4) = some [44, 44, 44, 0] ∧
    2 * Int.natAbs (45 * 63 - 11 * 255) ≤ 63 ∧ ¬ (2 * Int.natAbs (44 * 63 - 11 * 255) ≤ 63) := by
  decide

/-- C18 (amended): for every `i` below 256 the bytes 4i to 4i+3 of the palette
block of the exported file (it starts at byte 54) are the scaled blue, green
and red bytes 3i+2, 3i+1 and 3i of the palette, then 0, a channel value `v` of
at most 63 being scaled to the integer part of `v * 255 / 63` (the fraction is
dropped, not rounded). -/
theorem export_palette_block (b : Bitmap) (g_aux_palettes : AuxPalettes)
    (padding : Nat → Nat) (file : Buffer) (palette : Palette)
    (hexp : b.export_to_bmp g_aux_palettes padding = some file)
    (hpal : b.palette = some palette) (i : Nat) (hi : i < 256)
    (hr : palette.getD (3 * i) 0 ≤ 63) (hg : palette.getD (3 * i + 1) 0 ≤ 63)
    (hb : palette.getD (3 * i + 2) 0 ≤ 63) :
    file.getD (54 + 4 * i) 0 = palette.getD (3 * i + 2) 0 * 255 / 63 ∧
    file.getD (54 + 4 * i + 1) 0 = palette.getD (3 * i + 1) 0 * 255 / 63 ∧
    file.getD (54 + 4 * i + 2) 0 = palette.getD (3 * i) 0 * 255 / 63 ∧
    file.getD (54 + 4 * i + 3) 0 = 0 := by
  obtain ⟨_, palette1, block, image, _, hp1, hblock, _, hfile⟩ :=
    export_to_bmp_parts b g_aux_palettes padding file hexp
  rw [hpal] at hp1
  simp only [Option.some.injEq] at hp1
  subst hp1
  obtain ⟨hlen, hent⟩ := bmp_palette_block_entries palette 256 0 block hblock
  obtain ⟨e0, e1, e2, e3⟩ := hent i hi
  rw [Nat.zero_add] at e0 e1 e2
  have hget : ∀ j, j < 4 * 256 → file.getD (54 + j) 0 = block.getD j 0 := by
    intro j hj
    rw [hfile, List.append_assoc, List.append_assoc]
    rw [List.getD_eq_getElem?_getD, List.getD_eq_getElem?_getD]
    rw [List.getElem?_append_right (by rw [bmp_header_stream_length]; omega)]
    rw [List.getElem?_append_right (by
      rw [bmp_header_stream_length, bmp_info_header_stream_length]; omega)]
    rw [bmp_header_stream_length, bmp_info_header_stream_length]
    rw [List.getElem?_append_left (by omega)]
    congr 2
    omega
  rw [Nat.add_assoc, Nat.add_assoc, Nat.add_assoc, hget _ (by omega), hget _ (by omega),
    hget _ (by omega), hget _ (by omega), e0, e1, e2, e3, scale_channel_of_le _ hr,
    scale_channel_of_le _ hg, scale_channel_of_le _ hb]
  exact ⟨rfl, rfl, rfl, rfl⟩

/-- C18 (amended), at the record whose palette has 11 in every channel and the
entry 0: a file is written and its palette starts with 11 * 255 / 63 = 44. -/
theorem export_palette_block_witness :
    ∃ file, example_grey_record.export_to_bmp example_aux_palettes (fun _ => 0) = some file ∧
      file.getD 54 0 = 44 ∧ file.getD 55 0 = 44 ∧ file.getD 56 0 = 44 ∧ file.getD 57 0 = 0 := by
  obtain ⟨file, hfile⟩ : ∃ file,
      example_grey_record.export_to_bmp example_aux_palettes (fun _ => 0) = some file :=
    Option.isSome_iff_exists.mp (by decide)
  obtain ⟨h0, h1, h2, h3⟩ := export_palette_block example_grey_record example_aux_palettes
    (fun _ => 0) file (List.replicate 768 11) hfile rfl 0 (by decide) (by decide) (by decide)
    (by decide)
  exact ⟨file, hfile, h0, h1, h2, h3⟩

/-! ### The layout of a record with a header -/

/-- What `load_payload` returns for a record with a per-record header: the
record given, with `data_size` read from the two bytes at `p`, the payload
copied from the bytes after them, and the palette bound. -/
theorem load_payload_default_result (b : Bitmap) (data : Buffer) (p : Nat)
    (palette : Palette) (r : Bool × Bitmap)
    (h : b.load_payload data p Special.e_default palette = some r) :
    r.1 = true ∧
    r.2 = { b with
      data_size := data.getD p 0 + 256 * data.getD (p + 1) 0,
      pixels := (data.drop (p + 2)).take
        (if b.is_compressed then (data.getD p 0 + 256 * data.getD (p + 1) 0 + 1) / 2
          else data.getD p 0 + 256 * data.getD (p + 1) 0),
      palette := some palette } ∧
    p + 2 + (if b.is_compressed then (data.getD p 0 + 256 * data.getD (p + 1) 0 + 1) / 2
      else data.getD p 0 + 256 * data.getD (p + 1) 0) ≤ data.length := by
  unfold Bitmap.load_payload at h
  rw [if_pos (Or.inr rfl)] at h
  cases h0 : data[p]? with
  | none => rw [h0] at h; simp at h
  | some lo =>
    cases h1 : data[p + 1]? with
    | none => rw [h0, h1] at h; simp at h
    | some hi =>
      have g0 : data.getD p 0 = lo := by rw [List.getD_eq_getElem?_getD, h0]; rfl
      have g1 : data.getD (p + 1) 0 = hi := by rw [List.getD_eq_getElem?_getD, h1]; rfl
      rw [h0, h1] at h
      simp only at h
      have hsz : ({ b with data_size := lo + 256 * hi } : Bitmap).get_size_in_bytes
          = (if b.is_compressed then (lo + 256 * hi + 1) / 2 else lo + 256 * hi) := by
        simp [Bitmap.get_size_in_bytes, Bitmap.is_compressed]
      rw [hsz] at h
      rw [g0, g1]
      by_cases hc : b.is_compressed = true
      · rw [if_pos hc] at h ⊢
        split_ifs at h with hfit
        simp only [Option.some.injEq] at h
        rw [← h]
        exact ⟨rfl, rfl, hfit⟩
      · rw [if_neg hc] at h ⊢
        split_ifs at h with hfit
        simp only [Option.some.injEq] at h
        rw [← h]
        exact ⟨rfl, rfl, hfit⟩

/-- C20: for every record with a per-record header that `load_from_gr`
accepts, the kind, the width and the height are the bytes 0, 1 and 2 of the
record; for kind 4 there is no auxiliary palette, `data_size` is the
little-endian word at bytes 3 and 4 and the payload is a copy of exactly the
next `data_size` bytes; for the other kinds (8 and 10) the auxiliary-palette
index is byte 3, `data_size` is the little-endian word at bytes 4 and 5 and the
payload is a copy of exactly the next `(data_size + 1) / 2` bytes. -/
theorem load_from_gr_layout (b : Bitmap) (data : Buffer) (offset : Nat)
    (palette : Palette) (b1 : Bitmap)
    (h : b.load_from_gr data offset Special.e_default palette = some (true, b1)) :
    b1.type = data.getD offset 0 ∧ b1.width = data.getD (offset + 1) 0 ∧
    b1.height = data.getD (offset + 2) 0 ∧
    (b1.type = 4 ∨ b1.type = 8 ∨ b1.type = 10) ∧
    (b1.type = 4 →
      b1.aux_palette = none ∧
      b1.data_size = data.getD (offset + 3) 0 + 256 * data.getD (offset + 4) 0 ∧
      b1.pixels = (data.drop (offset + 5)).take b1.data_size ∧
      b1.pixels.length = b1.data_size) ∧
    (b1.type ≠ 4 →
      b1.aux_palette.map Fin.val = some (data.getD (offset + 3) 0) ∧
      b1.data_size = data.getD (offset + 4) 0 + 256 * data.getD (offset + 5) 0 ∧
      b1.pixels = (data.drop (offset + 6)).take ((b1.data_size + 1) / 2) ∧
      b1.pixels.length = (b1.data_size + 1) / 2) := by
  unfold Bitmap.load_from_gr Bitmap.load_header at h
  rw [if_pos rfl] at h
  cases h0 : data[offset]? with
  | none => rw [h0] at h; cases data[offset + 1]? <;> cases data[offset + 2]? <;> simp at h
  | some t =>
    cases h1 : data[offset + 1]? with
    | none => rw [h0, h1] at h; cases data[offset + 2]? <;> simp at h
    | some w =>
      cases h2 : data[offset + 2]? with
      | none => rw [h0, h1, h2] at h; simp at h
      | some ht =>
        have g0 : data.getD offset 0 = t := by rw [List.getD_eq_getElem?_getD, h0]; rfl
        have g1 : data.getD (offset + 1) 0 = w := by rw [List.getD_eq_getElem?_getD, h1]; rfl
        have g2 : data.getD (offset + 2) 0 = ht := by rw [List.getD_eq_getElem?_getD, h2]; rfl
        rw [h0, h1, h2] at h
        simp only at h
        rw [g0, g1, g2]
        by_cases hk : ¬ (t = 4 ∨ t = 8 ∨ t = 10)
        · rw [if_pos hk] at h; simp at h
        · rw [if_neg hk] at h
          rw [not_not] at hk
          by_cases hc : t = 4
          · have hnc : ¬ (({ b with type := t, width := w, height := ht } :
                Bitmap).is_compressed = true) := by
              simp [Bitmap.is_compressed, hc]
            rw [if_neg hnc] at h
            obtain ⟨_, hr, hfit⟩ := load_payload_default_result _ _ _ _ _ h
            simp only [Bitmap.is_compressed, hc, bne_self_eq_false, Bool.false_eq_true,
              if_false] at hr hfit
            have e4 : offset + 3 + 1 = offset + 4 := rfl
            have e5 : offset + 3 + 2 = offset + 5 := rfl
            rw [e4, e5] at hr
            rw [e4] at hfit
            rw [hr]
            simp only
            refine ⟨hc.symm, trivial, trivial, Or.inl trivial, fun _ => ⟨trivial, trivial, trivial, ?_⟩,
              fun hn => absurd rfl hn⟩
            rw [List.length_take, List.length_drop]
            omega
          · have hcc : ({ b with type := t, width := w, height := ht } :
                Bitmap).is_compressed = true := by
              simp [Bitmap.is_compressed, hc]
            rw [if_pos hcc] at h
            cases h3 : data[offset + 3]? with
            | none => rw [h3] at h; simp at h
            | some a =>
              have g3 : data.getD (offset + 3) 0 = a := by
                rw [List.getD_eq_getElem?_getD, h3]; rfl
              rw [h3] at h
              simp only at h
              by_cases h31 : a > 31
              · rw [dif_pos h31] at h; simp at h
              · rw [dif_neg h31] at h
                obtain ⟨_, hr, hfit⟩ := load_payload_default_result _ _ _ _ _ h
                have hcm : ¬ (t = 4) := hc
                simp only [Bitmap.is_compressed, bne_iff_ne, ne_eq, hcm, not_false_eq_true,
                  decide_True, if_true] at hr hfit
                have e4 : offset + 3 + 1 = offset + 4 := rfl
                have e5 : offset + 3 + 1 + 1 = offset + 5 := rfl
                have e6 : offset + 3 + 1 + 2 = offset + 6 := rfl
                rw [e4, e5, e6] at hr
                rw [e4, e5] at hfit
                rw [hr, g3]
                simp only
                refine ⟨trivial, trivial, trivial, hk, fun h4 => absurd h4 hc,
                  fun _ => ⟨rfl, trivial, trivial, ?_⟩⟩
                rw [List.length_take, List.length_drop]
                omega

/-- C20, at the kind-8 record of the bytes 8, 2, 2, 31, 4, 0, 0x12, 0x34 that
starts at offset 2 of its buffer. -/
theorem load_from_gr_layout_witness :
    ∃ b1, Bitmap.new.load_from_gr example_record_aux31 2 Special.e_default example_palette
        = some (true, b1) ∧
      b1.type = 8 ∧ b1.width = 2 ∧ b1.height = 2 ∧ b1.data_size = 4 ∧
      b1.aux_palette.map Fin.val = some 31 ∧ b1.pixels = [0x12, 0x34] := by
  obtain ⟨b1, hb1⟩ : ∃ b1, Bitmap.new.load_from_gr example_record_aux31 2 Special.e_default
      example_palette = some (true, b1) :=
    ⟨{ type := 8, width := 2, height := 2, data_size := 4, special := Special.e_none,
       pixels := [0x12, 0x34], palette := some example_palette, aux_palette := some 31 },
      by decide⟩
  obtain ⟨h1, h2, h3, _, _, h6⟩ := load_from_gr_layout Bitmap.new example_record_aux31 2
    example_palette b1 hb1
  have hne : b1.type ≠ 4 := by rw [h1]; decide
  obtain ⟨h7, h8, h9, _⟩ := h6 hne
  have hds : b1.data_size = 4 := by rw [h8]; decide
  refine ⟨b1, hb1, by rw [h1]; decide, by rw [h2]; decide, by rw [h3]; decide, hds,
    by rw [h7]; decide, ?_⟩
  rw [h9, hds]
  decide

/-! ### Panel archives -/

/-- With a panel classification `load_from_gr` reads no header: the record is
of kind 4 with the dimensions the classification implies, and its payload is
the `width * height` bytes at the offset itself. -/
theorem load_from_gr_panel (b : Bitmap) (data : Buffer) (offset : Nat) (special : Special)
    (palette : Palette) (h1 : special ≠ Special.e_default) (h2 : special ≠ Special.e_none) :
    b.load_from_gr data offset special palette =
      if offset + (if special = Special.e_last_panel then 3 else 79) * 112 ≤ data.length then
        some (true,
          { b with type := 4,
                   width := if special = Special.e_last_panel then 3 else 79,
                   height := 112,
                   data_size := (if special = Special.e_last_panel then 3 else 79) * 112,
                   aux_palette := none,
                   pixels := (data.drop offset).take
                     ((if special = Special.e_last_panel then 3 else 79) * 112),
                   palette := some palette })
      else none := by
  unfold Bitmap.load_from_gr Bitmap.load_header Bitmap.load_payload
  by_cases hl : special = Special.e_last_panel
  · subst hl
    simp [k_panel_border_width, k_panel_border_height, Bitmap.is_compressed,
      Bitmap.get_size_in_bytes]
  · simp [h1, h2, hl, k_panel_width, k_panel_height, Bitmap.is_compressed,
      Bitmap.get_size_in_bytes]

/-- The record loop of `load_gr_file` over a panel archive never returns
`false`, and every record whose two offsets differ is loaded as a panel of 79
columns, or of 3 columns at the last index, from the bytes at its offset. -/
theorem load_records_panel (p : Nat) (pals : List Palette) (buffer : Buffer)
    (offsets : List Nat) (count : Nat) :
    ∀ (bs : List Bitmap) (i : Nat) (ok : Bool) (out : List Bitmap),
      load_records true p pals buffer offsets count i bs = some (ok, out) →
      ok = true ∧ out.length = bs.length ∧
      ∀ j o0 o1, j < bs.length → offsets[i + j]? = some o0 →
        offsets[i + j + 1]? = some o1 → o1 ≠ o0 →
        ∃ b, out[j]? = some b ∧ b.type = 4 ∧
          b.width = (if i + j = count - 1 then 3 else 79) ∧ b.height = 112 ∧
          b.data_size = b.width * 112 ∧
          b.pixels = (buffer.drop o0).take (b.width * 112) ∧
          b.pixels.length = b.width * 112 ∧ b.aux_palette = none := by
  intro bs
  induction bs with
  | nil =>
    intro i ok out h
    rw [load_records] at h
    simp only [Option.some.injEq, Prod.mk.injEq] at h
    refine ⟨h.1.symm, by rw [← h.2], ?_⟩
    intro j o0 o1 hj
    simp at hj
  | cons bitmap rest ih =>
    intro i ok out h
    rw [load_records] at h
    cases e0 : offsets[i]? with
    | none => rw [e0] at h; simp at h
    | some a =>
      cases e1 : offsets[i + 1]? with
      | none => rw [e0, e1] at h; simp at h
      | some a1 =>
        rw [e0, e1] at h
        simp only at h
        by_cases heq : a1 = a
        · rw [if_pos heq] at h
          cases er : load_records true p pals buffer offsets count (i + 1) rest with
          | none => rw [er] at h; simp at h
          | some r =>
            obtain ⟨ok1, out1⟩ := r
            rw [er] at h
            simp only [Option.some.injEq, Prod.mk.injEq] at h
            obtain ⟨hok, hout⟩ := h
            obtain ⟨i1, i2, i3⟩ := ih (i + 1) ok1 out1 er
            refine ⟨by rw [← hok]; exact i1, by rw [← hout]; simp [i2], ?_⟩
            intro j o0 o1 hj hj0 hj1 hne
            cases j with
            | zero =>
              rw [Nat.add_zero] at hj0 hj1
              rw [e0] at hj0
              rw [e1] at hj1
              simp only [Option.some.injEq] at hj0 hj1
              omega
            | succ j =>
              have hj' : j < rest.length := by simpa using hj
              obtain ⟨b, hb, hrest⟩ := i3 j o0 o1 hj'
                (by rw [show i + 1 + j = i + (j + 1) by omega]; exact hj0)
                (by rw [show i + 1 + j + 1 = i + (j + 1) + 1 by omega]; exact hj1) hne
              refine ⟨b, by rw [← hout]; simpa using hb, ?_⟩
              rw [show i + (j + 1) = i + 1 + j by omega]
              exact hrest
        · rw [if_neg heq] at h
          cases ep : pals[p]? with
          | none => rw [ep] at h; simp at h
          | some palette =>
            rw [ep] at h
            simp only [if_true] at h
            have hsp1 : (if i = count - 1 then Special.e_last_panel else Special.e_panel)
                ≠ Special.e_default := by split <;> simp
            have hsp2 : (if i = count - 1 then Special.e_last_panel else Special.e_panel)
                ≠ Special.e_none := by split <;> simp
            have hsp3 : ((if i = count - 1 then Special.e_last_panel else Special.e_panel)
                = Special.e_last_panel) ↔ i = count - 1 := by
              split <;> simp [*]
            rw [load_from_gr_panel bitmap buffer a _ palette hsp1 hsp2] at h
            simp only [hsp3] at h
            by_cases hfit : a + (if i = count - 1 then 3 else 79) * 112 ≤ buffer.length
            · rw [if_pos hfit] at h
              simp only [ne_eq, not_true_eq_false, false_and, if_false] at h
              cases er : load_records true p pals buffer offsets count (i + 1) rest with
              | none => rw [er] at h; simp at h
              | some r =>
                obtain ⟨ok1, out1⟩ := r
                rw [er] at h
                simp only [Option.some.injEq, Prod.mk.injEq] at h
                obtain ⟨hok, hout⟩ := h
                obtain ⟨i1, i2, i3⟩ := ih (i + 1) ok1 out1 er
                refine ⟨by rw [← hok]; exact i1, by rw [← hout]; simp [i2], ?_⟩
                intro j o0 o1 hj hj0 hj1 hne
                cases j with
                | zero =>
                  rw [Nat.add_zero] at hj0 hj1
                  rw [e0] at hj0
                  rw [e1] at hj1
                  simp only [Option.some.injEq] at hj0 hj1
                  subst hj0
                  subst hout
                  refine ⟨_, List.getElem?_cons_zero, rfl, rfl, rfl, rfl, rfl, ?_, rfl⟩
                  simp only [Nat.add_zero, List.length_take, List.length_drop]
                  omega
                | succ j =>
                  have hj' : j < rest.length := by simpa using hj
                  obtain ⟨b, hb, hrest⟩ := i3 j o0 o1 hj'
                    (by rw [show i + 1 + j = i + (j + 1) by omega]; exact hj0)
                    (by rw [show i + 1 + j + 1 = i + (j + 1) + 1 by omega]; exact hj1) hne
                  refine ⟨b, by rw [← hout]; simpa using hb, ?_⟩
                  rw [show i + (j + 1) = i + 1 + j by omega]
                  exact hrest
            · rw [if_neg hfit] at h
              simp at h

/-- C21: whenever `load_gr_file` accepts a panel archive, every record whose
two offsets differ has been loaded without a header: it is of kind 4 and 112
rows, of 3 columns at the last index and of 79 columns elsewhere, its payload
is the `width * 112` bytes (336 or 8848) that start at its offset, and it has
no auxiliary palette. -/
theorem load_gr_file_panel (p : Nat) (pals : List Palette) (g_bitmaps : List Bitmap)
    (buffer : Buffer) (bitmaps : List Bitmap)
    (h : load_gr_file true p pals g_bitmaps buffer = some (true, bitmaps)) :
    ∃ offsets, read_offsets buffer (bitmaps.length + 1) 0 = some offsets ∧
      bitmaps.length = buffer.getD 1 0 + 256 * buffer.getD 2 0 ∧
      ∀ i o0 o1, i < bitmaps.length → offsets[i]? = some o0 → offsets[i + 1]? = some o1 →
        o1 ≠ o0 →
        ∃ b, bitmaps[i]? = some b ∧ b.type = 4 ∧
          b.width = (if i = bitmaps.length - 1 then 3 else 79) ∧ b.height = 112 ∧
          b.data_size = b.width * 112 ∧
          b.pixels = (buffer.drop o0).take (b.width * 112) ∧
          b.pixels.length = b.width * 112 ∧ b.aux_palette = none := by
  rcases load_gr_file_run true pals g_bitmaps buffer with hn | hf | ⟨offsets, hoffs, hrun⟩
  · rw [hn] at h; simp at h
  · rw [hf] at h; simp at h
  · rw [hrun] at h
    obtain ⟨_, hlen, hrec⟩ := load_records_panel p pals buffer offsets _ _ 0 true bitmaps h
    rw [resize_bitmaps_length] at hlen
    refine ⟨offsets, by rw [hlen]; exact hoffs, hlen, ?_⟩
    intro i o0 o1 hi hi0 hi1 hne
    have := hrec i o0 o1 (by rw [resize_bitmaps_length]; omega)
      (by rw [Nat.zero_add]; exact hi0) (by rw [Nat.zero_add]; exact hi1) hne
    rw [Nat.zero_add, ← hlen] at this
    exact this

/-- A panel archive of two records, of 8848 bytes and of 336 bytes, is
accepted, and its records are those bytes. -/
theorem panel_archive_loads (first second : Buffer) (h1 : first.length = 8848)
    (h2 : second.length = 336) :
    load_gr_file true 0 example_palettes []
        ([1, 2, 0, 15, 0, 0, 0, 159, 34, 0, 0, 239, 35, 0, 0] ++ (first ++ second)) =
      some (true,
        [{ type := 4, width := 79, height := 112, data_size := 8848,
           special := Special.e_none, pixels := first, palette := some example_palette,
           aux_palette := none },
         { type := 4, width := 3, height := 112, data_size := 336,
           special := Special.e_none, pixels := second, palette := some example_palette,
           aux_palette := none }]) := by
  obtain ⟨buf, hbuf⟩ : ∃ buf : Buffer,
      buf = [1, 2, 0, 15, 0, 0, 0, 159, 34, 0, 0, 239, 35, 0, 0] ++ (first ++ second) :=
    ⟨_, rfl⟩
  have hd1 : List.drop 15 buf = first ++ second := by rw [hbuf]; rfl
  have hd2 : List.drop 8863 buf = second := by
    rw [show 8863 = 15 + 8848 from rfl, ← List.drop_drop, hd1, ← h1, List.drop_left]
  have ht1 : List.take 8848 (first ++ second) = first := by rw [← h1, List.take_left]
  have ht2 : List.take 336 second = second := by rw [← h2, List.take_length]
  have hlen : buf.length = 9199 := by rw [hbuf]; simp [h1, h2]
  have hoff : read_offsets buf 3 0 = some [15, 8863, 9199] := by
    rw [hbuf]; simp [read_offsets, read_u32]
  have hb0 : buf[0]? = some 1 := by rw [hbuf]; rfl
  have hb1 : buf[1]? = some 2 := by rw [hbuf]; rfl
  have hb2 : buf[2]? = some 0 := by rw [hbuf]; rfl
  have hp : example_palettes[0]? = some example_palette := rfl
  rw [← hbuf]
  unfold load_gr_file
  rw [hlen, hb0, hb1, hb2]
  simp only [k_max_file_size]
  norm_num
  rw [hoff]
  simp only [resize_bitmaps, List.take_nil, List.length_nil, Nat.sub_zero, List.nil_append]
  rw [show List.replicate 2 Bitmap.new = [Bitmap.new, Bitmap.new] from rfl]
  rw [load_records, load_records, load_records]
  simp only [List.getElem?_cons_zero, List.getElem?_cons_succ, Nat.zero_add, hp]
  rw [load_from_gr_panel _ _ _ _ _ (by decide) (by decide),
    load_from_gr_panel _ _ _ _ _ (by decide) (by decide)]
  simp [hlen, hd1, hd2, ht1, ht2, Bitmap.new]

/-- C21, at the panel archive of two records: it is accepted, the first record
is loaded as 79 x 112 from the 8848 bytes at offset 15 and the second as
3 x 112 from the 336 bytes at offset 8863. -/
theorem load_gr_file_panel_witness :
    load_gr_file true 0 example_palettes [] example_panel_archive =
      some (true, [example_panel_record, example_border_record]) ∧
    ∃ offsets, read_offsets example_panel_archive (2 + 1) 0 = some offsets ∧
      2 = example_panel_archive.getD 1 0 + 256 * example_panel_archive.getD 2 0 ∧
      ∀ i o0 o1, i < 2 → offsets[i]? = some o0 → offsets[i + 1]? = some o1 →
        o1 ≠ o0 →
        ∃ b, [example_panel_record, example_border_record][i]? = some b ∧ b.type = 4 ∧
          b.width = (if i = 2 - 1 then 3 else 79) ∧ b.height = 112 ∧
          b.data_size = b.width * 112 ∧
          b.pixels = (example_panel_archive.drop o0).take (b.width * 112) ∧
          b.pixels.length = b.width * 112 ∧ b.aux_palette = none :=
  ⟨panel_archive_loads (List.replicate 8848 7) (List.replicate 336 9)
     (List.length_replicate _ _) (List.length_replicate _ _),
   load_gr_file_panel 0 example_palettes [] example_panel_archive
     [example_panel_record, example_border_record]
     (panel_archive_loads (List.replicate 8848 7) (List.replicate 336 9)
       (List.length_replicate _ _) (List.length_replicate _ _))⟩

/-! ### The record after an import -/

/-- C23 (the code at the failing inputs): on an archive cut after the record
count, on one cut inside a record header and on one cut inside a payload,
`load_gr_file` does not return `false`: it reads a byte outside the buffer (the
result `none` of the model; the palette index 0 is that of an existing
palette, so no other access is out of range). -/
theorem load_gr_file_truncated_reads_outside :
    load_gr_file false 0 example_palettes [] example_truncated_table = none ∧
    load_gr_file false 0 example_palettes [] example_truncated_header = none ∧
    load_gr_file false 0 example_palettes [] example_truncated_payload = none ∧
    example_truncated_table.length < 3 + 4 * (1 + 1) ∧
    example_truncated_table[3]? = none ∧
    example_truncated_header[14]? = none ∧
    example_truncated_payload.length < 11 + 5 + 4 := by
  decide

/-! ### The count field of the type-8 stream -/

/-- C24 (the claim fails): a count field that starts with two zero nibbles and
a non-zero third nibble is complete after that third nibble and is the count
it holds: after 0, 0, 5 the decoder is in stage 6 with the count 5, and the
four nibbles 5, 7, 1, 2 are not assembled into a count. In the record of the
stream 0, 0, 5, 7, 1, 2, 3 the nibble 7 is the key of a repeat record of 5
pixels and the nibbles 1, 2 are a run record of one pixel. -/
theorem count_field_two_zero_nibbles :
    decode_stages (0, 0) [0, 0, 5] = (6, 5) ∧
    decode_stages (0, 0) [0, 0, 5, 7, 1, 2] ≠ (6, 5 * 4096 + 7 * 256 + 1 * 16 + 2) ∧
    example_two_zero_record.decompress example_aux_palettes =
      some [70, 70, 70, 70, 70, 20, 0, 0] := by
  decide

/-- C24 (amended): from stage 0, whatever `count` holds, a non-zero nibble `n`
is a complete count field and the count is `n`; the nibbles 0, a, b with a and
b not both zero are a complete field of three nibbles, the count is `16 a + b`,
and the field is not complete before its third nibble; the nibbles
0, 0, 0, c, d, e are a complete field of six nibbles, the count is
`256 c + 16 d + e`, and the field is not complete before its sixth nibble. -/
theorem count_field_decoding (count : Int) (n a b c d e : Nat) :
    (n ≠ 0 → decode_stages (0, count) [n] = (6, (n : Int))) ∧
    (¬ (a = 0 ∧ b = 0) →
      decode_stages (0, count) [0, a, b] = (6, ((16 * a + b : Nat) : Int)) ∧
      ∀ k, k < 3 → (decode_stages (0, count) ([0, a, b].take k)).1 < 6) ∧
    (decode_stages (0, count) [0, 0, 0, c, d, e] = (6, ((256 * c + 16 * d + e : Nat) : Int)) ∧
      ∀ k, k < 6 → (decode_stages (0, count) ([0, 0, 0, c, d, e].take k)).1 < 6) := by
  refine ⟨fun h0 => ?_, fun hab => ⟨?_, fun k hk => ?_⟩, ?_, fun k hk => ?_⟩
  · simp [decode_stages, decode_stage, h0]
  · have hne : ¬ ((a : Int) * 16 + (b : Int) = 0) := by omega
    simp only [decode_stages, decode_stage]
    simp [hne]
    omega
  · interval_cases k <;> simp [decode_stages, decode_stage]
  · simp only [decode_stages, decode_stage]
    simp
    omega
  · interval_cases k <;> simp [decode_stages, decode_stage]

/-- C24 (amended), at the fields 5, then 0, 0, 5, then 0, 0, 0, 1, 2, 3: the
counts are 5, 5 and 291. -/
theorem count_field_decoding_witness :
    decode_stages (0, 0) [5] = (6, 5) ∧ decode_stages (0, 0) [0, 0, 5] = (6, 5) ∧
    decode_stages (0, 0) [0, 0, 0, 1, 2, 3] = (6, 291) := by
  obtain ⟨h1, h2, h3, _⟩ := count_field_decoding 0 5 0 5 1 2 3
  exact ⟨h1 (by decide), (h2 (by decide)).1, h3⟩

/-! ### The repeat record at the end of the stream -/

/-- C25 (the code at the failing input): for the stream 3, 5 with `data_size`
2 the three pixels emitted are the entry of the key 0, not that of the key 5:
the reader is built over the one payload byte, and its second call returns 0.
With a third nibble in the stream (`data_size` 3) the three pixels are the
entry of the key 5. -/
theorem decompress_repeat_record_two_nibbles :
    example_repeat_record.decompress example_aux_palettes_odd = some [1, 1, 1, 0] ∧
    example_aux_palettes_odd 0 5 = 51 ∧
    example_repeat_record_three.decompress example_aux_palettes_odd = some [51, 51, 51, 0] := by
  decide

/-! ### The two budgets of the type-8 loop -/

/-- The final state of `decompress_loop_left` is that of `decompress_loop`. -/
theorem decompress_loop_left_state (aux : Option AuxPalette) (area : Nat) :
    ∀ (data_length : Nat) (s : DecompressState),
      (decompress_loop_left aux area data_length s).map Prod.snd
        = decompress_loop aux area data_length s := by
  intro n
  induction n with
  | zero => intro s; rfl
  | succ n ih =>
    intro s
    rw [decompress_loop_left, decompress_loop]
    by_cases hpc : s.pixel_count < area
    · rw [if_pos hpc, if_pos hpc]
      cases decompress_step aux area s with
      | none => rfl
      | some s1 => exact ih s1
    · rw [if_neg hpc, if_neg hpc]
      rfl

theorem repeat_write_bound (aux : Option AuxPalette) (nibble area : Nat) :
    ∀ (n : Nat) (buffer : Buffer) (off pc : Nat) (r : Buffer × Nat × Nat),
      repeat_write aux nibble area n buffer off pc = some r → pc < area → r.2.2 ≤ area := by
  intro n
  induction n with
  | zero =>
    intro buffer off pc r h hpc
    rw [repeat_write] at h
    simp only [Option.some.injEq] at h
    rw [← h]
    exact Nat.le_of_lt hpc
  | succ n ih =>
    intro buffer off pc r h hpc
    rw [repeat_write] at h
    cases hc : aux_lookup aux nibble with
    | none => rw [hc] at h; simp at h
    | some color =>
      rw [hc] at h
      simp only at h
      split_ifs at h with h1 h2
      · simp only [Option.some.injEq] at h
        rw [← h]
        exact hpc
      · exact ih _ _ _ r h (by omega)

theorem decode_record_bound (aux : Option AuxPalette) (area nibble : Nat)
    (s s1 : DecompressState) (h : decode_record aux area nibble s = some s1)
    (hpc : s.pixel_count < area) : s1.pixel_count ≤ area := by
  have hle : s.pixel_count ≤ area := Nat.le_of_lt hpc
  unfold decode_record at h
  by_cases h0 : s.record = 0
  · rw [if_pos h0] at h
    split_ifs at h <;> simp only [Option.some.injEq] at h <;> rw [← h] <;> exact hle
  · rw [if_neg h0] at h
    by_cases h1 : s.record = 1
    · rw [if_pos h1] at h
      cases hw : repeat_write aux nibble area s.count.toNat s.buffer s.buffer_offset
          s.pixel_count with
      | none => rw [hw] at h; simp at h
      | some r =>
        obtain ⟨buffer, off, pc⟩ := r
        have hl := repeat_write_bound aux nibble area _ _ _ _ _ hw hpc
        rw [hw] at h
        simp only at h hl
        split_ifs at h <;> simp only [Option.some.injEq] at h <;> rw [← h] <;> exact hl
    · rw [if_neg h1] at h
      by_cases h2 : s.record = 2
      · rw [if_pos h2] at h
        simp only [Option.some.injEq] at h
        rw [← h]
        exact hle
      · rw [if_neg h2] at h
        by_cases h3 : s.record = 3
        · rw [if_pos h3] at h
          simp only [Option.some.injEq] at h
          rw [← h]
          exact hle
        · rw [if_neg h3] at h
          by_cases h4 : s.record = 4
          · rw [if_pos h4] at h
            cases hc : aux_lookup aux nibble with
            | none => rw [hc] at h; simp at h
            | some color =>
              rw [hc] at h
              simp only at h
              split_ifs at h <;> simp only [Option.some.injEq] at h <;> rw [← h] <;>
                exact hpc
          · rw [if_neg h4] at h
            simp only [Option.some.injEq] at h
            rw [← h]
            exact hle

theorem decompress_step_bound (aux : Option AuxPalette) (area : Nat)
    (s s1 : DecompressState) (h : decompress_step aux area s = some s1)
    (hpc : s.pixel_count < area) : s1.pixel_count ≤ area := by
  unfold decompress_step at h
  cases hr : s.reader.read with
  | none => rw [hr] at h; simp at h
  | some q =>
    obtain ⟨nibble, reader⟩ := q
    rw [hr] at h
    simp only at h
    split_ifs at h
    · simp only [Option.some.injEq] at h
      rw [← h]
      exact Nat.le_of_lt hpc
    · exact decode_record_bound aux area nibble
        { s with reader := reader, stage := (decode_stage s.stage s.count nibble).1,
                 count := (decode_stage s.stage s.count nibble).2 } s1 h hpc

/-- When the type-8 loop ends, `data_length` has not grown, no more than
`area` pixels are counted, and one of the two budgets is used up. -/
theorem decompress_loop_left_bound (aux : Option AuxPalette) (area : Nat) :
    ∀ (data_length : Nat) (s : DecompressState) (left : Nat) (s1 : DecompressState),
      decompress_loop_left aux area data_length s = some (left, s1) →
      s.pixel_count ≤ area →
      left ≤ data_length ∧ s1.pixel_count ≤ area ∧ (left = 0 ∨ s1.pixel_count = area) := by
  intro n
  induction n with
  | zero =>
    intro s left s1 h hle
    rw [decompress_loop_left] at h
    simp only [Option.some.injEq, Prod.mk.injEq] at h
    rw [← h.1, ← h.2]
    exact ⟨Nat.le_refl _, hle, Or.inl rfl⟩
  | succ n ih =>
    intro s left s1 h hle
    rw [decompress_loop_left] at h
    by_cases hpc : s.pixel_count < area
    · rw [if_pos hpc] at h
      cases hs : decompress_step aux area s with
      | none => rw [hs] at h; simp at h
      | some s2 =>
        rw [hs] at h
        simp only at h
        obtain ⟨i1, i2, i3⟩ := ih s2 left s1 h (decompress_step_bound aux area s s2 hs hpc)
        exact ⟨by omega, i2, i3⟩
    · rw [if_neg hpc] at h
      simp only [Option.some.injEq, Prod.mk.injEq] at h
      rw [← h.1, ← h.2]
      exact ⟨Nat.le_refl _, hle, Or.inr (by omega)⟩

/-- The buffer `decompress` returns for a kind-8 record with a non-empty
payload is the buffer the loop leaves. -/
theorem decompress_type8_loop (b : Bitmap) (g_aux_palettes : AuxPalettes)
    (h8 : b.type = 8) (hne : b.pixels ≠ []) :
    b.decompress g_aux_palettes =
      (decompress_loop (b.aux_palette.map g_aux_palettes) (b.width * b.height) b.data_size
        { reader := NibbleReader.mk_reader b.pixels b.get_size_in_bytes,
          buffer := List.replicate (b.width * b.height) 0, buffer_offset := 0,
          pixel_count := 0, stage := 0, count := 0, record := 0,
          repeat_count := 0 }).map (fun s => s.buffer) := by
  have hc : b.is_compressed = true := by simp [Bitmap.is_compressed, h8]
  have he : b.pixels.isEmpty = false := by
    cases hp : b.pixels with
    | nil => exact absurd hp hne
    | cons _ _ => rfl
  unfold Bitmap.decompress
  simp only [hc, he, h8]
  simp only [Bool.not_true, Bool.false_eq_true, if_false, if_true]
  cases decompress_loop (b.aux_palette.map g_aux_palettes) (b.width * b.height) b.data_size
      { reader := NibbleReader.mk_reader b.pixels b.get_size_in_bytes,
        buffer := List.replicate (b.width * b.height) 0, buffer_offset := 0,
        pixel_count := 0, stage := 0, count := 0, record := 0, repeat_count := 0 } with
  | none => rfl
  | some s => simp

/-- C26: for every kind-8 record with a non-empty payload, whatever
`data_size`, `width` and `height` are: when the loop of `decompress` ends in a
state `s` with `left` iterations of its `data_size` unused, `decompress`
returns the buffer of that state, the nibbles read are `data_size - left`, at
most `data_size`, the pixels emitted are at most `width * height`, and the loop
has stopped because one budget is used up, `left = 0` or
`pixel_count = width * height`; and the loop does end, inside its buffers and
with the write position equal to the number of pixels emitted, when the
payload holds the `(data_size + 1) / 2` bytes of its nibbles and an auxiliary
palette is bound (the state `load_from_gr` leaves a record in). -/
theorem decompress_type8_budgets (b : Bitmap) (g_aux_palettes : AuxPalettes)
    (h8 : b.type = 8) (hne : b.pixels ≠ []) :
    (∀ left s,
      decompress_loop_left (b.aux_palette.map g_aux_palettes) (b.width * b.height) b.data_size
        { reader := NibbleReader.mk_reader b.pixels b.get_size_in_bytes,
          buffer := List.replicate (b.width * b.height) 0, buffer_offset := 0,
          pixel_count := 0, stage := 0, count := 0, record := 0,
          repeat_count := 0 } = some (left, s) →
      b.decompress g_aux_palettes = some s.buffer ∧
      left ≤ b.data_size ∧ s.pixel_count ≤ b.width * b.height ∧
      (left = 0 ∨ s.pixel_count = b.width * b.height)) ∧
    (b.get_size_in_bytes ≤ b.pixels.length → b.aux_palette ≠ none →
      ∃ left s,
        decompress_loop_left (b.aux_palette.map g_aux_palettes) (b.width * b.height)
          b.data_size
          { reader := NibbleReader.mk_reader b.pixels b.get_size_in_bytes,
            buffer := List.replicate (b.width * b.height) 0, buffer_offset := 0,
            pixel_count := 0, stage := 0, count := 0, record := 0,
            repeat_count := 0 } = some (left, s) ∧
        s.buffer_offset = s.pixel_count) := by
  have hst := decompress_loop_left_state (b.aux_palette.map g_aux_palettes)
    (b.width * b.height) b.data_size
    { reader := NibbleReader.mk_reader b.pixels b.get_size_in_bytes,
      buffer := List.replicate (b.width * b.height) 0, buffer_offset := 0, pixel_count := 0,
      stage := 0, count := 0, record := 0, repeat_count := 0 }
  refine ⟨fun left s hl => ?_, fun hpay haux => ?_⟩
  · obtain ⟨i1, i2, i3⟩ := decompress_loop_left_bound _ _ _ _ _ _ hl (Nat.zero_le _)
    rw [hl] at hst
    simp only [Option.map_some'] at hst
    rw [decompress_type8_loop b g_aux_palettes h8 hne, ← hst]
    exact ⟨rfl, i1, i2, i3⟩
  · obtain ⟨k, hk⟩ := Option.ne_none_iff_exists'.mp haux
    obtain ⟨s1, hs1, hinv⟩ := decompress_loop_inv (g_aux_palettes k) (b.width * b.height)
      b.data_size
      { reader := NibbleReader.mk_reader b.pixels b.get_size_in_bytes,
        buffer := List.replicate (b.width * b.height) 0, buffer_offset := 0, pixel_count := 0,
        stage := 0, count := 0, record := 0, repeat_count := 0 }
      ⟨⟨hpay, Nat.zero_le _, by simp [NibbleReader.mk_reader],
        by simp [NibbleReader.mk_reader]⟩, by simp, rfl⟩
    rw [hk] at hst ⊢
    simp only [Option.map_some'] at hst ⊢
    rw [hs1] at hst
    cases hl : decompress_loop_left (some (g_aux_palettes k)) (b.width * b.height) b.data_size
        { reader := NibbleReader.mk_reader b.pixels b.get_size_in_bytes,
          buffer := List.replicate (b.width * b.height) 0, buffer_offset := 0,
          pixel_count := 0, stage := 0, count := 0, record := 0, repeat_count := 0 } with
    | none => rw [hl] at hst; simp at hst
    | some r =>
      obtain ⟨left, s⟩ := r
      rw [hl] at hst
      simp only [Option.map_some', Option.some.injEq] at hst
      subst hst
      exact ⟨left, s, rfl, hinv.2.2⟩

/-- C26, at the record of the stream 5, 3, 0, 0, 0, 0, 0 for an image of 2 x 1
pixels: the loop ends, within both budgets, and `decompress` returns its
buffer. -/
theorem decompress_type8_budgets_witness :
    ∃ left s, decompress_loop_left (some (example_aux_palettes 0)) 2 7
        { reader := NibbleReader.mk_reader [0x53, 0x00, 0x00, 0x00] 4,
          buffer := List.replicate 2 0, buffer_offset := 0,
          pixel_count := 0, stage := 0, count := 0, record := 0,
          repeat_count := 0 } = some (left, s) ∧
        example_long_stream_record.decompress example_aux_palettes = some s.buffer ∧
        left ≤ 7 ∧ s.pixel_count ≤ 2 ∧ s.buffer_offset = s.pixel_count ∧
        (left = 0 ∨ s.pixel_count = 2) := by
  obtain ⟨hbound, hdef⟩ := decompress_type8_budgets example_long_stream_record
    example_aux_palettes (by decide) (by decide)
  obtain ⟨left, s, hl, hoff⟩ := hdef (by decide) (by decide)
  obtain ⟨h1, h2, h3, h4⟩ := hbound left s hl
  exact ⟨left, s, hl, h1, h2, h3, hoff, h4⟩

/-- The loop at the same record: it ends after two of the seven nibbles, the
image of two pixels being full. -/
theorem decompress_long_stream_example :
    (decompress_loop_left (some (example_aux_palettes 0)) 2 7
        { reader := NibbleReader.mk_reader [0x53, 0x00, 0x00, 0x00] 4,
          buffer := List.replicate 2 0, buffer_offset := 0,
          pixel_count := 0, stage := 0, count := 0, record := 0,
          repeat_count := 0 }).map (fun r => (r.1, r.2.pixel_count, r.2.buffer))
      = some (5, 2, [30, 30]) := by
  decide

/-! ### The runs of the RLE8 decoder -/

/-- The loop continues from the machine its first `k` iterations leave. -/
theorem rle_run_steps (data : Buffer) (width y_step : Int) :
    ∀ (k : Nat) (m m1 : RleMachine), rle_steps data width y_step k m = some m1 →
      ∀ fuel, rle_run data width y_step (fuel + k) m = rle_run data width y_step fuel m1 := by
  intro k
  induction k with
  | zero =>
    intro m m1 h fuel
    rw [rle_steps] at h
    simp only [Option.some.injEq] at h
    rw [h, Nat.add_zero]
  | succ k ih =>
    intro m m1 h fuel
    rw [rle_steps] at h
    rw [show fuel + (k + 1) = (fuel + k) + 1 from rfl, rle_run]
    by_cases hf : m.state = RleState.e_rle_finished
    · rw [if_pos hf] at h
      simp only [Option.some.injEq] at h
      rw [if_pos hf, ← h]
      cases fuel with
      | zero => rw [rle_run, if_pos hf]
      | succ f => rw [rle_run, if_pos hf]
    · rw [if_neg hf] at h
      rw [if_neg hf]
      cases hs : rle_step data width y_step m with
      | none => rw [hs] at h; simp at h
      | some m2 =>
        rw [hs] at h
        simp only at h ⊢
        exact ih m2 m1 h fuel

/-- One iteration in the state `e_rle_repeat_write`. -/
theorem rle_step_repeat_write (data : Buffer) (width y_step : Int) (m : RleMachine)
    (hs : m.state = RleState.e_rle_repeat_write) :
    rle_step data width y_step m =
      if 0 ≤ m.y * width + m.x ∧ m.y * width + m.x < (m.pixels.length : Int) then
        some (if m.x + 1 = width then
          { m with pixels := m.pixels.set (m.y * width + m.x).toNat m.pixel, x := 0,
                   y := m.y + y_step, count := m.count - 1,
                   state := if m.count - 1 = 0 then RleState.e_rle_repeat
                            else RleState.e_rle_repeat_write }
        else
          { m with pixels := m.pixels.set (m.y * width + m.x).toNat m.pixel, x := m.x + 1,
                   count := m.count - 1,
                   state := if m.count - 1 = 0 then RleState.e_rle_repeat
                            else RleState.e_rle_repeat_write })
      else none := by
  unfold rle_step rle_switch write_pixel
  rw [hs]
  simp only
  by_cases hin : 0 ≤ m.y * width + m.x ∧ m.y * width + m.x < (m.pixels.length : Int)
  · rw [if_pos hin, if_pos hin]
  · rw [if_neg hin, if_neg hin]

/-- The iterations of a repeat run once its two bytes are read: `k + 1` pixels
of the value `pixel` are written as `write_run` writes them. -/
theorem rle_repeat_writes (data : Buffer) (width y_step : Int) (hw : width ≠ 0) :
    ∀ (k : Nat) (m : RleMachine), m.state = RleState.e_rle_repeat_write →
      m.count = (k : Int) + 1 → m.x ≠ width →
      rle_steps data width y_step (k + 1) m =
        (write_run width y_step (List.replicate (k + 1) m.pixel) m.x m.y m.pixels).map
          (fun r => { m with pixels := r.1, x := r.2.1, y := r.2.2, count := 0,
                             state := RleState.e_rle_repeat }) := by
  intro k
  induction k with
  | zero =>
    intro m hs hc hx
    have hnf : m.state ≠ RleState.e_rle_finished := by rw [hs]; decide
    rw [rle_steps, if_neg hnf, rle_step_repeat_write data width y_step m hs]
    rw [show List.replicate (0 + 1) m.pixel = [m.pixel] from rfl, write_run]
    have hc0 : m.count - 1 = 0 := by rw [hc]; simp
    by_cases hin : 0 ≤ m.y * width + m.x ∧ m.y * width + m.x < (m.pixels.length : Int)
    · rw [if_pos hin, if_pos hin]
      by_cases hwrap : m.x + 1 = width
      · rw [if_pos hwrap, if_pos hwrap]
        simp [rle_steps, write_run, hc0]
      · rw [if_neg hwrap, if_neg hwrap]
        simp [rle_steps, write_run, hc0]
    · rw [if_neg hin, if_neg hin]
      rfl
  | succ k ih =>
    intro m hs hc hx
    have hnf : m.state ≠ RleState.e_rle_finished := by rw [hs]; decide
    rw [rle_steps, if_neg hnf, rle_step_repeat_write data width y_step m hs]
    rw [show List.replicate (k + 1 + 1) m.pixel = m.pixel :: List.replicate (k + 1) m.pixel
      from rfl, write_run]
    have hc0 : ¬ (m.count - 1 = 0) := by rw [hc]; push_cast; omega
    have hc1 : m.count - 1 = (k : Int) + 1 := by rw [hc]; push_cast; omega
    by_cases hin : 0 ≤ m.y * width + m.x ∧ m.y * width + m.x < (m.pixels.length : Int)
    · rw [if_pos hin, if_pos hin]
      by_cases hwrap : m.x + 1 = width
      · rw [if_pos hwrap, if_pos hwrap]
        simp only [if_neg hc0]
        rw [ih _ rfl hc1 (fun h0 => hw h0.symm)]
      · rw [if_neg hwrap, if_neg hwrap]
        simp only [if_neg hc0]
        rw [ih _ rfl hc1 hwrap]
    · rw [if_neg hin, if_neg hin]
      rfl

/-- The first `a + b` iterations are the first `a` followed by `b` more. -/
theorem rle_steps_add (data : Buffer) (width y_step : Int) (b : Nat) :
    ∀ (a : Nat) (m : RleMachine),
      rle_steps data width y_step (a + b) m =
        (rle_steps data width y_step a m).bind (rle_steps data width y_step b) := by
  intro a
  induction a with
  | zero =>
    intro m
    rw [Nat.zero_add, rle_steps]
    rfl
  | succ a ih =>
    intro m
    rw [show a + 1 + b = (a + b) + 1 by omega, rle_steps, rle_steps]
    by_cases hf : m.state = RleState.e_rle_finished
    · rw [if_pos hf, if_pos hf]
      cases b with
      | zero => rfl
      | succ b => simp only [Option.some_bind]; rw [rle_steps, if_pos hf]
    · rw [if_neg hf, if_neg hf]
      cases rle_step data width y_step m with
      | none => rfl
      | some m1 => exact ih m1

/-- A run of `write_run` leaves the column away from `width`. -/
theorem write_run_col_ne (width y_step : Int) (hw : width ≠ 0) :
    ∀ (vs : List Nat) (col row : Int) (pixels : Buffer) (r : Buffer × Int × Int),
      col ≠ width → write_run width y_step vs col row pixels = some r → r.2.1 ≠ width := by
  intro vs
  induction vs with
  | nil =>
    intro col row pixels r hc h
    rw [write_run] at h
    simp only [Option.some.injEq] at h
    rw [← h]
    exact hc
  | cons v vs ih =>
    intro col row pixels r hc h
    rw [write_run] at h
    split_ifs at h with h1 h2
    · exact ih _ _ _ r (fun h0 => hw h0.symm) h
    · exact ih _ _ _ r h2 h

/-- One iteration in the state `e_rle_absolute_write`. -/
theorem rle_step_absolute_write (data : Buffer) (width y_step : Int) (m : RleMachine)
    (v : Nat) (hs : m.state = RleState.e_rle_absolute_write)
    (hv : data[m.src_offset]? = some v) :
    rle_step data width y_step m =
      if 0 ≤ m.y * width + m.x ∧ m.y * width + m.x < (m.pixels.length : Int) then
        some (if m.x + 1 = width then
          { m with pixels := m.pixels.set (m.y * width + m.x).toNat v,
                   src_offset := m.src_offset + 1, x := 0,
                   y := m.y + y_step, count := m.count - 1,
                   state := if m.count - 1 = 0 then
                              (if m.align then RleState.e_rle_align else RleState.e_rle_repeat)
                            else RleState.e_rle_absolute_write }
        else
          { m with pixels := m.pixels.set (m.y * width + m.x).toNat v,
                   src_offset := m.src_offset + 1, x := m.x + 1,
                   count := m.count - 1,
                   state := if m.count - 1 = 0 then
                              (if m.align then RleState.e_rle_align else RleState.e_rle_repeat)
                            else RleState.e_rle_absolute_write })
      else none := by
  unfold rle_step rle_switch write_pixel
  rw [hs]
  simp only [hv]
  by_cases hin : 0 ≤ m.y * width + m.x ∧ m.y * width + m.x < (m.pixels.length : Int)
  · rw [if_pos hin, if_pos hin]
  · rw [if_neg hin, if_neg hin]

/-- The iterations of an absolute run once its two bytes are read: the next
`k + 1` bytes of the data are written as `write_run` writes them. -/
theorem rle_absolute_writes (data : Buffer) (width y_step : Int) (hw : width ≠ 0) :
    ∀ (k : Nat) (m : RleMachine), m.state = RleState.e_rle_absolute_write →
      m.count = (k : Int) + 1 → m.x ≠ width → m.src_offset + (k + 1) ≤ data.length →
      rle_steps data width y_step (k + 1) m =
        (write_run width y_step ((data.drop m.src_offset).take (k + 1)) m.x m.y m.pixels).map
          (fun r => { m with pixels := r.1, x := r.2.1, y := r.2.2, count := 0,
                             src_offset := m.src_offset + (k + 1),
                             state := if m.align then RleState.e_rle_align
                                      else RleState.e_rle_repeat }) := by
  intro k
  induction k with
  | zero =>
    intro m hs hc hx hd
    have hnf : m.state ≠ RleState.e_rle_finished := by rw [hs]; decide
    have hlt : m.src_offset < data.length := by omega
    have hv : data[m.src_offset]? = some data[m.src_offset] := List.getElem?_eq_getElem hlt
    rw [rle_steps, if_neg hnf, rle_step_absolute_write data width y_step m _ hs hv]
    rw [List.drop_eq_getElem_cons hlt]
    rw [show List.take (0 + 1) (data[m.src_offset] :: List.drop (m.src_offset + 1) data)
      = [data[m.src_offset]] from rfl, write_run]
    have hc0 : m.count - 1 = 0 := by rw [hc]; simp
    by_cases hin : 0 ≤ m.y * width + m.x ∧ m.y * width + m.x < (m.pixels.length : Int)
    · rw [if_pos hin, if_pos hin]
      by_cases hwrap : m.x + 1 = width
      · rw [if_pos hwrap, if_pos hwrap]
        simp [rle_steps, write_run, hc0]
      · rw [if_neg hwrap, if_neg hwrap]
        simp [rle_steps, write_run, hc0]
    · rw [if_neg hin, if_neg hin]
      rfl
  | succ k ih =>
    intro m hs hc hx hd
    have hnf : m.state ≠ RleState.e_rle_finished := by rw [hs]; decide
    have hlt : m.src_offset < data.length := by omega
    have hv : data[m.src_offset]? = some data[m.src_offset] := List.getElem?_eq_getElem hlt
    rw [rle_steps, if_neg hnf, rle_step_absolute_write data width y_step m _ hs hv]
    rw [List.drop_eq_getElem_cons hlt]
    rw [show List.take (k + 1 + 1) (data[m.src_offset] :: List.drop (m.src_offset + 1) data)
      = data[m.src_offset] :: List.take (k + 1) (List.drop (m.src_offset + 1) data)
      from rfl, write_run]
    have hc0 : ¬ (m.count - 1 = 0) := by rw [hc]; push_cast; omega
    have hc1 : m.count - 1 = (k : Int) + 1 := by rw [hc]; push_cast; omega
    have hsrc : m.src_offset + 1 + (k + 1) = m.src_offset + (k + 1 + 1) := by omega
    by_cases hin : 0 ≤ m.y * width + m.x ∧ m.y * width + m.x < (m.pixels.length : Int)
    · rw [if_pos hin, if_pos hin]
      by_cases hwrap : m.x + 1 = width
      · rw [if_pos hwrap, if_pos hwrap]
        simp only [if_neg hc0]
        rw [ih _ rfl hc1 (fun h0 => hw h0.symm) (by simp only; omega)]
        simp only [hsrc]
      · rw [if_neg hwrap, if_neg hwrap]
        simp only [if_neg hc0]
        rw [ih _ rfl hc1 hwrap (by simp only; omega)]
        simp only [hsrc]
    · rw [if_neg hin, if_neg hin]
      rfl

/-- A run of `write_run` that fits in the rest of the row replaces the pixels
at the cursor and right of it: with `pre` the pixels before the index of the
cursor and `mid` as many pixels as the run has values, the result is `pre`,
the values, and the pixels `post` that follow. -/
theorem write_run_in_row (width y_step : Int) :
    ∀ (vs : List Nat) (col row : Int) (pre mid post : Buffer),
      row * width + col = (pre.length : Int) → col + (vs.length : Int) ≤ width →
      mid.length = vs.length →
      ∃ col1 row1, write_run width y_step vs col row (pre ++ mid ++ post)
        = some (pre ++ vs ++ post, col1, row1) := by
  intro vs
  induction vs with
  | nil =>
    intro col row pre mid post _ _ hm
    have : mid = [] := List.length_eq_zero.mp hm
    subst this
    exact ⟨col, row, rfl⟩
  | cons v vs ih =>
    intro col row pre mid post hi hc hm
    cases mid with
    | nil => simp at hm
    | cons p mid =>
      have hin : 0 ≤ row * width + col ∧
          row * width + col < ((pre ++ p :: mid ++ post).length : Int) := by
        rw [hi]
        simp only [List.length_append, List.length_cons]
        push_cast
        omega
      have hset : (pre ++ p :: mid ++ post).set (row * width + col).toNat v
          = (pre ++ [v]) ++ mid ++ post := by
        rw [hi, Int.toNat_natCast]
        simp
      rw [write_run, if_pos hin, hset]
      have hm' : mid.length = vs.length := by simpa using hm
      have hlen : ((pre ++ [v]).length : Int) = (pre.length : Int) + 1 := by simp
      simp only [List.length_cons, Nat.cast_add, Nat.cast_one] at hc
      by_cases hwrap : col + 1 = width
      · have hvs : vs = [] := List.length_eq_zero.mp (by omega)
        subst hvs
        have hmid : mid = [] := List.length_eq_zero.mp hm'
        subst hmid
        rw [if_pos hwrap]
        exact ⟨0, row + y_step, by simp [write_run]⟩
      · rw [if_neg hwrap]
        obtain ⟨c1, r1, h1⟩ := ih (col + 1) row (pre ++ [v]) mid post
          (by rw [hlen, ← hi]; ring) (by omega) hm'
        exact ⟨c1, r1, by rw [h1]; simp⟩

/-- The two iterations that read the bytes 0, n of an absolute run. -/
theorem rle_absolute_opcode (data : Buffer) (width y_step : Int) (m : RleMachine) (n : Nat)
    (hstate : m.state = RleState.e_rle_repeat) (hx : m.x ≠ width)
    (h0 : data[m.src_offset]? = some 0) (h1 : data[m.src_offset + 1]? = some n)
    (hn : 3 ≤ n) :
    rle_steps data width y_step 2 m =
      some { m with count := (n : Int), src_offset := m.src_offset + 2,
                    align := decide (n % 2 ≠ 0),
                    state := RleState.e_rle_absolute_write } := by
  have hs1 : rle_step data width y_step m
      = some { m with count := 0, src_offset := m.src_offset + 1,
                      state := RleState.e_rle_escape } := by
    unfold rle_step rle_switch
    rw [hstate]
    simp only [h0, if_true, Nat.cast_zero]
    rw [if_neg hx]
  have hs2 : rle_step data width y_step
      { m with count := 0, src_offset := m.src_offset + 1, state := RleState.e_rle_escape }
      = some { m with count := (n : Int), src_offset := m.src_offset + 2,
                      align := decide (n % 2 ≠ 0),
                      state := RleState.e_rle_absolute_write } := by
    unfold rle_step rle_switch
    simp only [h1]
    rw [if_neg (by omega), if_neg (by omega), if_neg (by omega)]
    simp only [Option.some.injEq]
    rw [if_neg hx]
  have hnf : m.state ≠ RleState.e_rle_finished := by rw [hstate]; decide
  rw [rle_steps, if_neg hnf, hs1]
  simp only
  rw [rle_steps, if_neg (by simp), hs2]
  rfl

/-- C27: when the loop is about to read an opcode (the state is
`e_rle_repeat`, the column is not `width`) and the next bytes are 0, n with
n >= 3, followed by n bytes of data, then `2 + n + n % 2` iterations write
those n bytes at the cursor one after the other (as `write_run` does, the
column wrapping at `width`), consume `2 + n + n % 2` bytes, one more than
`2 + n` exactly when n is odd, and leave the loop about to read the next
opcode; when a pixel of the run lies outside the buffer, so does a write of the
loop. -/
theorem rle_absolute_run (data : Buffer) (width y_step : Int) (m : RleMachine) (n : Nat)
    (hw : width ≠ 0) (hstate : m.state = RleState.e_rle_repeat) (hx : m.x ≠ width)
    (h0 : data[m.src_offset]? = some 0) (h1 : data[m.src_offset + 1]? = some n)
    (hn : 3 ≤ n) (hdata : m.src_offset + 2 + n ≤ data.length) :
    rle_steps data width y_step (2 + n + n % 2) m =
      (write_run width y_step ((data.drop (m.src_offset + 2)).take n) m.x m.y m.pixels).map
        (fun r => { m with pixels := r.1, x := r.2.1, y := r.2.2, count := 0,
                           align := decide (n % 2 ≠ 0),
                           src_offset := m.src_offset + 2 + n + n % 2,
                           state := RleState.e_rle_repeat }) := by
  obtain ⟨k, rfl⟩ : ∃ k, n = k + 1 := ⟨n - 1, by omega⟩
  have hwr := rle_absolute_writes data width y_step hw k
    { m with count := ((k + 1 : Nat) : Int), src_offset := m.src_offset + 2,
             align := decide ((k + 1) % 2 ≠ 0),
             state := RleState.e_rle_absolute_write }
    rfl (by push_cast; rfl) hx (by simp only; omega)
  rw [show 2 + (k + 1) + (k + 1) % 2 = 2 + ((k + 1) + (k + 1) % 2) by omega, rle_steps_add,
    rle_absolute_opcode data width y_step m (k + 1) hstate hx h0 h1 hn, Option.some_bind,
    rle_steps_add, hwr]
  simp only
  cases hr : write_run width y_step (List.take (k + 1) (List.drop (m.src_offset + 2) data))
      m.x m.y m.pixels with
  | none => rfl
  | some r =>
    have hcol := write_run_col_ne width y_step hw _ _ _ _ r hx hr
    simp only [Option.map_some', Option.some_bind]
    by_cases hodd : (k + 1) % 2 = 1
    · rw [hodd]
      simp [rle_steps, rle_step, rle_switch, hcol]
    · have hev : (k + 1) % 2 = 0 := by omega
      rw [hev]
      simp [rle_steps]

/-- C27, at a top-down image of width 4 with the cursor at (2, 0) and the
bytes 0, 3, 7, 8, 9, 0: six iterations write 7, 8, 9 at the indices 2, 3, 4
(the run crosses the end of row 0), skip the sixth byte and leave the cursor at
(1, 1). -/
theorem rle_absolute_run_witness :
    rle_steps [0, 3, 7, 8, 9, 0] 4 1 6 example_rle_machine_top_down =
      some { x := 1, y := 1, align := true, count := 0, src_offset := 6, pixel := 0,
             state := RleState.e_rle_repeat,
             pixels := [0, 0, 7, 8, 9, 0, 0, 0, 0, 0, 0, 0] } :=
  (rle_absolute_run [0, 3, 7, 8, 9, 0] 4 1 example_rle_machine_top_down 3 (by decide)
    (by decide) (by decide) (by decide) (by decide) (by decide) (by decide)).trans (by decide)

/-- C28: when the loop is about to read an opcode (the state is
`e_rle_repeat`, the column is not `width`) and the next bytes are n, v with
n >= 1, then `1 + n` iterations consume the two bytes and write v at n
consecutive cursor positions, each at the index `row * width + col`, the column
being reset to 0 and the row advanced by the step each time the column reaches
`width` (this is `write_run`), and leave the loop about to read the next
opcode; when a position of the run lies outside the buffer, so does a write of
the loop. The step is 1 for a top-down image and -1 for a bottom-up one. -/
theorem rle_repeat_run (data : Buffer) (width y_step : Int) (m : RleMachine) (n v : Nat)
    (hw : width ≠ 0) (hstate : m.state = RleState.e_rle_repeat) (hx : m.x ≠ width)
    (h0 : data[m.src_offset]? = some n) (hn : 1 ≤ n)
    (h1 : data[m.src_offset + 1]? = some v) :
    rle_steps data width y_step (1 + n) m =
      (write_run width y_step (List.replicate n v) m.x m.y m.pixels).map
        (fun r => { m with pixels := r.1, x := r.2.1, y := r.2.2, count := 0,
                           align := decide (n % 2 ≠ 0), pixel := v,
                           src_offset := m.src_offset + 2,
                           state := RleState.e_rle_repeat }) := by
  obtain ⟨k, rfl⟩ : ∃ k, n = k + 1 := ⟨n - 1, by omega⟩
  have hs1 : rle_step data width y_step m
      = some { m with count := ((k + 1 : Nat) : Int), align := decide ((k + 1) % 2 ≠ 0),
                      pixel := v, src_offset := m.src_offset + 2,
                      state := RleState.e_rle_repeat_write } := by
    unfold rle_step rle_switch
    rw [hstate]
    simp only [h0, h1]
    rw [if_neg (by omega)]
    simp only [Option.some.injEq]
    rw [if_neg hx]
  have hwr := rle_repeat_writes data width y_step hw k
    { m with count := ((k + 1 : Nat) : Int), align := decide ((k + 1) % 2 ≠ 0),
             pixel := v, src_offset := m.src_offset + 2,
             state := RleState.e_rle_repeat_write }
    rfl (by push_cast; rfl) hx
  have hnf : m.state ≠ RleState.e_rle_finished := by rw [hstate]; decide
  rw [show 1 + (k + 1) = (k + 1) + 1 by omega, rle_steps, if_neg hnf, hs1]
  simp only
  rw [hwr]

/-- C28, at a bottom-up image of width 4 with the cursor at (1, 1) and the
bytes 5, 9: six iterations write 9 at the columns 1, 2, 3 of row 1 and, the
column having reached the width, at the columns 0 and 1 of row 0, and leave the
cursor at (2, 0). -/
theorem rle_repeat_run_witness :
    rle_steps [5, 9] 4 (-1) (1 + 5) example_rle_machine =
      some { x := 2, y := 0, align := true, count := 0, src_offset := 2, pixel := 9,
             state := RleState.e_rle_repeat,
             pixels := [9, 9, 0, 0, 0, 9, 9, 9] } :=
  (rle_repeat_run [5, 9] 4 (-1) example_rle_machine 5 9 (by decide) (by decide) (by decide)
    (by decide) (by decide) (by decide)).trans (by decide)

/-- The `switch` of the RLE8 loop changes the row only in a delta escape. -/
theorem rle_switch_row (data : Buffer) (width y_step : Int) (m m1 : RleMachine)
    (h : rle_switch data width y_step m = some m1) :
    m1.y = m.y ∨ (m.state = RleState.e_rle_escape ∧ data[m.src_offset]? = some 2) := by
  unfold rle_switch at h
  cases hs : m.state with
  | e_rle_repeat =>
    rw [hs] at h
    simp only at h
    cases e0 : data[m.src_offset]? with
    | none => rw [e0] at h; simp at h
    | some count =>
      rw [e0] at h
      simp only at h
      by_cases hc : count = 0
      · rw [if_pos hc] at h
        simp only [Option.some.injEq] at h
        rw [← h]
        exact Or.inl rfl
      · rw [if_neg hc] at h
        cases e1 : data[m.src_offset + 1]? with
        | none => rw [e1] at h; simp at h
        | some pixel =>
          rw [e1] at h
          simp only [Option.some.injEq] at h
          rw [← h]
          exact Or.inl rfl
  | e_rle_repeat_write =>
    rw [hs] at h
    simp only at h
    cases e0 : write_pixel m.pixels width m.x m.y m.pixel with
    | none => rw [e0] at h; simp at h
    | some pixels =>
      rw [e0] at h
      simp only [Option.some.injEq] at h
      rw [← h]
      exact Or.inl rfl
  | e_rle_absolute_write =>
    rw [hs] at h
    simp only at h
    cases e0 : data[m.src_offset]? with
    | none => rw [e0] at h; simp at h
    | some v =>
      rw [e0] at h
      simp only at h
      cases e1 : write_pixel m.pixels width m.x m.y v with
      | none => rw [e1] at h; simp at h
      | some pixels =>
        rw [e1] at h
        simp only [Option.some.injEq] at h
        rw [← h]
        exact Or.inl rfl
  | e_rle_escape =>
    rw [hs] at h
    simp only at h
    cases e0 : data[m.src_offset]? with
    | none => rw [e0] at h; simp at h
    | some count =>
      rw [e0] at h
      simp only at h
      by_cases h0 : count = 0
      · rw [if_pos h0] at h
        simp only [Option.some.injEq] at h
        rw [← h]
        exact Or.inl rfl
      · rw [if_neg h0] at h
        by_cases h1 : count = 1
        · rw [if_pos h1] at h
          simp only [Option.some.injEq] at h
          rw [← h]
          exact Or.inl rfl
        · rw [if_neg h1] at h
          by_cases h2 : count = 2
          · exact Or.inr ⟨rfl, by rw [h2]⟩
          · rw [if_neg h2] at h
            simp only [Option.some.injEq] at h
            rw [← h]
            exact Or.inl rfl
  | e_rle_align =>
    rw [hs] at h
    simp only [Option.some.injEq] at h
    rw [← h]
    exact Or.inl rfl
  | e_rle_finished =>
    rw [hs] at h
    simp only [Option.some.injEq] at h
    rw [← h]
    exact Or.inl rfl

/-- C29: when the loop is about to read an opcode (the state is
`e_rle_repeat`, the column is not `width`, wherever in its row the cursor is)
and the next bytes are 0, 0, two iterations consume the two bytes and change
neither the cursor nor a pixel, and leave the loop about to read the next
opcode. And an iteration of the loop changes the row only when the column has
reached `width` (the column is then reset to 0 and the row advanced by the
step) or when it reads the code 2 of a delta escape. -/
theorem rle_end_of_line (data : Buffer) (width y_step : Int) (m : RleMachine)
    (hstate : m.state = RleState.e_rle_repeat) (hx : m.x ≠ width)
    (h0 : data[m.src_offset]? = some 0) (h1 : data[m.src_offset + 1]? = some 0) :
    rle_steps data width y_step 2 m =
      some { m with count := 0, src_offset := m.src_offset + 2,
                    state := RleState.e_rle_repeat } ∧
    ∀ m0 m1 : RleMachine, rle_step data width y_step m0 = some m1 → m1.y ≠ m0.y →
      (∃ m2, rle_switch data width y_step m0 = some m2 ∧ m2.x = width ∧ m1.x = 0 ∧
        m1.y = m2.y + y_step) ∨
      (m0.state = RleState.e_rle_escape ∧ data[m0.src_offset]? = some 2) := by
  refine ⟨?_, fun m0 m1 hstep hy => ?_⟩
  · have hs1 : rle_step data width y_step m
        = some { m with count := 0, src_offset := m.src_offset + 1,
                        state := RleState.e_rle_escape } := by
      unfold rle_step rle_switch
      rw [hstate]
      simp only [h0, if_true, Nat.cast_zero]
      rw [if_neg hx]
    have hs2 : rle_step data width y_step
        { m with count := 0, src_offset := m.src_offset + 1, state := RleState.e_rle_escape }
        = some { m with count := 0, src_offset := m.src_offset + 2,
                        state := RleState.e_rle_repeat } := by
      unfold rle_step rle_switch
      simp only [h1, if_true, Nat.cast_zero]
      rw [if_neg hx]
    have hnf : m.state ≠ RleState.e_rle_finished := by rw [hstate]; decide
    rw [rle_steps, if_neg hnf, hs1]
    simp only
    rw [rle_steps, if_neg (by simp), hs2]
    rfl
  · unfold rle_step at hstep
    cases hs : rle_switch data width y_step m0 with
    | none => rw [hs] at hstep; simp at hstep
    | some m2 =>
      rw [hs] at hstep
      simp only [Option.some.injEq] at hstep
      by_cases hwrap : m2.x = width
      · rw [if_pos hwrap] at hstep
        exact Or.inl ⟨m2, rfl, hwrap, by rw [← hstep], by rw [← hstep]⟩
      · rw [if_neg hwrap] at hstep
        rw [← hstep] at hy
        rcases rle_switch_row data width y_step m0 m2 hs with hrow | hdelta
        · exact absurd hrow hy
        · exact Or.inr hdelta

/-- C29, at a bottom-up image of width 4 with the cursor at (1, 1), row 1
being only partly filled, and the bytes 0, 0: two iterations leave the cursor
at (1, 1) and every pixel as it was. -/
theorem rle_end_of_line_witness :
    rle_steps [0, 0] 4 (-1) 2 example_rle_machine =
      some { example_rle_machine with src_offset := 2 } :=
  (rle_end_of_line [0, 0] 4 (-1) example_rle_machine (by decide) (by decide) (by decide)
    (by decide)).1

/-! ### The offset table `save_gr_file` computes -/

/-- C34 (the code at the failing input): for the path `data/PANELS.GR`, with
the slash as separator, `extract_dir` returns `dat`, one character short of the
directory `data`, and the palette file is looked for at `dat/PALS.DAT`; for
`/PANELS.GR`, whose last separator is at position 0, it returns the whole
path; for a path with no separator it returns the empty string. -/
theorem extract_dir_drops_last_character :
    extract_dir '/' "data/PANELS.GR".toList = "dat".toList ∧
    rfind "data/PANELS.GR".toList '/' = some 4 ∧
    "data/PANELS.GR".toList.take 4 = "data".toList ∧
    combine_path '/' (extract_dir '/' "data/PANELS.GR".toList) "PALS.DAT".toList
      = "dat/PALS.DAT".toList ∧
    extract_dir '/' "/PANELS.GR".toList = "/PANELS.GR".toList ∧
    extract_dir '/' "PANELS.GR".toList = [] := by
  decide

/-- The position `rfind` returns is inside the path. -/
theorem rfind_lt (c : Char) : ∀ (path : List Char) (i : Nat), rfind path c = some i →
    i < path.length := by
  intro path
  induction path with
  | nil => intro i h; simp [rfind] at h
  | cons x xs ih =>
    intro i h
    rw [rfind] at h
    cases hr : rfind xs c with
    | some j =>
      rw [hr] at h
      simp only [Option.some.injEq] at h
      have := ih j hr
      simp only [List.length_cons]
      omega
    | none =>
      rw [hr] at h
      simp only at h
      split at h
      · simp only [Option.some.injEq] at h
        simp only [List.length_cons]
        omega
      · simp at h

/-- Whenever the last separator of a path is at a position `name_pos` other
than 0, `extract_dir` returns the first `name_pos - 1` characters, not the
`name_pos` characters before the separator. -/
theorem extract_dir_short (sep : Char) (path : List Char) (name_pos : Nat)
    (h : rfind path sep = some name_pos) (hpos : 0 < name_pos)
    (hlen : path.length < 2 ^ k_size_bits) :
    extract_dir sep path = path.take (name_pos - 1) ∧
    (extract_dir sep path).length = name_pos - 1 ∧ (path.take name_pos).length = name_pos := by
  have hlt := rfind_lt sep path name_pos h
  have hne : path.isEmpty = false := by
    cases path with
    | nil => simp at hlt
    | cons _ _ => rfl
  have hmod : (name_pos + 2 ^ k_size_bits - 1) % 2 ^ k_size_bits = name_pos - 1 := by
    have h1 : name_pos + 2 ^ k_size_bits - 1 = (name_pos - 1) + 2 ^ k_size_bits := by omega
    rw [h1, Nat.add_mod_right]
    exact Nat.mod_eq_of_lt (by omega)
  unfold extract_dir
  simp only [hne, h, hmod, Bool.false_eq_true, if_false]
  refine ⟨trivial, ?_, ?_⟩
  · rw [List.length_take]; omega
  · rw [List.length_take]; omega

/-! ### The length and the range of a count field -/

/-- While the count field is not complete (the stage stays below 6), the
iterations of the type-8 loop only read nibbles and pass them through the
first `switch`: after the nibbles of a list, the stage and the count are those
of `decode_stages`, and nothing else but the reader has changed. -/
theorem decompress_loop_count_field (aux : Option AuxPalette) (area : Nat) :
    ∀ (ns : List Nat) (s : DecompressState) (r1 : NibbleReader),
      s.pixel_count < area →
      NibbleReader.read_many ns.length s.reader = some (ns, r1) →
      (∀ j, 1 ≤ j → j ≤ ns.length →
        (decode_stages (s.stage, s.count) (ns.take j)).1 < 6) →
      decompress_loop aux area ns.length s =
        some { s with reader := r1,
                      stage := (decode_stages (s.stage, s.count) ns).1,
                      count := (decode_stages (s.stage, s.count) ns).2 } := by
  intro ns
  induction ns with
  | nil =>
    intro s r1 _ hr _
    simp only [List.length_nil, NibbleReader.read_many, Option.some.injEq,
      Prod.mk.injEq, true_and] at hr
    rw [← hr]
    rfl
  | cons n ns ih =>
    intro s r1 hpc hr hst
    simp only [List.length_cons] at hr ⊢
    rw [NibbleReader.read_many] at hr
    cases h1 : s.reader.read with
    | none => rw [h1] at hr; simp at hr
    | some q =>
      obtain ⟨v, r⟩ := q
      rw [h1] at hr
      simp only at hr
      cases h2 : NibbleReader.read_many ns.length r with
      | none => rw [h2] at hr; simp at hr
      | some q2 =>
        obtain ⟨vs, r2⟩ := q2
        rw [h2] at hr
        simp only [Option.some.injEq, Prod.mk.injEq, List.cons.injEq] at hr
        obtain ⟨⟨hv, hvs⟩, hr2⟩ := hr
        subst hv hvs hr2
        have hfirst := hst 1 (Nat.le_refl 1) (by simp)
        simp only [List.take_succ_cons, List.take_zero, decode_stages] at hfirst
        rw [decompress_loop, if_pos hpc]
        have hstep : decompress_step aux area s =
            some { s with reader := r, stage := (decode_stage s.stage s.count v).1,
                          count := (decode_stage s.stage s.count v).2 } := by
          unfold decompress_step
          simp only [h1]
          rw [if_pos hfirst]
        rw [hstep]
        simp only
        have hrest := ih
          { s with reader := r, stage := (decode_stage s.stage s.count v).1,
                   count := (decode_stage s.stage s.count v).2 }
          r2 hpc h2 (fun j hj1 hj2 => by
            have := hst (j + 1) (by omega) (by simp; omega)
            simpa [decode_stages] using this)
        rw [hrest]
        simp [decode_stages]

/-- C31: from stage 0, whatever `count` holds and whatever six nibbles and
more follow, the count field is complete after exactly 1, 3 or 6 nibbles (the
stage is 6 then and below 6 before): after the first nibble when it is not 0,
and the count is that nibble; after the third when the first is 0 and the next
two, a and b, are not both 0, and the count is `16 a + b`; after the sixth
when the first three are 0, and the count is `256 a + 16 b + c` for the three
nibbles a, b, c that follow. The count lies in 0..4095, and it is 0 only when
the six nibbles are 0. -/
theorem count_field_lengths (count : Int) (n0 n1 n2 n3 n4 n5 : Nat) (rest : List Nat)
    (h0 : n0 < 16) (h1 : n1 < 16) (h2 : n2 < 16) (h3 : n3 < 16) (h4 : n4 < 16)
    (h5 : n5 < 16) :
    ∃ k value,
      (k = 1 ∨ k = 3 ∨ k = 6) ∧
      decode_stages (0, count) ((n0 :: n1 :: n2 :: n3 :: n4 :: n5 :: rest).take k)
        = (6, (value : Int)) ∧
      (∀ j, j < k →
        (decode_stages (0, count) ((n0 :: n1 :: n2 :: n3 :: n4 :: n5 :: rest).take j)).1 < 6) ∧
      (k = 1 ↔ n0 ≠ 0) ∧ (k = 1 → value = n0) ∧
      (k = 3 ↔ n0 = 0 ∧ ¬ (n1 = 0 ∧ n2 = 0)) ∧ (k = 3 → value = 16 * n1 + n2) ∧
      (k = 6 ↔ n0 = 0 ∧ n1 = 0 ∧ n2 = 0) ∧ (k = 6 → value = 256 * n3 + 16 * n4 + n5) ∧
      value ≤ 4095 ∧
      (value = 0 → n0 = 0 ∧ n1 = 0 ∧ n2 = 0 ∧ n3 = 0 ∧ n4 = 0 ∧ n5 = 0) := by
  by_cases c0 : n0 = 0
  · by_cases c12 : n1 = 0 ∧ n2 = 0
    · obtain ⟨c1, c2⟩ := c12
      subst c0 c1 c2
      refine ⟨6, 256 * n3 + 16 * n4 + n5, by omega, ?_, fun j hj => ?_, by omega, by omega,
        by omega, by omega, by omega, by omega, by omega, by omega⟩
      · simp only [List.take, decode_stages, decode_stage]
        simp
        ring
      · interval_cases j <;> simp [decode_stages, decode_stage]
    · subst c0
      have hne : ¬ ((n1 : Int) * 16 + (n2 : Int) = 0) := by omega
      refine ⟨3, 16 * n1 + n2, by omega, ?_, fun j hj => ?_, by omega, by omega,
        by omega, by omega, by omega, by omega, by omega, by omega⟩
      · simp only [List.take, decode_stages, decode_stage]
        simp [hne]
        ring
      · interval_cases j <;> simp [decode_stages, decode_stage]
  · refine ⟨1, n0, by omega, ?_, fun j hj => ?_, by omega, by omega,
      by omega, by omega, by omega, by omega, by omega, by omega⟩
    · simp [decode_stages, decode_stage, c0]
    · interval_cases j
      simp [decode_stages, decode_stage]

/-- C31, at the nibbles 0, 0, 0, 1, 2, 3: the field is complete after six
nibbles and the count is 291. -/
theorem count_field_lengths_witness :
    ∃ k value,
      (k = 1 ∨ k = 3 ∨ k = 6) ∧
      decode_stages (0, 7) (([0, 0, 0, 1, 2, 3, 9] : List Nat).take k) = (6, (value : Int)) ∧
      (k = 6 → value = 291) ∧ value ≤ 4095 := by
  obtain ⟨k, value, hk, hd, _, _, _, _, _, _, h6, hle, _⟩ :=
    count_field_lengths 7 0 0 0 1 2 3 [9] (by decide) (by decide) (by decide) (by decide)
      (by decide) (by decide)
  exact ⟨k, value, hk, hd, h6, hle⟩

/-! ### The writes of the type-8 loop -/

theorem repeat_write_tail (aux : Option AuxPalette) (nibble area : Nat) :
    ∀ (n : Nat) (buffer : Buffer) (pc : Nat) (r : Buffer × Nat × Nat),
      repeat_write aux nibble area n buffer pc pc = some r →
      buffer.length = area → (∀ i, pc ≤ i → i < area → buffer[i]? = some 0) →
      r.1.length = area ∧ r.2.1 = r.2.2 ∧
      ∀ i, r.2.2 ≤ i → i < area → r.1[i]? = some 0 := by
  intro n
  induction n with
  | zero =>
    intro buffer pc r h hl hz
    rw [repeat_write] at h
    simp only [Option.some.injEq] at h
    rw [← h]
    exact ⟨hl, rfl, hz⟩
  | succ n ih =>
    intro buffer pc r h hl hz
    rw [repeat_write] at h
    cases hc : aux_lookup aux nibble with
    | none => rw [hc] at h; simp at h
    | some color =>
      rw [hc] at h
      simp only at h
      have hz1 : ∀ i, pc + 1 ≤ i → i < area → (buffer.set pc color)[i]? = some 0 := by
        intro i hi hia
        rw [List.getElem?_set_ne (by omega)]
        exact hz i (by omega) hia
      split_ifs at h with h1 h2
      · simp only [Option.some.injEq] at h
        rw [← h]
        exact ⟨by simp [hl], rfl, hz1⟩
      · exact ih _ _ r h (by simp [hl]) hz1

theorem decode_record_tail (aux : Option AuxPalette) (area nibble : Nat)
    (s s1 : DecompressState) (h : decode_record aux area nibble s = some s1)
    (hs : DecompressTail area s) : DecompressTail area s1 := by
  obtain ⟨hl, ho, hz⟩ := hs
  unfold decode_record at h
  by_cases h0 : s.record = 0
  · rw [if_pos h0] at h
    split_ifs at h <;> simp only [Option.some.injEq] at h <;> rw [← h] <;> exact ⟨hl, ho, hz⟩
  · rw [if_neg h0] at h
    by_cases h1 : s.record = 1
    · rw [if_pos h1, ho] at h
      cases hw : repeat_write aux nibble area s.count.toNat s.buffer s.pixel_count
          s.pixel_count with
      | none => rw [hw] at h; simp at h
      | some r =>
        obtain ⟨buffer, off, pc⟩ := r
        obtain ⟨t1, t2, t3⟩ := repeat_write_tail aux nibble area _ _ _ _ hw hl hz
        rw [hw] at h
        simp only at h t1 t2 t3
        split_ifs at h <;> simp only [Option.some.injEq] at h <;> rw [← h] <;>
          exact ⟨t1, t2, t3⟩
    · rw [if_neg h1] at h
      by_cases h2 : s.record = 2
      · rw [if_pos h2] at h
        simp only [Option.some.injEq] at h
        rw [← h]
        exact ⟨hl, ho, hz⟩
      · rw [if_neg h2] at h
        by_cases h3 : s.record = 3
        · rw [if_pos h3] at h
          simp only [Option.some.injEq] at h
          rw [← h]
          exact ⟨hl, ho, hz⟩
        · rw [if_neg h3] at h
          by_cases h4 : s.record = 4
          · rw [if_pos h4] at h
            cases hc : aux_lookup aux nibble with
            | none => rw [hc] at h; simp at h
            | some color =>
              rw [hc] at h
              simp only at h
              have hz1 : ∀ i, s.pixel_count + 1 ≤ i → i < area →
                  (s.buffer.set s.buffer_offset color)[i]? = some 0 := by
                intro i hi hia
                rw [List.getElem?_set_ne (by omega)]
                exact hz i (by omega) hia
              split_ifs at h <;> simp only [Option.some.injEq] at h <;> rw [← h] <;>
                exact ⟨by simp [hl], by simp [ho], hz1⟩
          · rw [if_neg h4] at h
            simp only [Option.some.injEq] at h
            rw [← h]
            exact ⟨hl, ho, hz⟩

theorem decompress_step_tail (aux : Option AuxPalette) (area : Nat)
    (s s1 : DecompressState) (h : decompress_step aux area s = some s1)
    (hs : DecompressTail area s) : DecompressTail area s1 := by
  unfold decompress_step at h
  cases hr : s.reader.read with
  | none => rw [hr] at h; simp at h
  | some q =>
    obtain ⟨nibble, reader⟩ := q
    rw [hr] at h
    simp only at h
    split_ifs at h
    · simp only [Option.some.injEq] at h
      rw [← h]
      exact hs
    · exact decode_record_tail aux area nibble
        { s with reader := reader, stage := (decode_stage s.stage s.count nibble).1,
                 count := (decode_stage s.stage s.count nibble).2 } s1 h hs

/-- After any number of iterations the type-8 loop has written only below the
write position, which is the number of pixels emitted and at most `area`. -/
theorem decompress_loop_tail (aux : Option AuxPalette) (area : Nat) :
    ∀ (data_length : Nat) (s s1 : DecompressState),
      decompress_loop aux area data_length s = some s1 →
      DecompressTail area s → s.pixel_count ≤ area →
      DecompressTail area s1 ∧ s1.pixel_count ≤ area := by
  intro n
  induction n with
  | zero =>
    intro s s1 h hs hle
    rw [decompress_loop] at h
    simp only [Option.some.injEq] at h
    rw [← h]
    exact ⟨hs, hle⟩
  | succ n ih =>
    intro s s1 h hs hle
    rw [decompress_loop] at h
    by_cases hpc : s.pixel_count < area
    · rw [if_pos hpc] at h
      cases hst : decompress_step aux area s with
      | none => rw [hst] at h; simp at h
      | some s2 =>
        rw [hst] at h
        simp only at h
        exact ih s2 s1 h (decompress_step_tail aux area s s2 hst hs)
          (decompress_step_bound aux area s s2 hst hpc)
    · rw [if_neg hpc] at h
      simp only [Option.some.injEq] at h
      rw [← h]
      exact ⟨hs, hle⟩

/-- C32: for every kind-8 record, whatever its payload, `data_size`, `width`
and `height` are. After any number `k` of iterations of the loop of
`decompress`, the buffer has `width * height` cells, the write position is the
number of pixels emitted, it is at most `width * height`, and every cell from
the write position on holds 0: the writes went to the indices below it, one
after the other. The iterations are all defined, that is, no write is at an
index outside the buffer and no auxiliary-palette lookup has an index of 16 or
more, when the payload holds the `(data_size + 1) / 2` bytes of its nibbles
and an auxiliary palette is bound (the state `load_from_gr` leaves a record
in). The buffer `decompress` returns is that of the loop after `data_size`
iterations, and the empty buffer when the payload is empty. -/
theorem decompress_type8_safe (b : Bitmap) (g_aux_palettes : AuxPalettes)
    (h8 : b.type = 8) :
    (∀ k s, decompress_loop (b.aux_palette.map g_aux_palettes) (b.width * b.height) k
        (decompress_start b) = some s →
      s.buffer.length = b.width * b.height ∧ s.buffer_offset = s.pixel_count ∧
      s.pixel_count ≤ b.width * b.height ∧
      ∀ i, s.pixel_count ≤ i → i < b.width * b.height → s.buffer[i]? = some 0) ∧
    (b.get_size_in_bytes ≤ b.pixels.length → b.aux_palette ≠ none →
      ∀ k, ∃ s, decompress_loop (b.aux_palette.map g_aux_palettes) (b.width * b.height) k
        (decompress_start b) = some s) ∧
    (b.pixels ≠ [] → b.decompress g_aux_palettes =
      (decompress_loop (b.aux_palette.map g_aux_palettes) (b.width * b.height) b.data_size
        (decompress_start b)).map (fun s => s.buffer)) ∧
    (b.pixels = [] → b.decompress g_aux_palettes = some []) := by
  refine ⟨fun k s hk => ?_, fun hpay haux k => ?_, fun hne => ?_, fun hnil => ?_⟩
  · obtain ⟨⟨t1, t2, t3⟩, t4⟩ := decompress_loop_tail _ _ k (decompress_start b) s hk
      ⟨by simp [decompress_start], rfl, fun i _ hi => by
        simp [decompress_start, hi]⟩
      (Nat.zero_le _)
    exact ⟨t1, t2, t4, t3⟩
  · obtain ⟨j, hj⟩ := Option.ne_none_iff_exists'.mp haux
    obtain ⟨s1, hs1, _⟩ := decompress_loop_inv (g_aux_palettes j) (b.width * b.height) k
      (decompress_start b)
      ⟨⟨hpay, Nat.zero_le _, by simp [decompress_start, NibbleReader.mk_reader],
        by simp [decompress_start, NibbleReader.mk_reader]⟩,
        by simp [decompress_start], rfl⟩
    rw [hj]
    exact ⟨s1, hs1⟩
  · exact decompress_type8_loop b g_aux_palettes h8 hne
  · unfold Bitmap.decompress
    simp [Bitmap.is_compressed, h8, hnil]

/-- C32, at the kind-8 record of the bytes 0x12, 0x34 (2 x 2 pixels): the loop
is defined, its write position is the number of pixels emitted, and the cells
from there on hold 0. -/
theorem decompress_type8_safe_witness :
    ∃ s, decompress_loop (some (example_aux_palettes 0)) 4 4
        (decompress_start example_compressed_record) = some s ∧
      example_compressed_record.decompress example_aux_palettes = some s.buffer ∧
      s.buffer.length = 4 ∧ s.buffer_offset = s.pixel_count ∧ s.pixel_count ≤ 4 ∧
      ∀ i, s.pixel_count ≤ i → i < 4 → s.buffer[i]? = some 0 := by
  obtain ⟨hsafe, hdef, hout, _⟩ := decompress_type8_safe example_compressed_record
    example_aux_palettes (by decide)
  obtain ⟨s, hs⟩ := hdef (by decide) (by decide) 4
  obtain ⟨h1, h2, h3, h4⟩ := hsafe 4 s hs
  have ho := hout (by decide)
  refine ⟨s, hs, ?_, h1, h2, h3, h4⟩
  rw [ho]
  have hs' : decompress_loop (Option.map example_aux_palettes
      example_compressed_record.aux_palette)
      (example_compressed_record.width * example_compressed_record.height)
      example_compressed_record.data_size (decompress_start example_compressed_record)
      = some s := hs
  rw [hs']
  rfl

/-! ### The RLE8 decoder on a canonical stream -/

theorem getElem?_of_drop_eq_cons (data : Buffer) (n a : Nat) (l : Buffer)
    (h : data.drop n = a :: l) : data[n]? = some a ∧ data.drop (n + 1) = l := by
  constructor
  · have : (data.drop n)[0]? = some a := by rw [h]; simp
    rw [List.getElem?_drop] at this
    simpa using this
  · rw [← List.drop_drop, h]
    rfl

/-- The two iterations of a pair (1, v): one pixel is written at the cursor. -/
theorem rle_pair_steps (data : Buffer) (width y_step : Int) (m : RleMachine)
    (x y : Int) (src : Nat) (A B rest : Buffer) (p v : Nat)
    (hm : RleAt m x y src (A ++ p :: B)) (hx : x ≠ width)
    (hd : data.drop src = 1 :: v :: rest) (hi : y * width + x = (A.length : Int)) :
    ∃ m1, rle_steps data width y_step 2 m = some m1 ∧
      RleAt m1 (if x + 1 = width then 0 else x + 1) (if x + 1 = width then y + y_step else y)
        (src + 2) (A ++ v :: B) ∧ data.drop (src + 2) = rest := by
  obtain ⟨hs, hmx, hmy, hsrc, hp⟩ := hm
  subst hmx hmy hsrc
  obtain ⟨h0, hd1⟩ := getElem?_of_drop_eq_cons data m.src_offset 1 _ hd
  obtain ⟨h1, hd2⟩ := getElem?_of_drop_eq_cons data (m.src_offset + 1) v _ hd1
  have hs1 : rle_step data width y_step m
      = some { m with count := 1, align := true, pixel := v, src_offset := m.src_offset + 2,
                      state := RleState.e_rle_repeat_write } := by
    unfold rle_step rle_switch
    rw [hs]
    simp only [h0, h1]
    rw [if_neg (by decide)]
    simp only [Option.some.injEq]
    rw [if_neg hx]
    rfl
  have hin : 0 ≤ m.y * width + m.x ∧ m.y * width + m.x < (m.pixels.length : Int) := by
    rw [hi, hp]
    simp only [List.length_append, List.length_cons]
    push_cast
    omega
  have hset : m.pixels.set (m.y * width + m.x).toNat v = A ++ v :: B := by
    rw [hi, hp, Int.toNat_natCast]
    simp
  have hs2 := rle_step_repeat_write data width y_step
    { m with count := 1, align := true, pixel := v, src_offset := m.src_offset + 2,
             state := RleState.e_rle_repeat_write } rfl
  simp only at hs2
  rw [if_pos hin, hset] at hs2
  have hnf : m.state ≠ RleState.e_rle_finished := by rw [hs]; decide
  rw [rle_steps, if_neg hnf, hs1]
  simp only
  rw [rle_steps, if_neg (by simp), hs2]
  simp only [rle_steps]
  by_cases hwrap : m.x + 1 = width
  · rw [if_pos hwrap, if_pos hwrap, if_pos hwrap]
    exact ⟨_, rfl, ⟨by simp, rfl, rfl, rfl, rfl⟩, hd2⟩
  · rw [if_neg hwrap, if_neg hwrap, if_neg hwrap]
    exact ⟨_, rfl, ⟨by simp, rfl, rfl, rfl, rfl⟩, hd2⟩

/-- The two iterations of the bytes 0, 0: nothing but the read position moves. -/
theorem rle_eol_steps (data : Buffer) (width y_step : Int) (m : RleMachine)
    (x y : Int) (src : Nat) (pixels rest : Buffer)
    (hm : RleAt m x y src pixels) (hx : x ≠ width) (hd : data.drop src = 0 :: 0 :: rest) :
    ∃ m1, rle_steps data width y_step 2 m = some m1 ∧ RleAt m1 x y (src + 2) pixels ∧
      data.drop (src + 2) = rest := by
  obtain ⟨hs, hmx, hmy, hsrc, hp⟩ := hm
  obtain ⟨h0, hd1⟩ := getElem?_of_drop_eq_cons data src 0 _ hd
  obtain ⟨h1, hd2⟩ := getElem?_of_drop_eq_cons data (src + 1) 0 _ hd1
  have hxm : m.x ≠ width := by rw [hmx]; exact hx
  have hs1 : rle_step data width y_step m
      = some { m with count := 0, src_offset := src + 1,
                      state := RleState.e_rle_escape } := by
    unfold rle_step rle_switch
    rw [hs]
    simp only [hsrc, h0, if_true, Nat.cast_zero]
    rw [if_neg hxm]
  have hs2 : rle_step data width y_step
      { m with count := 0, src_offset := src + 1, state := RleState.e_rle_escape }
      = some { m with count := 0, src_offset := src + 2,
                      state := RleState.e_rle_repeat } := by
    unfold rle_step rle_switch
    simp only [h1, if_true, Nat.cast_zero]
    rw [if_neg hxm]
  have hnf : m.state ≠ RleState.e_rle_finished := by rw [hs]; decide
  rw [rle_steps, if_neg hnf, hs1]
  simp only
  rw [rle_steps, if_neg (by simp), hs2]
  exact ⟨_, rfl, ⟨rfl, hmx, hmy, rfl, hp⟩, hd2⟩

/-- The two iterations of the bytes 0, 1: the loop ends, the pixels are as
they were. -/
theorem rle_end_steps (data : Buffer) (width y_step : Int) (m : RleMachine)
    (x y : Int) (src : Nat) (pixels rest : Buffer)
    (hm : RleAt m x y src pixels) (hx : x ≠ width) (hd : data.drop src = 0 :: 1 :: rest) :
    ∃ m1, rle_steps data width y_step 2 m = some m1 ∧
      m1.state = RleState.e_rle_finished ∧ m1.pixels = pixels := by
  obtain ⟨hs, hmx, hmy, hsrc, hp⟩ := hm
  obtain ⟨h0, hd1⟩ := getElem?_of_drop_eq_cons data src 0 _ hd
  obtain ⟨h1, _⟩ := getElem?_of_drop_eq_cons data (src + 1) 1 _ hd1
  have hxm : m.x ≠ width := by rw [hmx]; exact hx
  have hs1 : rle_step data width y_step m
      = some { m with count := 0, src_offset := src + 1,
                      state := RleState.e_rle_escape } := by
    unfold rle_step rle_switch
    rw [hs]
    simp only [hsrc, h0, if_true, Nat.cast_zero]
    rw [if_neg hxm]
  have hs2 : rle_step data width y_step
      { m with count := 0, src_offset := src + 1, state := RleState.e_rle_escape }
      = some { m with count := 1, src_offset := src + 2,
                      state := RleState.e_rle_finished } := by
    simp [rle_step, rle_switch, h1, hxm]
  have hnf : m.state ≠ RleState.e_rle_finished := by rw [hs]; decide
  rw [rle_steps, if_neg hnf, hs1]
  simp only
  rw [rle_steps, if_neg (by simp), hs2]
  exact ⟨_, rfl, rfl, hp⟩

/-- The iterations of the pairs of a row that ends at the last column: the
pixels of the row are written from the cursor to the end of the row, and the
cursor moves to the start of the next row. -/
theorem rle_row_pairs (data : Buffer) (width y_step : Int) :
    ∀ (vs : List Nat) (v : Nat) (m : RleMachine) (x y : Int) (src : Nat)
      (A mid B rest : Buffer),
      RleAt m x y src (A ++ mid ++ B) → mid.length = vs.length + 1 →
      x + (vs.length : Int) + 1 = width → y * width + x = (A.length : Int) →
      data.drop src = (v :: vs).flatMap (fun v => [1, v]) ++ rest →
      ∃ m1, rle_steps data width y_step (2 * (vs.length + 1)) m = some m1 ∧
        RleAt m1 0 (y + y_step) (src + 2 * (vs.length + 1)) (A ++ (v :: vs) ++ B) ∧
        data.drop (src + 2 * (vs.length + 1)) = rest := by
  intro vs
  induction vs with
  | nil =>
    intro v m x y src A mid B rest hm hmid hx hi hd
    obtain ⟨p, rfl⟩ : ∃ p, mid = [p] := by
      cases mid with
      | nil => simp at hmid
      | cons p t =>
        cases t with
        | nil => exact ⟨p, rfl⟩
        | cons _ _ => simp at hmid
    simp only [List.length_nil, Nat.cast_zero, add_zero] at hx
    have hm' : RleAt m x y src (A ++ p :: B) := by simpa using hm
    have hd' : data.drop src = 1 :: v :: rest := by simpa using hd
    obtain ⟨m1, h1, h2, h3⟩ := rle_pair_steps data width y_step m x y src A B rest p v hm'
      (by omega) hd' hi
    rw [if_pos hx, if_pos hx] at h2
    exact ⟨m1, h1, by simpa using h2, h3⟩
  | cons v2 vs ih =>
    intro v m x y src A mid B rest hm hmid hx hi hd
    obtain ⟨p, mid', rfl⟩ : ∃ p mid', mid = p :: mid' := by
      cases mid with
      | nil => simp at hmid
      | cons p t => exact ⟨p, t, rfl⟩
    simp only [List.length_cons, Nat.cast_add, Nat.cast_one] at hx hmid
    have hm' : RleAt m x y src (A ++ p :: (mid' ++ B)) := by simpa using hm
    have hd' : data.drop src
        = 1 :: v :: ((v2 :: vs).flatMap (fun v => [1, v]) ++ rest) := by simpa using hd
    have hnw : ¬ (x + 1 = width) := by omega
    obtain ⟨m1, h1, h2, h3⟩ := rle_pair_steps data width y_step m x y src A (mid' ++ B) _ p v
      hm' (by omega) hd' hi
    rw [if_neg hnw, if_neg hnw] at h2
    have h2' : RleAt m1 (x + 1) y (src + 2) ((A ++ [v]) ++ mid' ++ B) := by simpa using h2
    obtain ⟨m2, k1, k2, k3⟩ := ih v2 m1 (x + 1) y (src + 2) (A ++ [v]) mid' B rest h2'
      (by omega) (by omega) (by rw [List.length_append]; push_cast; simp; omega) h3
    refine ⟨m2, ?_, ?_, ?_⟩
    · rw [show 2 * ((v2 :: vs).length + 1) = 2 + 2 * (vs.length + 1) by
        simp only [List.length_cons]; omega, rle_steps_add, h1, Option.some_bind]
      exact k1
    · have e : src + 2 + 2 * (vs.length + 1) = src + 2 * ((v2 :: vs).length + 1) := by
        simp only [List.length_cons]; omega
      rw [e] at k2
      simpa using k2
    · have e : src + 2 + 2 * (vs.length + 1) = src + 2 * ((v2 :: vs).length + 1) := by
        simp only [List.length_cons]; omega
      rw [← e]
      exact k3

/-- The iterations of a whole encoded row, from the first column: the row of
the pixel buffer the cursor is in receives the pixels, the end-of-line changes
nothing, and the cursor is at the start of the next row in the direction of the
step. -/
theorem rle_row_steps (data : Buffer) (width y_step : Int) (row : List Nat)
    (m : RleMachine) (y : Int) (src : Nat) (A mid B rest : Buffer)
    (hm : RleAt m 0 y src (A ++ mid ++ B)) (hmid : mid.length = row.length)
    (hrow : (row.length : Int) = width) (hpos : 0 < row.length)
    (hi : y * width = (A.length : Int))
    (hd : data.drop src = rle8_row row ++ rest) :
    ∃ m1, rle_steps data width y_step (2 * row.length + 2) m = some m1 ∧
      RleAt m1 0 (y + y_step) (src + (2 * row.length + 2)) (A ++ row ++ B) ∧
      data.drop (src + (2 * row.length + 2)) = rest := by
  obtain ⟨v, vs, rfl⟩ : ∃ v vs, row = v :: vs := by
    cases row with
    | nil => simp at hpos
    | cons v vs => exact ⟨v, vs, rfl⟩
  simp only [List.length_cons, Nat.cast_add, Nat.cast_one] at hrow hmid
  have hd' : data.drop src = (v :: vs).flatMap (fun v => [1, v]) ++ (0 :: 0 :: rest) := by
    rw [hd, rle8_row]
    simp
  obtain ⟨m1, h1, h2, h3⟩ := rle_row_pairs data width y_step vs v m 0 y src A mid B _ hm hmid
    (by omega) (by rw [add_zero]; exact hi) hd'
  obtain ⟨m2, k1, k2, k3⟩ := rle_eol_steps data width y_step m1 0 (y + y_step) _ _ rest h2
    (by omega) h3
  refine ⟨m2, ?_, ?_, ?_⟩
  · rw [show 2 * (v :: vs).length + 2 = 2 * (vs.length + 1) + 2 by rfl, rle_steps_add, h1,
      Option.some_bind]
    exact k1
  · exact k2
  · exact k3

theorem rle8_canonical_cons (row : List Nat) (rows : List (List Nat)) :
    rle8_canonical (row :: rows) = rle8_row row ++ rle8_canonical rows := by
  simp [rle8_canonical]

theorem rle8_row_length (row : List Nat) : (rle8_row row).length = 2 * row.length + 2 := by
  unfold rle8_row
  induction row with
  | nil => rfl
  | cons v vs ih =>
    simp only [List.flatMap_cons, List.length_append, List.length_cons, List.length_nil] at ih ⊢
    omega

theorem rle8_canonical_length (width : Nat) :
    ∀ rows : List (List Nat), (∀ r ∈ rows, r.length = width) →
      (rle8_canonical rows).length = rows.length * (2 * width + 2) + 2 := by
  intro rows
  induction rows with
  | nil => intro _; simp [rle8_canonical]
  | cons row rows ih =>
    intro h
    rw [rle8_canonical_cons, List.length_append, rle8_row_length,
      ih (fun r hr => h r (List.mem_cons_of_mem _ hr)), h row (List.mem_cons_self _ _),
      List.length_cons]
    ring

/-- The decoder on the canonical stream of rows stored from the top: the
rows are written one below the other and the loop ends. -/
theorem rle_rows_top_down (data : Buffer) (width : Nat) (hw : 0 < width) :
    ∀ (rows : List (List Nat)) (m : RleMachine) (y : Int) (src : Nat) (A T rest : Buffer),
      (∀ r ∈ rows, r.length = width) → RleAt m 0 y src (A ++ T) →
      T.length = rows.length * width → y * (width : Int) = (A.length : Int) →
      data.drop src = rle8_canonical rows ++ rest →
      ∃ m1, rle_steps data width 1 (rows.length * (2 * width + 2) + 2) m = some m1 ∧
        m1.state = RleState.e_rle_finished ∧ m1.pixels = A ++ rows.flatten := by
  intro rows
  induction rows with
  | nil =>
    intro m y src A T rest _ hm hT _ hd
    have hTn : T = [] := List.length_eq_zero.mp (by simpa using hT)
    subst hTn
    obtain ⟨m1, h1, h2, h3⟩ := rle_end_steps data width 1 m 0 y src _ rest hm
      (by exact_mod_cast (Nat.ne_of_lt hw)) (by simpa [rle8_canonical] using hd)
    exact ⟨m1, by simpa using h1, h2, by simpa using h3⟩
  | cons row rows ih =>
    intro m y src A T rest hall hm hT hi hd
    have hrl : row.length = width := hall row (List.mem_cons_self _ _)
    simp only [List.length_cons] at hT
    have hT1 : (T.take width).length = row.length := by
      rw [List.length_take, hrl]
      have : width ≤ (rows.length + 1) * width := Nat.le_mul_of_pos_left _ (by omega)
      omega
    have hm' : RleAt m 0 y src (A ++ T.take width ++ T.drop width) := by
      rw [List.append_assoc, List.take_append_drop]
      exact hm
    obtain ⟨m1, h1, h2, h3⟩ := rle_row_steps data width 1 row m y src A (T.take width)
      (T.drop width) (rle8_canonical rows ++ rest) hm' hT1 (by rw [hrl]) (by omega)
      hi (by rw [hd, rle8_canonical_cons, List.append_assoc])
    obtain ⟨m2, k1, k2, k3⟩ := ih m1 (y + 1) _ (A ++ row) (T.drop width) rest
      (fun r hr => hall r (List.mem_cons_of_mem _ hr)) (by simpa using h2)
      (by rw [List.length_drop, hT, Nat.add_mul]; omega)
      (by rw [List.length_append, hrl]; push_cast; rw [← hi]; ring) h3
    refine ⟨m2, ?_, k2, by rw [k3]; simp⟩
    rw [show (row :: rows).length * (2 * width + 2) + 2
        = (2 * row.length + 2) + (rows.length * (2 * width + 2) + 2) by
      rw [List.length_cons, hrl]; ring, rle_steps_add, h1, Option.some_bind]
    exact k1

/-- The decoder on the canonical stream of rows stored from the bottom: the
rows are written one above the other and the loop ends. -/
theorem rle_rows_bottom_up (data : Buffer) (width : Nat) (hw : 0 < width) :
    ∀ (rows : List (List Nat)) (m : RleMachine) (src : Nat) (H D rest : Buffer),
      (∀ r ∈ rows, r.length = width) → RleAt m 0 ((rows.length : Int) - 1) src (H ++ D) →
      H.length = rows.length * width →
      data.drop src = rle8_canonical rows ++ rest →
      ∃ m1, rle_steps data width (-1) (rows.length * (2 * width + 2) + 2) m = some m1 ∧
        m1.state = RleState.e_rle_finished ∧ m1.pixels = rows.reverse.flatten ++ D := by
  intro rows
  induction rows with
  | nil =>
    intro m src H D rest _ hm hH hd
    have hHn : H = [] := List.length_eq_zero.mp (by simpa using hH)
    subst hHn
    obtain ⟨m1, h1, h2, h3⟩ := rle_end_steps data width (-1) m 0 _ src _ rest hm
      (by exact_mod_cast (Nat.ne_of_lt hw)) (by simpa [rle8_canonical] using hd)
    exact ⟨m1, by simpa using h1, h2, by simpa using h3⟩
  | cons row rows ih =>
    intro m src H D rest hall hm hH hd
    have hrl : row.length = width := hall row (List.mem_cons_self _ _)
    simp only [List.length_cons] at hH hm
    have hH0 : (H.take (rows.length * width)).length = rows.length * width := by
      rw [List.length_take, hH, Nat.add_mul]
      omega
    have hH1 : (H.drop (rows.length * width)).length = row.length := by
      rw [List.length_drop, hH, hrl, Nat.add_mul]
      omega
    have hm' : RleAt m 0 (rows.length : Int) src
        (H.take (rows.length * width) ++ H.drop (rows.length * width) ++ D) := by
      rw [List.take_append_drop]
      have e : ((rows.length + 1 : Nat) : Int) - 1 = (rows.length : Int) := by
        push_cast; ring
      rw [← e]
      exact hm
    obtain ⟨m1, h1, h2, h3⟩ := rle_row_steps data width (-1) row m (rows.length : Int) src
      (H.take (rows.length * width)) (H.drop (rows.length * width)) D
      (rle8_canonical rows ++ rest) hm' hH1 (by rw [hrl]) (by omega)
      (by rw [hH0]; push_cast; ring) (by rw [hd, rle8_canonical_cons, List.append_assoc])
    obtain ⟨m2, k1, k2, k3⟩ := ih m1 _ (H.take (rows.length * width)) (row ++ D) rest
      (fun r hr => hall r (List.mem_cons_of_mem _ hr))
      (by rw [← List.append_assoc]; exact h2) hH0 h3
    refine ⟨m2, ?_, k2, by rw [k3]; simp⟩
    rw [show (row :: rows).length * (2 * width + 2) + 2
        = (2 * row.length + 2) + (rows.length * (2 * width + 2) + 2) by
      rw [List.length_cons, hrl]; ring, rle_steps_add, h1, Option.some_bind]
    exact k1

theorem image_rows_length (width : Nat) :
    ∀ (height : Nat) (image : Buffer), (image_rows width height image).length = height := by
  intro height
  induction height with
  | zero => intro image; rfl
  | succ h ih => intro image; simp [image_rows, ih]

/-- The rows of an image of `width * height` pixels have `width` pixels each,
and one after the other they are the image. -/
theorem image_rows_spec (width : Nat) :
    ∀ (height : Nat) (image : Buffer), image.length = width * height →
      (∀ r ∈ image_rows width height image, r.length = width) ∧
      (image_rows width height image).flatten = image := by
  intro height
  induction height with
  | zero =>
    intro image hl
    have : image = [] := List.length_eq_zero.mp (by simpa using hl)
    subst this
    exact ⟨fun r hr => by simp [image_rows] at hr, rfl⟩
  | succ h ih =>
    intro image hl
    have hd : (image.drop width).length = width * h := by
      rw [List.length_drop, hl, Nat.mul_succ]
      omega
    obtain ⟨i1, i2⟩ := ih (image.drop width) hd
    refine ⟨fun r hr => ?_, ?_⟩
    · simp only [image_rows, List.mem_cons] at hr
      rcases hr with rfl | hr
      · rw [List.length_take, hl, Nat.mul_succ]
        omega
      · exact i1 r hr
    · simp only [image_rows, List.flatten_cons, i2, List.take_append_drop]

/-- The loop ends in the machine its first `k` iterations reach, when that
machine is in the state `e_rle_finished` and the fuel allows `k` iterations. -/
theorem rle_run_of_steps (data : Buffer) (width y_step : Int) (k fuel : Nat)
    (m m1 : RleMachine) (h : rle_steps data width y_step k m = some m1)
    (hf : m1.state = RleState.e_rle_finished) (hk : k ≤ fuel) :
    rle_run data width y_step fuel m = some m1 := by
  have h1 := rle_run_steps data width y_step k m m1 h (fuel - k)
  rw [Nat.sub_add_cancel hk] at h1
  rw [h1]
  cases fuel - k with
  | zero => rw [rle_run, if_pos hf]
  | succ f => rw [rle_run, if_pos hf]

/-- The pixel decoder of `import_from_bmp` on the canonical stream of an
image: the loop ends, inside the buffers, and the payload is the image. -/
theorem import_pixels_canonical (b : Bitmap) (data image : Buffer) (info : BmpInfoHeader)
    (width height : Nat) (special : Special)
    (hw : 0 < width) (himg : image.length = width * height)
    (hcomp : info.is_compressed = true)
    (hdata : data = rle8_canonical
      (if info.biHeight < 0 then image_rows width height image
       else (image_rows width height image).reverse)) :
    b.import_pixels data info (width : Int) (height : Int) special =
      some (true, { b with pixels := image, type := 4, width := width, height := height,
                           special := special, data_size := width * height,
                           aux_palette := none }) := by
  obtain ⟨hall, hflat⟩ := image_rows_spec width height image himg
  have hlen := image_rows_length width height image
  have hwh : ((width : Int) * (height : Int)).toNat = width * height := by
    rw [← Int.natCast_mul, Int.toNat_natCast]
  have hrun : ∃ m1,
      rle_run data width (if decide (info.biHeight < 0) = true then 1 else -1) (rle_fuel data)
        { x := 0, y := if decide (info.biHeight < 0) = true then 0 else (height : Int) - 1,
          align := false, count := 0, src_offset := 0, pixel := 0,
          state := RleState.e_rle_repeat,
          pixels := List.replicate ((width : Int) * (height : Int)).toNat 0 } = some m1 ∧
        m1.pixels = image := by
    rw [hwh]
    by_cases htop : info.biHeight < 0
    · rw [if_pos htop] at hdata
      simp only [htop, decide_True, if_true]
      obtain ⟨m1, h1, h2, h3⟩ := rle_rows_top_down data width hw
        (image_rows width height image)
        { x := 0, y := 0, align := false, count := 0, src_offset := 0, pixel := 0,
          state := RleState.e_rle_repeat, pixels := List.replicate (width * height) 0 }
        0 0 [] (List.replicate (width * height) 0) [] hall
        ⟨rfl, rfl, rfl, rfl, rfl⟩
        (by rw [List.length_replicate, hlen, Nat.mul_comm])
        (by simp) (by rw [hdata]; simp)
      refine ⟨m1, ?_, by rw [h3, hflat]; rfl⟩
      refine rle_run_of_steps data width 1 _ _ _ m1 h1 h2 ?_
      unfold rle_fuel
      rw [hdata, rle8_canonical_length width _ hall]
      omega
    · rw [if_neg htop] at hdata
      simp only [htop, decide_False, Bool.false_eq_true, if_false]
      have hall' : ∀ r ∈ (image_rows width height image).reverse, r.length = width :=
        fun r hr => hall r (List.mem_reverse.mp hr)
      have hlen' : (image_rows width height image).reverse.length = height := by
        rw [List.length_reverse, hlen]
      obtain ⟨m1, h1, h2, h3⟩ := rle_rows_bottom_up data width hw
        (image_rows width height image).reverse
        { x := 0, y := (height : Int) - 1, align := false, count := 0, src_offset := 0,
          pixel := 0, state := RleState.e_rle_repeat,
          pixels := List.replicate (width * height) 0 }
        0 (List.replicate (width * height) 0) [] [] hall'
        ⟨rfl, rfl, by rw [hlen'], rfl, by simp⟩
        (by rw [List.length_replicate, hlen', Nat.mul_comm])
        (by rw [hdata]; simp)
      refine ⟨m1, ?_, by rw [h3, List.reverse_reverse, hflat]; simp⟩
      refine rle_run_of_steps data width (-1) _ _ _ m1 h1 h2 ?_
      unfold rle_fuel
      rw [hdata, rle8_canonical_length width _ hall']
      omega
  obtain ⟨m1, hr1, hr2⟩ := hrun
  unfold Bitmap.import_pixels
  simp only [hcomp, if_true]
  rw [hr1]
  simp only [Option.map_some', hr2, hwh, Int.toNat_natCast]

/-- C33: for every image of `width * height` pixels, 1 <= width, height <= 255,
given in top-to-bottom row-major order, and every file with valid headers that
declare RLE8, the width, and the height with either sign (negative: the rows
are stored from the top; positive: from the bottom), whose pixel data is the
canonical stream of the stored rows (the pairs (1, v) of each row, then 0, 0,
and 0, 1 at the end): `import_from_bmp` into a record of that width and height
returns `true`, its loop ends without leaving a buffer, and the payload of the
record is exactly the image. -/
theorem import_rle8_canonical (b : Bitmap) (file image : Buffer) (special : Special)
    (header : BmpHeader) (s1 : Buffer) (info : BmpInfoHeader) (rest : Buffer)
    (hh : BmpHeader.load_from_stream file = some (header, s1))
    (hi : BmpInfoHeader.load_from_stream s1 = some (info, rest))
    (c1 : header.bfType = 0x4D42) (c2 : ¬ to_long info.biSize < 40)
    (c6 : info.biPlanes = 1) (c7 : info.biBitCount = 8) (hcomp : info.biCompression = 1)
    (c10 : ¬ (info.biClrUsed ≠ 0 ∧ info.biClrUsed ≠ 256))
    (hfile : header.bfOffBits + info.biSizeImage ≤ file.length)
    (hw1 : 1 ≤ b.width) (hw2 : b.width ≤ 255) (hh1 : 1 ≤ b.height) (hh2 : b.height ≤ 255)
    (cw : info.biWidth = (b.width : Int))
    (ch : info.biHeight = (b.height : Int) ∨ info.biHeight = -(b.height : Int))
    (himg : image.length = b.width * b.height)
    (hdata : (file.drop header.bfOffBits).take info.biSizeImage =
      rle8_canonical
        (if info.biHeight < 0 then image_rows b.width b.height image
         else (image_rows b.width b.height image).reverse)) :
    b.import_from_bmp file special =
      some (true, { b with pixels := image, type := 4, special := special,
                           data_size := b.width * b.height, aux_palette := none }) := by
  have hcmp : info.is_compressed = true := by
    simp [BmpInfoHeader.is_compressed, hcomp]
  have habs : abs_long info.biHeight = (b.height : Int) := by
    unfold abs_long
    rcases ch with ch | ch
    · rw [ch, if_neg (by omega)]
      exact abs_of_nonneg (by omega)
    · rw [ch, if_neg (by omega), abs_neg]
      exact abs_of_nonneg (by omega)
  have habsw : abs_long info.biWidth = (b.width : Int) := by
    unfold abs_long
    rw [cw, if_neg (by omega)]
    exact abs_of_nonneg (by omega)
  have hsize : info.biSizeImage ≠ 0 := by
    intro h0
    rw [h0, List.take_zero] at hdata
    have := congrArg List.length hdata
    simp [rle8_canonical] at this
  have hvalid := import_from_bmp_valid b file special header s1 info rest hh hi c1 c2
    (by rw [cw]; rcases ch with ch | ch <;> rw [ch] <;> omega)
    (by rw [habsw]; unfold k_max_width; omega)
    (by rw [habs]; unfold k_max_height; omega)
    c6 c7 (Or.inr hcomp) (fun h => hsize h.2) c10 (fun h => by omega) cw.symm habs.symm
  rw [hvalid, cw, habs]
  exact import_pixels_canonical b _ image info b.width b.height special hw1 himg hcmp hdata

/-- C33, at the 2 x 2 image with the rows 1, 2 and 3, 4 stored bottom-up, and
a kind-8 record of 2 x 2 pixels: the import succeeds and the payload is
1, 2, 3, 4. -/
theorem import_rle8_canonical_witness :
    example_compressed_record.import_from_bmp example_rle_file Special.e_default =
      some (true, { example_compressed_record with
                      pixels := [1, 2, 3, 4], type := 4, special := Special.e_default,
                      data_size := 4, aux_palette := none }) :=
  import_rle8_canonical example_compressed_record example_rle_file [1, 2, 3, 4]
    Special.e_default example_rle_header
    (example_rle_info_header.save_to_stream ++ [1, 3, 1, 4, 0, 0, 1, 1, 1, 2, 0, 0, 0, 1])
    example_rle_info_header [1, 3, 1, 4, 0, 0, 1, 1, 1, 2, 0, 0, 0, 1]
    (by decide) (by decide) (by decide) (by decide) (by decide) (by decide) (by decide)
    (by decide) (by decide) (by decide) (by decide) (by decide) (by decide) (by decide)
    (by decide) (by decide) (by decide)

/-- The same import evaluated: the decoder run on the 14 bytes gives the
payload 1, 2, 3, 4. -/
theorem import_rle8_example :
    (example_compressed_record.import_from_bmp example_rle_file Special.e_default).map
      (fun r => (r.1, r.2.pixels, r.2.type)) = some (true, [1, 2, 3, 4], 4) := by
  decide

/-! ### The exported file where `long` has 8 bytes -/

theorem le_bytes_four (v : Nat) : le_bytes 4 v = le32 v := by
  simp only [le_bytes, le32, Nat.div_div_eq_div_mul]

theorem le_bytes_two (v : Nat) : le_bytes 2 v = le16 v := rfl

theorem to_signed_four (v : Nat) : to_signed 4 v = to_long v := by
  unfold to_signed to_long
  norm_num

/-- With 4 bytes for `long` the file header is written as `save_to_stream`
writes it. -/
theorem bmp_header_sized_four (h : BmpHeader) :
    h.save_to_stream_sized 4 = h.save_to_stream := by
  simp only [BmpHeader.save_to_stream_sized, BmpHeader.save_to_stream, le_bytes_four,
    le_bytes_two]

/-- With 4 bytes for `long` the info header is written as `save_to_stream`
writes it. -/
theorem bmp_info_header_sized_four (h : BmpInfoHeader) :
    h.save_to_stream_sized 4 = h.save_to_stream := by
  simp only [BmpInfoHeader.save_to_stream_sized, BmpInfoHeader.save_to_stream,
    le_bytes_four, le_bytes_two, le_bytes_long, le32_long]
  norm_num

/-- With 4 bytes for `long` the headers are read as `load_from_stream` reads
them. -/
theorem load_from_stream_sized_four (stream : Buffer) :
    BmpHeader.load_from_stream_sized 4 stream = BmpHeader.load_from_stream stream ∧
    BmpInfoHeader.load_from_stream_sized 4 stream = BmpInfoHeader.load_from_stream stream := by
  constructor
  · rfl
  · simp only [BmpInfoHeader.load_from_stream_sized, BmpInfoHeader.load_from_stream,
      to_signed_four]

/-- With 4 bytes for `long` the file is the one `export_to_bmp` writes. -/
theorem export_to_bmp_sized_four (b : Bitmap) (g_aux_palettes : AuxPalettes)
    (padding : Nat → Nat) :
    b.export_to_bmp_sized 4 g_aux_palettes padding = b.export_to_bmp g_aux_palettes padding := by
  simp only [Bitmap.export_to_bmp_sized, Bitmap.export_to_bmp, bmp_header_sized_four,
    bmp_info_header_sized_four]

/-- C1 (the code at the failing input): where `long` has 8 bytes, the file
`export_to_bmp` writes for the raw record of 3 x 2 pixels 1, 2, 3, 4, 5, 6 has
1130 bytes, with the two rows at offset 1122, after a file header of 22 bytes,
an info header of 76 bytes and the palette; the two headers read back with the
values the export gave them, `bfOffBits` = 1078 and `biSizeImage` = 8 among
them; the 8 bytes at offset 1078, which the import seeks to, are the last two
entries of the palette, and the pixel decoder of `import_from_bmp` makes of
them the payload 44, 44, 44, 44, 44, 44, with the flag `true`. Where `long`
has 4 bytes the file has 1086 bytes and the rows are at offset 1078. -/
theorem export_import_long64_loses_payload :
    (example_grey_record.export_to_bmp_sized 8 example_aux_palettes (fun _ => 0)).map
      (fun file => (file.length, file.drop 1122, (file.drop 1078).take 8))
      = some (1130, [1, 2, 3, 0, 4, 5, 6, 0], [44, 44, 44, 0, 44, 44, 44, 0]) ∧
    ((example_grey_record.export_to_bmp_sized 8 example_aux_palettes (fun _ => 0)).bind
      (BmpHeader.load_from_stream_sized 8)).map (fun r => (r.1, r.2.length))
      = some (example_export_header, 1130 - 22) ∧
    (((example_grey_record.export_to_bmp_sized 8 example_aux_palettes (fun _ => 0)).bind
      (BmpHeader.load_from_stream_sized 8)).bind
        (fun r => BmpInfoHeader.load_from_stream_sized 8 r.2)).map (fun q => (q.1, q.2.length))
      = some (example_export_info_header, 1130 - 22 - 76) ∧
    (example_grey_record.import_pixels [44, 44, 44, 0, 44, 44, 44, 0]
        example_export_info_header 3 2 Special.e_default).map (fun r => (r.1, r.2.pixels))
      = some (true, [44, 44, 44, 44, 44, 44]) ∧
    example_grey_record.pixels = [1, 2, 3, 4, 5, 6] ∧
    (example_grey_record.export_to_bmp_sized 4 example_aux_palettes (fun _ => 0)).map
      (fun file => (file.length, file.drop 1078)) = some (1086, [1, 2, 3, 0, 4, 5, 6, 0]) := by
  decide

end Uw2GrTool
